import Mathlib

/-!
Terminal_Snake: a shallow embedding of `src/main.cpp`.

The program keeps its snake as heap-allocated `Node`s that are linked by raw
`next` / `prev` pointers and, in parallel, listed in the vector `snake.body`.
The embedding keeps that shape:

* a pointer is a natural number, `0` being `nullptr`;
* the heap is the list of all nodes allocated so far, the node at address
  `p > 0` being cell `p - 1`; `new Node` appends a cell, so a fresh node never
  aliases a live one;
* dereferencing `nullptr` or an address that was never allocated is undefined
  behaviour in C++; every function that dereferences returns `Option`, and
  `none` stands for that;
* `int` is modelled by `Int`: the coordinates are terminal cells and the score
  a small multiple of 10, and signed overflow is undefined in C++ anyway;
* cursor escape sequences written to `std::cout` are not part of the state;
  the dereferences made while printing are kept, since they can fault.

`NodeType` and the field `Node::type` are declared in the source but never
written or read, so they are left out.
-/

namespace TerminalSnake

/-- The enum `Direction` of the source. -/
inductive Direction
  | UP
  | DOWN
  | LEFT
  | RIGHT
deriving DecidableEq, Repr

/-- The struct `Node`; `next` and `prev` are addresses, `0` is `nullptr`. -/
structure Node where
  xPos : Int
  yPos : Int
  next : Nat
  prev : Nat
  dir : Direction
deriving DecidableEq, Repr

/-- The heap: cell `p - 1` holds the node at address `p`. -/
abbrev Heap := List Node

/-- Read through a pointer (`p->...`); `none` for `nullptr` and for an address
that was never allocated. -/
def Heap.deref (h : Heap) (p : Nat) : Option Node :=
  if p = 0 then none else h[p - 1]?

/-- Overwrite the node at address `p`; only used after `deref` succeeded. -/
def Heap.store (h : Heap) (p : Nat) (n : Node) : Heap :=
  if p = 0 then h else h.set (p - 1) n

/-- The struct `Snake`: three pointers and the vector of segment pointers. -/
structure Snake where
  head : Nat
  tail : Nat
  digFood : Nat
  body : List Nat
deriving DecidableEq, Repr

/-- The memory the snake functions work on: the heap and the `Snake` object
that is passed by reference. -/
structure World where
  heap : Heap
  snake : Snake
deriving DecidableEq, Repr

def BOARD_WIDTH : Int := 40
def BOARD_HEIGHT : Int := 20

/-- The function `createNode(x, y)`: `new Node`, position set, both links set
to `nullptr`. The source leaves `dir` uninitialised; `d0` is the value the
fresh cell happens to hold. Returns the new heap and the new address. -/
def createNode (h : Heap) (x y : Int) (d0 : Direction) : Heap × Nat :=
  (h ++ [{ xPos := x, yPos := y, next := 0, prev := 0, dir := d0 }], h.length + 1)

/-- The first loop of `moveSnake` (and the loop of `drawSnake`): every pointer
of `body` is dereferenced to print at its cell. -/
def derefAll (h : Heap) (body : List Nat) : Option Unit :=
  if body.all (fun p => (h.deref p).isSome) then some () else none

/-- The second loop of `moveSnake`, `for (i = size - 1; i > 0; --i)`, entered
with `i = k`: `body[i]` receives `xPos`, `yPos` and `dir` of `body[i]->prev`,
read from the heap at that moment. -/
def propagate (body : List Nat) : Nat → Heap → Option Heap
  | 0, h => some h
  | i + 1, h => do
    let b ← body[i + 1]?
    let n ← h.deref b
    let q ← h.deref n.prev
    propagate body i (h.store b { n with xPos := q.xPos, yPos := q.yPos, dir := q.dir })

/-- The `switch (snake.head->dir)` of `moveSnake`. -/
def stepHead (n : Node) : Node :=
  match n.dir with
  | Direction.UP => { n with yPos := n.yPos - 1 }
  | Direction.DOWN => { n with yPos := n.yPos + 1 }
  | Direction.LEFT => { n with xPos := n.xPos - 2 }
  | Direction.RIGHT => { n with xPos := n.xPos + 2 }

/-- The function `moveSnake`. -/
def moveSnake (w : World) : Option World := do
  derefAll w.heap w.snake.body
  let h1 ← propagate w.snake.body (w.snake.body.length - 1) w.heap
  let hd ← h1.deref w.snake.head
  some { w with heap := h1.store w.snake.head (stepHead hd) }

/-- The assignment `p->prev = v`. -/
def setPrev (h : Heap) (p v : Nat) : Option Heap := do
  let n ← h.deref p
  some (h.store p { n with prev := v })

/-- The assignment `p->next = v`. -/
def setNext (h : Heap) (p v : Nat) : Option Heap := do
  let n ← h.deref p
  some (h.store p { n with next := v })

/-- The `switch (snake.tail->dir)` of `growSnake`: the pair `(newX, newY)`
computed from the tail node. -/
def growPos (t : Node) : Int × Int :=
  match t.dir with
  | Direction.UP => (t.xPos, t.yPos - 1)
  | Direction.DOWN => (t.xPos, t.yPos + 1)
  | Direction.LEFT => (t.xPos - 1, t.yPos)
  | Direction.RIGHT => (t.xPos + 1, t.yPos)

/-- The call `v.insert(v.end() - 1, a)`: `a` is put in front of the last
element. On an empty vector `end() - 1` is not a valid iterator. -/
def insertBeforeLast (v : List Nat) (a : Nat) : Option (List Nat) :=
  if v = [] then none else some (v.take (v.length - 1) ++ a :: v.drop (v.length - 1))

/-- The function `growSnake`; `d0` is the uninitialised `dir` of the node it
allocates. -/
def growSnake (w : World) (d0 : Direction) : Option World := do
  let t ← w.heap.deref w.snake.tail
  let (newX, newY) := growPos t
  let (h1, a) := createNode w.heap newX newY d0
  let body ← insertBeforeLast w.snake.body a
  let n ← body[body.length - 2]?
  let t1 ← h1.deref w.snake.tail
  let h2 ← setPrev h1 n t1.prev
  let h3 ← setNext h2 n w.snake.tail
  let t3 ← h3.deref w.snake.tail
  let h4 ← setNext h3 t3.prev n
  let h5 ← setPrev h4 w.snake.tail n
  some { heap := h5, snake := { w.snake with body := body } }

/-- The loop of `checkFoodPos` over the remaining segments: `false` at the
first segment on `(fx, fy)`, `true` when none is. -/
def checkFoodPosLoop (h : Heap) (fx fy : Int) : List Nat → Option Bool
  | [] => some true
  | p :: rest => do
    let n ← h.deref p
    if n.xPos = fx ∧ n.yPos = fy then some false else checkFoodPosLoop h fx fy rest

/-- The function `checkFoodPos`. -/
def checkFoodPos (w : World) (fx fy : Int) : Option Bool :=
  checkFoodPosLoop w.heap fx fy w.snake.body

/-- The adjustment `if (foodX % 2 != 0) --foodX;` of `drawFood`; `%` of C++
truncates towards zero. -/
def evenColumn (x : Int) : Int :=
  if x.tmod 2 ≠ 0 then x - 1 else x

/-- The function `drawFood`. The random engine is modelled by the list of the
pairs `(xDist(seed), yDist(seed))` it will deliver; the result carries the
unread rest. The `do ... while` loop of the source has no bound: `none` is
also the answer when the listed samples are used up before a free cell is
drawn. -/
def drawFood (w : World) (food : Nat) : List (Int × Int) → Option (World × List (Int × Int))
  | [] => none
  | (x, y) :: rest => do
    let foodX := evenColumn x
    let foodY := y
    let free ← checkFoodPos w foodX foodY
    if free then
      let f ← w.heap.deref food
      some ({ w with heap := w.heap.store food { f with xPos := foodX, yPos := foodY } }, rest)
    else
      drawFood w food rest

/-- The loop of `checkForCollision` over `body[1 ..]`: `false` at the first
segment on the head's cell. -/
def overlapLoop (h : Heap) (head : Nat) : List Nat → Option Bool
  | [] => some true
  | p :: rest => do
    let hd ← h.deref head
    let n ← h.deref p
    if hd.xPos = n.xPos ∧ hd.yPos = n.yPos then some false else overlapLoop h head rest

/-- The function `checkForCollision`: `true` means alive. -/
def checkForCollision (minX minY : Int) (w : World) : Option Bool := do
  let hd ← w.heap.deref w.snake.head
  if hd.xPos ≤ minX ∨ hd.xPos ≥ minX + BOARD_WIDTH ∨
      hd.yPos ≤ minY ∨ hd.yPos ≥ minY + BOARD_HEIGHT - 1 then
    some false
  else
    overlapLoop w.heap w.snake.head (w.snake.body.drop 1)

/-- The condition under which `drawGameBoard` prints a border `#` at column
`j`, row `i`, the two `for` ranges included. -/
def isBorderCell (x y : Int) (j i : Int) : Prop :=
  (y ≤ i ∧ i < BOARD_HEIGHT + y) ∧ (x ≤ j ∧ j < BOARD_WIDTH + x) ∧
    (i = y ∨ i = BOARD_HEIGHT + y - 1 ∨ j = x ∨ j = BOARD_WIDTH + x - 1)

instance (x y j i : Int) : Decidable (isBorderCell x y j i) := by
  unfold isBorderCell; infer_instance

/-- The test of `checkWindowSize` on the size `ioctl` reports (`ws_col` and
`ws_row` are unsigned). -/
def checkWindowSize (cols rows : Nat) : Bool :=
  decide ((cols : Int) ≥ BOARD_WIDTH * 2 ∧ (rows : Int) ≥ BOARD_HEIGHT * 2)

/-- The locals of `main` that change while the game runs. `eaten` and `grown`
are not in the source: they count how often the food branch and `growSnake`
ran, so that statements about "foods eaten so far" can be written. -/
structure Session where
  world : World
  food : Nat
  score : Int
  startX : Int
  startY : Int
  gameActive : Bool
  ch : Char
  rng : List (Int × Int)
  eaten : Nat
  grown : Nat
deriving DecidableEq, Repr

/-- The values `main` reads without having written them: `int score;` and
`char ch;` have no initialiser, and `createNode` does not set `dir`. -/
structure Indeterminate where
  score : Int
  ch : Char
  dir : Direction

/-- The arena offset `startX` of `main`, made even. -/
def mainStartX (windowW : Nat) : Int :=
  let startX := (windowW : Int).tdiv 2 - BOARD_WIDTH.tdiv 2
  if startX.tmod 2 ≠ 0 then startX - 1 else startX

/-- The arena offset `startY` of `main`. -/
def mainStartY (windowH : Nat) : Int :=
  (windowH : Int).tdiv 2 - BOARD_HEIGHT.tdiv 2

/-- Set `dir = RIGHT` on every node of `body` (`for (Node *n : snake.body)`). -/
def setAllRight (h : Heap) : List Nat → Option Heap
  | [] => some h
  | p :: rest => do
    let n ← h.deref p
    setAllRight (h.store p { n with dir := Direction.RIGHT }) rest

/-- The part of `main` from the size check to the first `drawSnake`: the inner
`none` stands for `return 1`, otherwise the result is the state the loop starts
in. The first pair of `rng` is what `createNode(xDistr(eng), yDistr(eng))`
draws for the food node; `drawFood` overwrites it at once. -/
def mainInit (windowW windowH : Nat) (u : Indeterminate) (rng : List (Int × Int)) :
    Option (Option Session) :=
  if !checkWindowSize windowW windowH then some none
  else do
    let startX := mainStartX windowW
    let startY := mainStartY windowH
    let (h1, b0) := createNode [] (startX + BOARD_WIDTH.tdiv 2) (startY + BOARD_HEIGHT.tdiv 2) u.dir
    let (h2, b1) := createNode h1 (startX + BOARD_WIDTH.tdiv 2 - 1) (startY + BOARD_HEIGHT.tdiv 2) u.dir
    let (h3, b2) := createNode h2 (startX + BOARD_WIDTH.tdiv 2 - 2) (startY + BOARD_HEIGHT.tdiv 2) u.dir
    let body := [b0, b1, b2]
    let head := b0
    let tail := b2
    let h4 ← setNext h3 head b1
    let hd ← h4.deref head
    let h5 ← setPrev h4 hd.next head
    let hd ← h5.deref head
    let h6 ← setNext h5 hd.next tail
    let hd ← h6.deref head
    let h7 ← setPrev h6 tail hd.next
    let h8 ← setAllRight h7 body
    let snake : Snake := { head := head, tail := tail, digFood := 0, body := body }
    match rng with
    | [] => none
    | (fx, fy) :: rng1 =>
      let (h9, food) := createNode h8 fx fy u.dir
      let (w, rng2) ← drawFood { heap := h9, snake := snake } food rng1
      derefAll w.heap w.snake.body
      some (some { world := w, food := food, score := u.score, startX := startX,
                   startY := startY, gameActive := true, ch := u.ch, rng := rng2,
                   eaten := 0, grown := 0 })

/-- The assignment `snake.head->dir = d` of the key handler. -/
def turnHead (d : Direction) (w : World) : Option World := do
  let hd ← w.heap.deref w.snake.head
  some { w with heap := w.heap.store w.snake.head { hd with dir := d } }

/-- The key handler: `ch = getchar()` and the `switch (ch)`; any key other
than `a`, `d`, `w`, `s` leaves the snake alone. -/
def keyPress (c : Char) (s : Session) : Option Session :=
  if c = 'a' then (turnHead Direction.LEFT s.world).map (fun w => { s with ch := c, world := w })
  else if c = 'd' then
    (turnHead Direction.RIGHT s.world).map (fun w => { s with ch := c, world := w })
  else if c = 'w' then (turnHead Direction.UP s.world).map (fun w => { s with ch := c, world := w })
  else if c = 's' then
    (turnHead Direction.DOWN s.world).map (fun w => { s with ch := c, world := w })
  else some { s with ch := c }

/-- The update tick of the loop (the body of `if (elapsedUpdateTime.count() >= 100)`). -/
def updateTick (s : Session) : Option Session := do
  let w ← moveSnake s.world
  let alive ← checkForCollision s.startX s.startY w
  let gameActive := if !alive then false else s.gameActive
  let digFood ←
    if w.snake.digFood ≠ 0 then (w.heap.deref w.snake.digFood).map (fun n => n.next)
    else some w.snake.digFood
  some { s with world := { w with snake := { w.snake with digFood := digFood } },
                gameActive := gameActive }

/-- The condition `snake.head->xPos == food->xPos && snake.head->yPos == food->yPos`
of the render tick. -/
def headOnFood (s : Session) : Option Bool := do
  let hd ← s.world.heap.deref s.world.snake.head
  let fd ← s.world.heap.deref s.food
  some (decide (hd.xPos = fd.xPos ∧ hd.yPos = fd.yPos))

/-- The food branch of the render tick (`if (head is on the food)`). -/
def eatFood (s : Session) : Option Session := do
  if (← headOnFood s) then
    let (w, rng) ← drawFood s.world s.food s.rng
    let hd ← w.heap.deref w.snake.head
    some { s with world := { w with snake := { w.snake with digFood := hd.next } },
                  rng := rng, score := s.score + 10, eaten := s.eaten + 1 }
  else some s

/-- The growth branch of the render tick (`if (snake.digFood == snake.tail)`). -/
def growIfDue (d0 : Direction) (s : Session) : Option Session :=
  if s.world.snake.digFood = s.world.snake.tail then do
    let w ← growSnake { s.world with snake := { s.world.snake with digFood := 0 } } d0
    some { s with world := w, grown := s.grown + 1 }
  else some s

/-- The render tick of the loop (the body of `if (elapsedRenderTime.count() >= 10)`),
`drawSnake` included for its dereferences. -/
def renderTick (d0 : Direction) (s : Session) : Option Session := do
  let s1 ← eatFood s
  let s2 ← growIfDue d0 s1
  derefAll s2.world.heap s2.world.snake.body
  some s2

/-- What one pass through the loop body observes of the outside world: the key
`getchar()` returns if `kbhit()`, whether each of the two timers is due, and
the uninitialised `dir` of a node allocated in this pass. The clock itself is
not modelled. -/
structure Pass where
  key : Option Char
  updateDue : Bool
  renderDue : Bool
  dir : Direction

/-- One pass through the body of the `while` loop. -/
def loopBody (e : Pass) (s : Session) : Option Session := do
  let s1 ← match e.key with
    | some c => keyPress c s
    | none => some s
  let s2 ← if e.updateDue then updateTick s1 else some s1
  if e.renderDue then renderTick e.dir s2 else some s2

/-- The loop `while (ch != 'q' && gameActive)` over the passes listed; it
stops early when the condition fails. -/
def runLoop : List Pass → Session → Option Session
  | [], s => some s
  | e :: es, s =>
    if s.ch ≠ 'q' ∧ s.gameActive = true then (loopBody e s).bind (runLoop es) else some s

/-- An update tick directly followed by a render tick, with no key pressed. -/
def cycle (d0 : Direction) (s : Session) : Option Session :=
  (updateTick s).bind (renderTick d0)

/-- The composition of `k` cycles. -/
def cycles (d0 : Direction) : Nat → Session → Option Session
  | 0, s => some s
  | k + 1, s => (cycle d0 s).bind (cycles d0 k)

/-- The condition of the `while` loop fails: the loop is left. -/
def loopExited (s : Session) : Bool :=
  !(decide (s.ch ≠ 'q') && s.gameActive)

/-- The exit status of `main` when the passes listed are all the loop makes:
`1` from the size check, `0` after the loop is left (`drawSnake` and the
`delete` loop dereference the body once more), `none` when the loop is still
running after the last pass listed. -/
def mainStatus (windowW windowH : Nat) (u : Indeterminate) (rng : List (Int × Int))
    (passes : List Pass) : Option Nat :=
  match mainInit windowW windowH u rng with
  | none => none
  | some none => some 1
  | some (some s0) => do
    let s ← runLoop passes s0
    if loopExited s then
      derefAll s.world.heap s.world.snake.body
      let _ ← s.world.heap.deref s.food
      some 0
    else none

/-- The states the session can be in at the top of a pass of the loop: those
`runLoop` reaches from a state `main` starts the loop in. -/
def Reachable (s : Session) : Prop :=
  ∃ windowW windowH u rng s0 passes,
    mainInit windowW windowH u rng = some (some s0) ∧ runLoop passes s0 = some s

/-- Every pointer of `body` can be dereferenced. -/
def ValidBody (h : Heap) (body : List Nat) : Prop :=
  ∀ p ∈ body, (h.deref p).isSome = true

instance (h : Heap) (body : List Nat) : Decidable (ValidBody h body) := by
  unfold ValidBody; infer_instance

/-- The `prev` links agree with the body order: `body[i + 1]->prev` is
`body[i]` for every `i + 1 < body.size()`. -/
def PrevLinked (h : Heap) (body : List Nat) : Prop :=
  ∀ i, i < body.length - 1 →
    (h.deref (body.getD (i + 1) 0)).map Node.prev = some (body.getD i 0)

instance (h : Heap) (body : List Nat) : Decidable (PrevLinked h body) := by
  unfold PrevLinked; infer_instance

/-- The node `n` after the three assignments of the propagation loop, `q`
being the node `n->prev` points to. -/
def copyFrom (n q : Node) : Node :=
  { n with xPos := q.xPos, yPos := q.yPos, dir := q.dir }

/-- The `next` links agree with the body order: `body[i]->next` is
`body[i + 1]` for every `i + 1 < body.size()`. -/
def NextLinked (h : Heap) (body : List Nat) : Prop :=
  ∀ i, i < body.length - 1 →
    (h.deref (body.getD i 0)).map Node.next = some (body.getD (i + 1) 0)

instance (h : Heap) (body : List Nat) : Decidable (NextLinked h body) := by
  unfold NextLinked; infer_instance

/-- The shape `main` gives the snake: the body pointers are distinct live
nodes, linked in both directions along the body order, `head` is the first and
`tail` the last of them. -/
def WellLinked (w : World) : Prop :=
  w.snake.body.Nodup ∧ ValidBody w.heap w.snake.body ∧
    PrevLinked w.heap w.snake.body ∧ NextLinked w.heap w.snake.body ∧
    w.snake.body.head? = some w.snake.head ∧ w.snake.body.getLast? = some w.snake.tail

instance (w : World) : Decidable (WellLinked w) := by
  unfold WellLinked; infer_instance

/-- The two ends of the chain: `body[0]->prev` and `body[n - 1]->next` are
`nullptr`. -/
def EndsNull (h : Heap) (body : List Nat) : Prop :=
  (h.deref (body.getD 0 0)).map Node.prev = some 0 ∧
    (h.deref (body.getD (body.length - 1) 0)).map Node.next = some 0

instance (h : Heap) (body : List Nat) : Decidable (EndsNull h body) := by
  unfold EndsNull; infer_instance

/-- The links agree with the body order: every `body[i]` is a live node with
`prev = body[i - 1]` (`nullptr` for the first) and `next = body[i + 1]`
(`nullptr` for the last). -/
def LinksAgree (h : Heap) (body : List Nat) : Prop :=
  ValidBody h body ∧ PrevLinked h body ∧ NextLinked h body ∧ EndsNull h body

instance (h : Heap) (body : List Nat) : Decidable (LinksAgree h body) := by
  unfold LinksAgree; infer_instance

/-- The pointers met when walking `next` from `p` until `nullptr`, at most
`fuel` of them. -/
def walkNext (h : Heap) : Nat → Nat → List Nat
  | 0, _ => []
  | fuel + 1, p =>
    match h.deref p with
    | none => []
    | some n => p :: walkNext h fuel n.next

/-- The direction opposite to `d`. -/
def opposite (d : Direction) : Direction :=
  match d with
  | Direction.UP => Direction.DOWN
  | Direction.DOWN => Direction.UP
  | Direction.LEFT => Direction.RIGHT
  | Direction.RIGHT => Direction.LEFT

/-- The worlds reached from a state `main` starts the loop in by calls of
`moveSnake`, `growSnake` and the key handler's `snake.head->dir = d`. -/
inductive ShapeReachable : World → Prop
  | init (windowW windowH : Nat) (u : Indeterminate) (rng : List (Int × Int)) (s0 : Session) :
      mainInit windowW windowH u rng = some (some s0) → ShapeReachable s0.world
  | move (w w' : World) : ShapeReachable w → moveSnake w = some w' → ShapeReachable w'
  | grow (w w' : World) (d0 : Direction) :
      ShapeReachable w → growSnake w d0 = some w' → ShapeReachable w'
  | key (w w' : World) (d : Direction) :
      ShapeReachable w → turnHead d w = some w' → ShapeReachable w'

/-- The invariant of the session: the snake is well linked with null ends and
at least 3 segments, the marker is null or a body segment, the food node is
live and not a segment, and the head and the food are on even columns. -/
def SessionInv (s : Session) : Prop :=
  WellLinked s.world ∧ EndsNull s.world.heap s.world.snake.body ∧
    3 ≤ s.world.snake.body.length ∧
    (s.world.snake.digFood = 0 ∨ s.world.snake.digFood ∈ s.world.snake.body) ∧
    (s.world.heap.deref s.food).isSome = true ∧ s.food ∉ s.world.snake.body ∧
    (s.world.heap.deref s.world.snake.head).map (fun n => n.xPos % 2) = some 0 ∧
    (s.world.heap.deref s.food).map (fun n => n.xPos % 2) = some 0

instance (s : Session) : Decidable (SessionInv s) := by
  unfold SessionInv; infer_instance

/-- The states the session passes through inside the loop: the state `main`
starts the loop in, and every state produced from such a state by the key
handler, the update tick, the food branch or the growth branch of the render
tick. -/
inductive InLoop : Session → Prop
  | start (windowW windowH : Nat) (u : Indeterminate) (rng : List (Int × Int)) (s0 : Session) :
      mainInit windowW windowH u rng = some (some s0) → InLoop s0
  | key (c : Char) (s s' : Session) : InLoop s → keyPress c s = some s' → InLoop s'
  | update (s s' : Session) : InLoop s → updateTick s = some s' → InLoop s'
  | eat (s s' : Session) : InLoop s → eatFood s = some s' → InLoop s'
  | grow (d0 : Direction) (s s' : Session) : InLoop s → growIfDue d0 s = some s' → InLoop s'

/-! ## Concrete states used as test inputs -/

/-- A straight 3-segment snake on row 5 at columns 10, 8, 6 heading `RIGHT`,
linked like the one `main` builds. -/
def rowSnake : World :=
  { heap := [⟨10, 5, 2, 0, Direction.RIGHT⟩, ⟨8, 5, 3, 1, Direction.RIGHT⟩,
             ⟨6, 5, 0, 2, Direction.RIGHT⟩],
    snake := { head := 1, tail := 3, digFood := 0, body := [1, 2, 3] } }

/-- The snake `rowSnake` with the head's direction replaced by `d`. -/
def rowSnakeFacing (d : Direction) : World :=
  { rowSnake with heap := rowSnake.heap.store 1 ⟨10, 5, 2, 0, d⟩ }

/-- The world `rowSnake` with a food node allocated at address 4. -/
def rowSnakeWithFood : World :=
  { rowSnake with heap := rowSnake.heap ++ [⟨20, 9, 0, 0, Direction.UP⟩] }

/-- A straight 3-segment snake on column 10 at rows 5, 6, 7 heading `UP`. -/
def columnSnake : World :=
  { heap := [⟨10, 5, 2, 0, Direction.UP⟩, ⟨10, 6, 3, 1, Direction.UP⟩,
             ⟨10, 7, 0, 2, Direction.UP⟩],
    snake := { head := 1, tail := 3, digFood := 0, body := [1, 2, 3] } }

/-- The indeterminate values used in the test runs: `score` starts as 7. -/
def sampleStart : Indeterminate :=
  { score := 7, ch := 'x', dir := Direction.UP }

/-- The session `main` starts in an 80 x 40 terminal (arena offset `(20, 10)`,
head at `(40, 20)`) when the first food lands at `(42, 20)`, one head step in
front of the head, and the samples `(50, 15)` and `(22, 11)` are still to come. -/
def startSession : Session :=
  { world :=
      { heap := [⟨40, 20, 2, 0, Direction.RIGHT⟩, ⟨39, 20, 3, 1, Direction.RIGHT⟩,
                 ⟨38, 20, 0, 2, Direction.RIGHT⟩, ⟨42, 20, 0, 0, Direction.UP⟩],
        snake := { head := 1, tail := 3, digFood := 0, body := [1, 2, 3] } },
    food := 4, score := 7, startX := 20, startY := 10, gameActive := true, ch := 'x',
    rng := [(50, 15), (22, 11)], eaten := 0, grown := 0 }

/-- The session `startSession` one cycle later: the head is on `(42, 20)`, the
food was eaten and redrawn at `(50, 15)`, the marker is `head->next`. -/
def fedSession : Session :=
  { world :=
      { heap := [⟨42, 20, 2, 0, Direction.RIGHT⟩, ⟨40, 20, 3, 1, Direction.RIGHT⟩,
                 ⟨39, 20, 0, 2, Direction.RIGHT⟩, ⟨50, 15, 0, 0, Direction.UP⟩],
        snake := { head := 1, tail := 3, digFood := 2, body := [1, 2, 3] } },
    food := 4, score := 17, startX := 20, startY := 10, gameActive := true, ch := 'x',
    rng := [(22, 11)], eaten := 1, grown := 0 }

/-- The passes of the loop in which both timers are due and no key is pressed. -/
def bothDue : Pass :=
  { key := none, updateDue := true, renderDue := true, dir := Direction.UP }

/-- The world of `startSession` after the key `w` (head turned `UP`). -/
def sampleTurned : World :=
  (turnHead Direction.UP startSession.world).getD startSession.world

/-- The world `sampleTurned` after one `moveSnake`. -/
def sampleMoved : World :=
  (moveSnake sampleTurned).getD sampleTurned

/-- The world `sampleMoved` after one `growSnake`. -/
def sampleGrown : World :=
  (growSnake sampleMoved Direction.UP).getD sampleMoved

/-- The session `startSession` after two passes with both timers due: the food
was eaten in the first, `growSnake` ran in the second. -/
def sampleRun : Session :=
  (runLoop [bothDue, bothDue] startSession).getD startSession

/-- A pass in which only the render timer is due. -/
def renderOnly : Pass :=
  { key := none, updateDue := false, renderDue := true, dir := Direction.UP }

/-- A pass in which only the update timer is due. -/
def updateOnly : Pass :=
  { key := none, updateDue := true, renderDue := false, dir := Direction.UP }

/-- The session `main` starts in an 80 x 40 terminal when the food lands at
`(22, 11)`, away from the head's row. -/
def openFieldStart : Session :=
  { world :=
      { heap := [⟨40, 20, 2, 0, Direction.RIGHT⟩, ⟨39, 20, 3, 1, Direction.RIGHT⟩,
                 ⟨38, 20, 0, 2, Direction.RIGHT⟩, ⟨22, 11, 0, 0, Direction.UP⟩],
        snake := { head := 1, tail := 3, digFood := 0, body := [1, 2, 3] } },
    food := 4, score := 7, startX := 20, startY := 10, gameActive := true, ch := 'x',
    rng := [], eaten := 0, grown := 0 }

/-- The session `main` starts in an 80 x 40 terminal when the first food lands
at `(42, 20)` and the next sample is `(44, 20)`: two foods in a row, each one
head step in front of the head. -/
def twoFoodStart : Session :=
  { startSession with rng := [(44, 20), (22, 11)] }

/-! ## Heap lemmas -/

theorem deref_store (h : Heap) (p q : Nat) (m n : Node) (hp : h.deref p = some m) :
    (h.store p n).deref q = if q = p then some n else h.deref q := by
  unfold Heap.deref Heap.store at *
  by_cases hp0 : p = 0
  · simp [hp0] at hp
  · simp only [hp0, if_false] at hp ⊢
    have hlt : p - 1 < h.length := by
      by_contra hc
      rw [List.getElem?_eq_none (by omega)] at hp
      exact Option.noConfusion hp
    by_cases hq0 : q = 0
    · subst hq0
      have : ¬ 0 = p := fun e => hp0 e.symm
      simp [this]
    · simp only [hq0, if_false]
      rw [List.getElem?_set]
      by_cases hqp : q = p
      · subst hqp; simp [hlt]
      · have : ¬ p - 1 = q - 1 := by omega
        simp [hqp, this]

theorem store_length (h : Heap) (p : Nat) (n : Node) : (h.store p n).length = h.length := by
  unfold Heap.store; split <;> simp

theorem getElem?_getD_of_lt (l : List Nat) (i : Nat) (hi : i < l.length) :
    l[i]? = some (l.getD i 0) := by
  simp [List.getD, List.getElem?_eq_getElem hi]

theorem getD_mem_of_lt (l : List Nat) (i : Nat) (hi : i < l.length) : l.getD i 0 ∈ l := by
  rw [List.mem_iff_getElem?]
  exact ⟨i, getElem?_getD_of_lt l i hi⟩

theorem getD_inj_of_nodup (l : List Nat) (hnd : l.Nodup) (i j : Nat) (hi : i < l.length)
    (hj : j < l.length) (e : l.getD i 0 = l.getD j 0) : i = j := by
  by_contra hne
  have h1 := getElem?_getD_of_lt l i hi
  have h2 := getElem?_getD_of_lt l j hj
  rw [List.nodup_iff_getElem?_ne_getElem?] at hnd
  rcases Nat.lt_or_gt_of_ne hne with hlt | hgt
  · exact hnd i j hlt hj (by rw [h1, h2, e])
  · exact hnd j i hgt hi (by rw [h1, h2, e])

/-! ## The propagation loop -/

theorem propagate_spec (h0 : Heap) (body : List Nat) (hnd : body.Nodup)
    (hv : ValidBody h0 body) (hl : PrevLinked h0 body) :
    ∀ (k : Nat) (h : Heap), k < body.length → h.length = h0.length →
      (∀ p, (∀ j, k < j → j < body.length → p ≠ body.getD j 0) → h.deref p = h0.deref p) →
      (∀ j, k < j → j < body.length → ∃ n q, h0.deref (body.getD j 0) = some n ∧
          h0.deref (body.getD (j - 1) 0) = some q ∧
          h.deref (body.getD j 0) = some (copyFrom n q)) →
      ∃ h', propagate body k h = some h' ∧ h'.length = h0.length ∧
        (∀ p, (∀ j, 0 < j → j < body.length → p ≠ body.getD j 0) → h'.deref p = h0.deref p) ∧
        (∀ j, 0 < j → j < body.length → ∃ n q, h0.deref (body.getD j 0) = some n ∧
          h0.deref (body.getD (j - 1) 0) = some q ∧
          h'.deref (body.getD j 0) = some (copyFrom n q)) := by
  intro k
  induction k with
  | zero =>
    intro h _ hlen hsame hdone
    exact ⟨h, rfl, hlen, hsame, hdone⟩
  | succ k ih =>
    intro h hk hlen hsame hdone
    -- the node written in this round and the node it reads from
    have hb : body[k + 1]? = some (body.getD (k + 1) 0) := getElem?_getD_of_lt body (k + 1) hk
    have hlk := hl k (by omega)
    obtain ⟨n, hn0⟩ := Option.isSome_iff_exists.mp (hv _ (getD_mem_of_lt body (k + 1) hk))
    obtain ⟨q, hq0⟩ := Option.isSome_iff_exists.mp (hv _ (getD_mem_of_lt body k (by omega)))
    have hprev : n.prev = body.getD k 0 := by
      rw [hn0] at hlk; simpa using hlk
    have hn : h.deref (body.getD (k + 1) 0) = some n := by
      rw [hsame _ (fun j hj hjn e => by
        have := getD_inj_of_nodup body hnd _ _ hk hjn e; omega)]
      exact hn0
    have hq : h.deref (body.getD k 0) = some q := by
      rw [hsame _ (fun j hj hjn e => by
        have := getD_inj_of_nodup body hnd _ _ (by omega) hjn e; omega)]
      exact hq0
    have hstep : propagate body (k + 1) h
        = propagate body k (h.store (body.getD (k + 1) 0) (copyFrom n q)) := by
      rw [propagate]
      simp only [hb, hn, hprev, hq, copyFrom, Option.bind_eq_bind, Option.some_bind]
    rw [hstep]
    apply ih _ (by omega) (by rw [store_length]; exact hlen)
    · intro p hp
      have hpb : p ≠ body.getD (k + 1) 0 := hp (k + 1) (by omega) hk
      rw [deref_store h _ p n _ hn, if_neg hpb]
      exact hsame p (fun j hj hjn => hp j (by omega) hjn)
    · intro j hj hjn
      by_cases hjk : j = k + 1
      · subst hjk
        refine ⟨n, q, hn0, ?_, ?_⟩
        · simpa using hq0
        · rw [deref_store h _ _ n _ hn, if_pos rfl]
      · obtain ⟨n', q', h1, h2, h3⟩ := hdone j (by omega) hjn
        refine ⟨n', q', h1, h2, ?_⟩
        have hne : body.getD j 0 ≠ body.getD (k + 1) 0 := fun e =>
          hjk (getD_inj_of_nodup body hnd _ _ hjn hk e)
        rw [deref_store h _ _ n _ hn, if_neg hne]
        exact h3

theorem derefAll_of_valid (h : Heap) (body : List Nat) (hv : ValidBody h body) :
    derefAll h body = some () := by
  unfold derefAll
  rw [if_pos]
  rw [List.all_eq_true]
  exact hv

/-- What `moveSnake` does to a snake whose segments are distinct live nodes,
with `prev` links along the body and `head` the first element: it returns,
leaves the `Snake` object and every node outside the body alone, steps the
head and copies into every other segment from its predecessor. -/
theorem moveSnake_spec (w : World) (hnd : w.snake.body.Nodup)
    (hv : ValidBody w.heap w.snake.body) (hl : PrevLinked w.heap w.snake.body)
    (hh : w.snake.body.head? = some w.snake.head) :
    ∃ w', moveSnake w = some w' ∧ w'.snake = w.snake ∧ w'.heap.length = w.heap.length ∧
      (∀ p, p ∉ w.snake.body → w'.heap.deref p = w.heap.deref p) ∧
      (∃ hd, w.heap.deref w.snake.head = some hd ∧
        w'.heap.deref w.snake.head = some (stepHead hd)) ∧
      (∀ j, 0 < j → j < w.snake.body.length → ∃ n q,
        w.heap.deref (w.snake.body.getD j 0) = some n ∧
        w.heap.deref (w.snake.body.getD (j - 1) 0) = some q ∧
        w'.heap.deref (w.snake.body.getD j 0) = some (copyFrom n q)) := by
  obtain ⟨heap, snake⟩ := w
  obtain ⟨head, tail, dig, body⟩ := snake
  simp only at hnd hv hl hh ⊢
  cases body with
  | nil => simp at hh
  | cons b rest =>
    simp only [List.head?_cons, Option.some.injEq] at hh
    subst hh
    have hpos : (b :: rest).length - 1 < (b :: rest).length := by simp
    obtain ⟨h1, hp, hlen, hsame, hdone⟩ :=
      propagate_spec heap (b :: rest) hnd hv hl ((b :: rest).length - 1) heap hpos rfl
        (fun _ _ => rfl) (fun j hj hjn => by omega)
    have hb0 : (b :: rest).getD 0 0 = b := rfl
    have hbne : ∀ j, 0 < j → j < (b :: rest).length → b ≠ (b :: rest).getD j 0 := by
      intro j hj hjn e
      have := getD_inj_of_nodup (b :: rest) hnd 0 j (by simp) hjn (by rw [hb0]; exact e)
      omega
    obtain ⟨hd, hhd⟩ := Option.isSome_iff_exists.mp (hv b (by simp))
    have hhd1 : h1.deref b = some hd := by rw [hsame b hbne]; exact hhd
    refine ⟨⟨h1.store b (stepHead hd), ⟨b, tail, dig, b :: rest⟩⟩, ?_, rfl, ?_, ?_, ?_, ?_⟩
    · have hp' : propagate (b :: rest) rest.length heap = some h1 := by simpa using hp
      simp [moveSnake, derefAll_of_valid heap (b :: rest) hv, hp', hhd1]
    · simp only [store_length]; exact hlen
    · intro p hpn
      have hpb : p ≠ b := fun e => hpn (by simp [e])
      simp only
      rw [deref_store h1 b p hd _ hhd1, if_neg hpb]
      exact hsame p (fun j _ hjn e => hpn (e ▸ getD_mem_of_lt _ j hjn))
    · exact ⟨hd, hhd, by simp only; rw [deref_store h1 b b hd _ hhd1, if_pos rfl]⟩
    · intro j hj hjn
      obtain ⟨n, q, e1, e2, e3⟩ := hdone j hj hjn
      refine ⟨n, q, e1, e2, ?_⟩
      simp only
      rw [deref_store h1 b _ hd _ hhd1, if_neg (fun e => hbne j hj hjn e.symm)]
      exact e3

/-! ## Claims about `moveSnake` -/

/-- C1. Propagation law of `moveSnake`: on a snake whose body pointers are
distinct live nodes (the body has `n` segments), whose `prev` links agree with
the body order and whose head is `body[0]`, `moveSnake` returns, and afterwards
every non-head segment `body[i]`, `1 ≤ i < n`, has exactly the column, row and
direction that `body[i - 1]` had before the call. -/
theorem C1_moveSnake_propagation (w : World) (hnd : w.snake.body.Nodup)
    (hv : ValidBody w.heap w.snake.body) (hl : PrevLinked w.heap w.snake.body)
    (hh : w.snake.body.head? = some w.snake.head) :
    ∃ w', moveSnake w = some w' ∧ w'.snake.body = w.snake.body ∧
      ∀ i, 1 ≤ i → i < w.snake.body.length →
        ∃ before after, w.heap.deref (w.snake.body.getD (i - 1) 0) = some before ∧
          w'.heap.deref (w'.snake.body.getD i 0) = some after ∧
          after.xPos = before.xPos ∧ after.yPos = before.yPos ∧ after.dir = before.dir := by
  obtain ⟨w', hm, hs, _, _, _, hprop⟩ := moveSnake_spec w hnd hv hl hh
  refine ⟨w', hm, by rw [hs], ?_⟩
  intro i hi hin
  obtain ⟨n, q, _, hq, hn'⟩ := hprop i (by omega) hin
  exact ⟨q, copyFrom n q, hq, by rw [hs]; exact hn', rfl, rfl, rfl⟩

/-- C1, witness: the theorem applied to the 3-segment snake at columns
`[10, 8, 6]` heading `RIGHT`, together with the evaluation of `moveSnake` on
it: the columns become `[12, 10, 8]`. -/
theorem C1_moveSnake_propagation_witness :
    (∃ w', moveSnake rowSnake = some w' ∧ w'.snake.body = rowSnake.snake.body ∧
      ∀ i, 1 ≤ i → i < rowSnake.snake.body.length →
        ∃ before after, rowSnake.heap.deref (rowSnake.snake.body.getD (i - 1) 0) = some before ∧
          w'.heap.deref (w'.snake.body.getD i 0) = some after ∧
          after.xPos = before.xPos ∧ after.yPos = before.yPos ∧ after.dir = before.dir) ∧
    rowSnake.snake.body.map (fun p => (rowSnake.heap.deref p).map Node.xPos)
      = [some 10, some 8, some 6] ∧
    (moveSnake rowSnake).map
        (fun w' => w'.snake.body.map (fun p => (w'.heap.deref p).map Node.xPos))
      = some [some 12, some 10, some 8] :=
  ⟨C1_moveSnake_propagation rowSnake (by decide) (by decide) (by decide) (by decide),
    by decide, by decide⟩

/-- C2. Head movement deltas of `moveSnake`: on a snake whose body pointers are
distinct live nodes with `prev` links along the body and head `body[0]`, with
the head at `(x, y)`, `moveSnake` returns and the head is then at `(x, y - 1)`
for `UP`, `(x, y + 1)` for `DOWN`, `(x - 2, y)` for `LEFT`, `(x + 2, y)` for
`RIGHT`, its direction unchanged. -/
theorem C2_moveSnake_head_delta (w : World) (hd : Node) (hnd : w.snake.body.Nodup)
    (hv : ValidBody w.heap w.snake.body) (hl : PrevLinked w.heap w.snake.body)
    (hh : w.snake.body.head? = some w.snake.head)
    (hhd : w.heap.deref w.snake.head = some hd) :
    ∃ w' hd', moveSnake w = some w' ∧ w'.snake.head = w.snake.head ∧
      w'.heap.deref w'.snake.head = some hd' ∧ hd'.dir = hd.dir ∧
      (hd.dir = Direction.UP → hd'.xPos = hd.xPos ∧ hd'.yPos = hd.yPos - 1) ∧
      (hd.dir = Direction.DOWN → hd'.xPos = hd.xPos ∧ hd'.yPos = hd.yPos + 1) ∧
      (hd.dir = Direction.LEFT → hd'.xPos = hd.xPos - 2 ∧ hd'.yPos = hd.yPos) ∧
      (hd.dir = Direction.RIGHT → hd'.xPos = hd.xPos + 2 ∧ hd'.yPos = hd.yPos) := by
  obtain ⟨w', hm, hs, _, _, ⟨hd0, h0, h1⟩, _⟩ := moveSnake_spec w hnd hv hl hh
  rw [hhd] at h0
  cases h0
  refine ⟨w', stepHead hd, hm, by rw [hs], by rw [hs]; exact h1, ?_, ?_, ?_, ?_, ?_⟩ <;>
    (unfold stepHead; cases hdir : hd.dir <;> simp)

/-- C2, witness: the theorem applied to the head at `(10, 5)` heading `LEFT`,
and the four directions evaluated from that fixed position. -/
theorem C2_moveSnake_head_delta_witness :
    (∃ w' hd', moveSnake (rowSnakeFacing Direction.LEFT) = some w' ∧
      w'.snake.head = (rowSnakeFacing Direction.LEFT).snake.head ∧
      w'.heap.deref w'.snake.head = some hd' ∧ hd'.dir = Direction.LEFT ∧
      hd'.xPos = 10 - 2 ∧ hd'.yPos = 5) ∧
    (∀ d, (moveSnake (rowSnakeFacing d)).bind (fun w' => w'.heap.deref w'.snake.head)
      = some (match d with
          | Direction.UP => ⟨10, 4, 2, 0, Direction.UP⟩
          | Direction.DOWN => ⟨10, 6, 2, 0, Direction.DOWN⟩
          | Direction.LEFT => ⟨8, 5, 2, 0, Direction.LEFT⟩
          | Direction.RIGHT => ⟨12, 5, 2, 0, Direction.RIGHT⟩)) := by
  refine ⟨?_, ?_⟩
  · obtain ⟨w', hd', h1, h2, h3, h4, _, _, h7, _⟩ :=
      C2_moveSnake_head_delta (rowSnakeFacing Direction.LEFT) ⟨10, 5, 2, 0, Direction.LEFT⟩
        (by decide) (by decide) (by decide) (by decide) (by decide)
    exact ⟨w', hd', h1, h2, h3, h4, (h7 rfl).1, (h7 rfl).2⟩
  · intro d
    cases d <;> decide

/-! ## Claims about `checkForCollision` -/

theorem overlapLoop_false (h : Heap) (head : Nat) (hd : Node) (hhd : h.deref head = some hd) :
    ∀ body : List Nat, ValidBody h body →
      (∃ p ∈ body, ∃ n, h.deref p = some n ∧ n.xPos = hd.xPos ∧ n.yPos = hd.yPos) →
      overlapLoop h head body = some false := by
  intro body
  induction body with
  | nil => intro _ hex; simp at hex
  | cons b rest ih =>
    intro hv hex
    obtain ⟨nb, hnb⟩ := Option.isSome_iff_exists.mp (hv b (by simp))
    by_cases hit : hd.xPos = nb.xPos ∧ hd.yPos = nb.yPos
    · simp [overlapLoop, hhd, hnb, hit]
    · have hrest : overlapLoop h head rest = some false := by
        apply ih (fun p hp => hv p (by simp [hp]))
        obtain ⟨p, hp, n, hn, hx, hy⟩ := hex
        rcases List.mem_cons.mp hp with e | hp'
        · subst e
          rw [hnb] at hn
          cases hn
          exact absurd ⟨hx.symm, hy.symm⟩ hit
        · exact ⟨p, hp', n, hn, hx, hy⟩
      simp [overlapLoop, hhd, hnb, hit, hrest]

theorem overlapLoop_true (h : Heap) (head : Nat) (hd : Node) (hhd : h.deref head = some hd) :
    ∀ body : List Nat, ValidBody h body →
      (∀ p ∈ body, ∀ n, h.deref p = some n → ¬ (n.xPos = hd.xPos ∧ n.yPos = hd.yPos)) →
      overlapLoop h head body = some true := by
  intro body
  induction body with
  | nil => intro _ _; rfl
  | cons b rest ih =>
    intro hv hno
    obtain ⟨nb, hnb⟩ := Option.isSome_iff_exists.mp (hv b (by simp))
    have hmiss : ¬ (hd.xPos = nb.xPos ∧ hd.yPos = nb.yPos) := fun e =>
      hno b (by simp) nb hnb ⟨e.1.symm, e.2.symm⟩
    have hrest := ih (fun p hp => hv p (by simp [hp]))
      (fun p hp n hn => hno p (by simp [hp]) n hn)
    simp [overlapLoop, hhd, hnb, hmiss, hrest]

/-- Where `checkForCollision` does report: the head on a border cell other than
the cells of the right border column between the corners, or on the cell of a
segment `body[1 ..]`. -/
theorem checkForCollision_reports (minX minY : Int) (w : World) (hd : Node)
    (hhd : w.heap.deref w.snake.head = some hd) (hv : ValidBody w.heap w.snake.body)
    (hit : (isBorderCell minX minY hd.xPos hd.yPos ∧
        ¬ (hd.xPos = BOARD_WIDTH + minX - 1 ∧ minY < hd.yPos ∧ hd.yPos < BOARD_HEIGHT + minY - 1)) ∨
      ∃ p ∈ w.snake.body.drop 1, ∃ n, w.heap.deref p = some n ∧
        n.xPos = hd.xPos ∧ n.yPos = hd.yPos) :
    checkForCollision minX minY w = some false := by
  unfold checkForCollision
  simp only [hhd, Option.bind_eq_bind, Option.some_bind]
  by_cases hwall : hd.xPos ≤ minX ∨ hd.xPos ≥ minX + BOARD_WIDTH ∨
      hd.yPos ≤ minY ∨ hd.yPos ≥ minY + BOARD_HEIGHT - 1
  · rw [if_pos hwall]
  · rw [if_neg hwall]
    rcases hit with ⟨hb, hx⟩ | hov
    · exfalso
      apply hwall
      unfold isBorderCell BOARD_WIDTH BOARD_HEIGHT at *
      omega
    · exact overlapLoop_false w.heap w.snake.head hd hhd _
        (fun p hp => hv p (List.mem_of_mem_drop hp)) hov

/-- C4. No false collisions: if the head is strictly inside the border
(`minX < x < minX + BOARD_WIDTH - 1` and `minY < y < minY + BOARD_HEIGHT - 1`)
and no segment `body[1 ..]` (the segments other than the head `body[0]`, all
live nodes) is on the head's cell, `checkForCollision` returns `true`. -/
theorem C4_no_false_collision (minX minY : Int) (w : World) (hd : Node)
    (hhd : w.heap.deref w.snake.head = some hd)
    (hv : ValidBody w.heap w.snake.body)
    (hx : minX < hd.xPos ∧ hd.xPos < minX + BOARD_WIDTH - 1)
    (hy : minY < hd.yPos ∧ hd.yPos < minY + BOARD_HEIGHT - 1)
    (hfree : ∀ i, 1 ≤ i → i < w.snake.body.length →
      ∀ n, w.heap.deref (w.snake.body.getD i 0) = some n →
        ¬ (n.xPos = hd.xPos ∧ n.yPos = hd.yPos)) :
    checkForCollision minX minY w = some true := by
  have hin : ¬ (hd.xPos ≤ minX ∨ hd.xPos ≥ minX + BOARD_WIDTH ∨
      hd.yPos ≤ minY ∨ hd.yPos ≥ minY + BOARD_HEIGHT - 1) := by
    unfold BOARD_WIDTH BOARD_HEIGHT at *
    omega
  have hloop : overlapLoop w.heap w.snake.head (w.snake.body.drop 1) = some true := by
    apply overlapLoop_true w.heap w.snake.head hd hhd
    · intro p hp
      exact hv p (List.mem_of_mem_drop hp)
    · intro p hp n hn
      obtain ⟨i, hi⟩ := List.mem_iff_getElem?.mp hp
      rw [List.getElem?_drop] at hi
      have hlt : 1 + i < w.snake.body.length := by
        by_contra hc
        rw [List.getElem?_eq_none (by omega)] at hi
        exact Option.noConfusion hi
      have hg := getElem?_getD_of_lt w.snake.body (1 + i) hlt
      rw [hi] at hg
      cases hg
      exact hfree (1 + i) (by omega) hlt n hn
  unfold checkForCollision
  simp only [hhd, Option.bind_eq_bind, Option.some_bind, if_neg hin, hloop]

/-- C4, witness: the straight snake with head `(10, 5)` in the arena at offset
`(0, 0)` is reported alive. -/
theorem C4_no_false_collision_witness : checkForCollision 0 0 rowSnake = some true :=
  C4_no_false_collision 0 0 rowSnake ⟨10, 5, 2, 0, Direction.RIGHT⟩ (by decide) (by decide)
    (by decide) (by decide) (by decide)

/-! ## Claims about `drawFood` -/

theorem checkFoodPosLoop_true_iff (h : Heap) (fx fy : Int) :
    ∀ body : List Nat, checkFoodPosLoop h fx fy body = some true ↔
      ∀ p ∈ body, ∃ n, h.deref p = some n ∧ ¬ (n.xPos = fx ∧ n.yPos = fy) := by
  intro body
  induction body with
  | nil => simp [checkFoodPosLoop]
  | cons b rest ih =>
    cases hb : h.deref b with
    | none => simp [checkFoodPosLoop, hb]
    | some nb =>
      by_cases hit : nb.xPos = fx ∧ nb.yPos = fy
      · simp [checkFoodPosLoop, hb, hit]
      · simp only [checkFoodPosLoop, hb, Option.bind_eq_bind, Option.some_bind, if_neg hit, ih,
          List.mem_cons, forall_eq_or_imp, Option.some.injEq, exists_eq_left']
        simp [hit]

theorem checkFoodPosLoop_some (h : Heap) (fx fy : Int) :
    ∀ body : List Nat, ValidBody h body → ∃ b, checkFoodPosLoop h fx fy body = some b := by
  intro body
  induction body with
  | nil => intro _; exact ⟨true, rfl⟩
  | cons b rest ih =>
    intro hv
    obtain ⟨nb, hnb⟩ := Option.isSome_iff_exists.mp (hv b (by simp))
    obtain ⟨r, hr⟩ := ih (fun p hp => hv p (by simp [hp]))
    by_cases hit : nb.xPos = fx ∧ nb.yPos = fy
    · exact ⟨false, by simp [checkFoodPosLoop, hnb, hit]⟩
    · exact ⟨r, by simp [checkFoodPosLoop, hnb, hit, hr]⟩

/-- When `drawFood` returns, it has stored a sample that `checkFoodPos`
accepted, and nothing else changed. -/
theorem drawFood_spec (w : World) (food : Nat) :
    ∀ (samples : List (Int × Int)) (w' : World) (rest : List (Int × Int)),
      drawFood w food samples = some (w', rest) →
      ∃ f x y, w.heap.deref food = some f ∧ (x, y) ∈ samples ∧
        checkFoodPos w (evenColumn x) y = some true ∧
        w' = { w with heap := w.heap.store food { f with xPos := evenColumn x, yPos := y } } ∧
        ∃ used, samples = used ++ rest ∧ used ≠ [] := by
  intro samples
  induction samples with
  | nil => intro w' rest hr; simp [drawFood] at hr
  | cons smp more ih =>
    intro w' rest hr
    obtain ⟨x, y⟩ := smp
    cases hc : checkFoodPos w (evenColumn x) y with
    | none => simp [drawFood, hc] at hr
    | some free =>
      cases free with
      | true =>
        cases hf : w.heap.deref food with
        | none => simp [drawFood, hc, hf] at hr
        | some f =>
          simp only [drawFood, hc, hf, Option.bind_eq_bind, Option.some_bind, if_true,
            Option.some.injEq, Prod.mk.injEq] at hr
          obtain ⟨e1, e2⟩ := hr
          subst e2
          exact ⟨f, x, y, rfl, by simp, hc, e1.symm, [(x, y)], rfl, by simp⟩
      | false =>
        have hr' : drawFood w food more = some (w', rest) := by
          simpa [drawFood, hc] using hr
        obtain ⟨f, x', y', h1, h2, h3, h4, used, h5, _⟩ := ih w' rest hr'
        exact ⟨f, x', y', h1, List.mem_cons_of_mem _ h2, h3, h4, (x, y) :: used,
          by simp [h5], by simp⟩

theorem drawFood_returns (w : World) (food : Nat) (hf : (w.heap.deref food).isSome = true) :
    ∀ samples : List (Int × Int),
      (∃ smp ∈ samples, checkFoodPos w (evenColumn smp.1) smp.2 = some true) →
      (drawFood w food samples).isSome = true := by
  intro samples
  induction samples with
  | nil => intro hex; simp at hex
  | cons smp more ih =>
    intro hex
    obtain ⟨x, y⟩ := smp
    obtain ⟨f, hf'⟩ := Option.isSome_iff_exists.mp hf
    have hvalid : ValidBody w.heap w.snake.body := by
      obtain ⟨s0, _, hs0⟩ := hex
      intro p hp
      obtain ⟨n, hn, _⟩ := (checkFoodPosLoop_true_iff w.heap _ _ w.snake.body).mp hs0 p hp
      simp [hn]
    obtain ⟨free, hc⟩ := checkFoodPosLoop_some w.heap (evenColumn x) y w.snake.body hvalid
    cases free with
    | true => simp [drawFood, checkFoodPos, hc, hf']
    | false =>
      have hmore : ∃ smp ∈ more, checkFoodPos w (evenColumn smp.1) smp.2 = some true := by
        obtain ⟨s0, hs0, hfree⟩ := hex
        rcases List.mem_cons.mp hs0 with e | hin
        · subst e
          simp only [checkFoodPos] at hfree
          rw [hc] at hfree
          cases hfree
        · exact ⟨s0, hin, hfree⟩
      simpa [drawFood, checkFoodPos, hc] using ih hmore

/-- C5. Food respawn is disjoint from the body: for every snake and every list
of random samples, whenever `drawFood` returns, the position it stored in the
food node is one `checkFoodPos` answers `true` for, so it differs from the
position of every segment of `snake.body` as it was at the call, and (the food
node not being a segment) as it is afterwards. It does return as soon as the
food pointer is live and one of the samples falls on a free cell. -/
theorem C5_drawFood_disjoint (w : World) (food : Nat) (samples : List (Int × Int)) :
    (∀ w' rest, drawFood w food samples = some (w', rest) →
      ∃ f, w'.heap.deref food = some f ∧ w'.snake = w.snake ∧
        checkFoodPos w f.xPos f.yPos = some true ∧
        (∀ p ∈ w.snake.body, ∃ n, w.heap.deref p = some n ∧
          ¬ (n.xPos = f.xPos ∧ n.yPos = f.yPos)) ∧
        (food ∉ w.snake.body → checkFoodPos w' f.xPos f.yPos = some true)) ∧
    ((w.heap.deref food).isSome = true →
      (∃ smp ∈ samples, checkFoodPos w (evenColumn smp.1) smp.2 = some true) →
      (drawFood w food samples).isSome = true) := by
  refine ⟨?_, fun hf hex => drawFood_returns w food hf samples hex⟩
  intro w' rest hr
  obtain ⟨f, x, y, hf, _, hfree, hw', _⟩ := drawFood_spec w food samples w' rest hr
  subst hw'
  have hall := (checkFoodPosLoop_true_iff w.heap _ _ w.snake.body).mp hfree
  refine ⟨{ f with xPos := evenColumn x, yPos := y }, ?_, rfl, hfree, hall, ?_⟩
  · simp only
    rw [deref_store w.heap food food f _ hf, if_pos rfl]
  · intro hnot
    simp only [checkFoodPos]
    rw [checkFoodPosLoop_true_iff]
    intro p hp
    have hpf : p ≠ food := fun e => hnot (e ▸ hp)
    rw [deref_store w.heap food p f _ hf, if_neg hpf]
    exact hall p hp

/-- C5, witness: on the straight snake at columns 10, 8, 6 of row 5, the samples
`(11, 5)` (adjusted to the head's cell `(10, 5)`, rejected) and `(15, 7)`
(adjusted to `(14, 7)`) make `drawFood` return with the food at `(14, 7)`, which
`checkFoodPos` accepts. -/
theorem C5_drawFood_disjoint_witness :
    (drawFood rowSnakeWithFood 4 [(11, 5), (15, 7)]).map
        (fun r => ((r.1.heap.deref 4).map (fun f => (f.xPos, f.yPos)), r.2))
      = some (some (14, 7), []) ∧
    ∃ w' f, drawFood rowSnakeWithFood 4 [(11, 5), (15, 7)] = some (w', []) ∧
      w'.heap.deref 4 = some f ∧ checkFoodPos w' f.xPos f.yPos = some true := by
  refine ⟨by decide, ?_⟩
  have hret : drawFood rowSnakeWithFood 4 [(11, 5), (15, 7)]
      = some (⟨rowSnakeWithFood.heap.store 4 ⟨14, 7, 0, 0, Direction.UP⟩,
          rowSnakeWithFood.snake⟩, []) := by decide
  obtain ⟨f, h1, _, _, _, h5⟩ :=
    (C5_drawFood_disjoint rowSnakeWithFood 4 [(11, 5), (15, 7)]).1 _ _ hret
  exact ⟨_, f, hret, h1, h5 (by decide)⟩

/-! ## Claims about `growSnake` -/

theorem deref_some_le (h : Heap) (p : Nat) (n : Node) (hp : h.deref p = some n) :
    0 < p ∧ p ≤ h.length := by
  unfold Heap.deref at hp
  by_cases hp0 : p = 0
  · simp [hp0] at hp
  · simp only [hp0, if_false] at hp
    have hlt : p - 1 < h.length := by
      by_contra hc
      rw [List.getElem?_eq_none (by omega)] at hp
      exact Option.noConfusion hp
    omega

theorem deref_append_one (h : Heap) (x : Node) (q : Nat) :
    (h ++ [x]).deref q = if q = h.length + 1 then some x else h.deref q := by
  unfold Heap.deref
  by_cases hq0 : q = 0
  · subst hq0; simp
  · simp only [hq0, if_false]
    by_cases hq : q = h.length + 1
    · subst hq
      simp
    · simp only [hq, if_false]
      by_cases hlt : q - 1 < h.length
      · rw [List.getElem?_append_left hlt]
      · rw [List.getElem?_eq_none (by simp; omega), List.getElem?_eq_none (by omega)]

theorem insertBeforeLast_length (v : List Nat) (a : Nat) :
    (v.take (v.length - 1) ++ a :: v.drop (v.length - 1)).length = v.length + 1 := by
  simp only [List.length_append, List.length_take, List.length_cons, List.length_drop]
  omega

theorem insertBeforeLast_getElem? (v : List Nat) (a : Nat) :
    (v.take (v.length - 1) ++ a :: v.drop (v.length - 1))[v.length - 1]? = some a := by
  rw [List.getElem?_append_right (by simp)]
  simp

theorem take_cons_drop_eraseIdx (a : Nat) :
    ∀ (v : List Nat) (k : Nat), k ≤ v.length → (v.take k ++ a :: v.drop k).eraseIdx k = v := by
  intro v
  induction v with
  | nil => intro k hk; simp at hk; subst hk; simp
  | cons b rest ih =>
    intro k hk
    cases k with
    | zero => simp
    | succ k =>
      simp only [List.take_succ_cons, List.drop_succ_cons, List.cons_append,
        List.eraseIdx_cons_succ]
      rw [ih k (by simpa using hk)]

/-- What `growSnake` does when the tail pointer and the tail's `prev` pointer
are live and the body is not empty: it returns; the new address is put in front
of the last body element; the heap has one more cell; the tail, the node in
front of it and the new node are relinked; nothing else is written. -/
theorem growSnake_spec (w : World) (d0 : Direction) (t pn : Node)
    (ht : w.heap.deref w.snake.tail = some t) (hpn : w.heap.deref t.prev = some pn)
    (hne : w.snake.body ≠ []) :
    ∃ w', growSnake w d0 = some w' ∧
      w'.snake = { w.snake with
        body := w.snake.body.take (w.snake.body.length - 1) ++
          (w.heap.length + 1) :: w.snake.body.drop (w.snake.body.length - 1) } ∧
      w'.heap.length = w.heap.length + 1 ∧
      ∀ q, w'.heap.deref q =
        if q = w.snake.tail then
          some { t with prev := w.heap.length + 1,
                        next := if w.snake.tail = t.prev then w.heap.length + 1 else t.next }
        else if q = t.prev then some { pn with next := w.heap.length + 1 }
        else if q = w.heap.length + 1 then
          some ⟨(growPos t).1, (growPos t).2, w.snake.tail, t.prev, d0⟩
        else w.heap.deref q := by
  obtain ⟨heap, snake⟩ := w
  obtain ⟨head, tail, dig, body⟩ := snake
  simp only at ht hpn hne ⊢
  have htl := deref_some_le heap tail t ht
  have hpl := deref_some_le heap t.prev pn hpn
  have hta : tail ≠ heap.length + 1 := by omega
  have hpa : t.prev ≠ heap.length + 1 := by omega
  -- the heap after each of the five writes
  let new0 : Node := ⟨(growPos t).1, (growPos t).2, 0, 0, d0⟩
  let new1 : Node := ⟨(growPos t).1, (growPos t).2, 0, t.prev, d0⟩
  let new2 : Node := ⟨(growPos t).1, (growPos t).2, tail, t.prev, d0⟩
  let h1 : Heap := heap ++ [new0]
  let h2 : Heap := h1.store (heap.length + 1) new1
  let h3 : Heap := h2.store (heap.length + 1) new2
  let h4 : Heap := h3.store t.prev { pn with next := heap.length + 1 }
  have d1 : ∀ q, h1.deref q = if q = heap.length + 1 then some new0 else heap.deref q :=
    fun q => deref_append_one heap new0 q
  have d1a : h1.deref (heap.length + 1) = some new0 := by rw [d1, if_pos rfl]
  have d2 : ∀ q, h2.deref q = if q = heap.length + 1 then some new1 else h1.deref q :=
    fun q => deref_store h1 _ q new0 new1 d1a
  have d2a : h2.deref (heap.length + 1) = some new1 := by rw [d2, if_pos rfl]
  have d3 : ∀ q, h3.deref q = if q = heap.length + 1 then some new2 else h2.deref q :=
    fun q => deref_store h2 _ q new1 new2 d2a
  have d3p : h3.deref t.prev = some pn := by
    rw [d3, if_neg hpa, d2, if_neg hpa, d1, if_neg hpa]; exact hpn
  have d3t : h3.deref tail = some t := by
    rw [d3, if_neg hta, d2, if_neg hta, d1, if_neg hta]; exact ht
  have d1t : h1.deref tail = some t := by rw [d1, if_neg hta]; exact ht
  have d4 : ∀ q, h4.deref q =
      if q = t.prev then some { pn with next := heap.length + 1 } else h3.deref q :=
    fun q => deref_store h3 _ q pn _ d3p
  let t4 : Node := if tail = t.prev then { pn with next := heap.length + 1 } else t
  have d4t : h4.deref tail = some t4 := by
    rw [d4]
    by_cases e : tail = t.prev
    · simp [t4, e]
    · simp only [t4, if_neg e]; exact d3t
  have d5 : ∀ q, (h4.store tail { t4 with prev := heap.length + 1 }).deref q =
      if q = tail then some { t4 with prev := heap.length + 1 } else h4.deref q :=
    fun q => deref_store h4 _ q t4 _ d4t
  have hidx : (body.take (body.length - 1) ++ (heap.length + 1) :: body.drop (body.length - 1))[
      (body.take (body.length - 1) ++ (heap.length + 1) :: body.drop (body.length - 1)).length
        - 2]? = some (heap.length + 1) := by
    rw [insertBeforeLast_length]
    exact insertBeforeLast_getElem? body (heap.length + 1)
  refine ⟨⟨h4.store tail { t4 with prev := heap.length + 1 },
    ⟨head, tail, dig, body.take (body.length - 1) ++
      (heap.length + 1) :: body.drop (body.length - 1)⟩⟩, ?_, rfl, ?_, ?_⟩
  · simp only [growSnake, ht, createNode, insertBeforeLast, if_neg hne, hidx, setPrev, setNext,
      Option.bind_eq_bind, Option.some_bind, d1t, d1a]
    have e2 : (heap ++ [new0]).store (heap.length + 1) new1 = h2 := rfl
    simp only [new0, new1] at e2
    simp only [e2, d2a, Option.some_bind]
    have e3 : h2.store (heap.length + 1) new2 = h3 := rfl
    simp only [new1, new2] at e3 ⊢
    simp only [e3, d3t, d3p, Option.some_bind]
    have e4 : h3.store t.prev { pn with next := heap.length + 1 } = h4 := rfl
    simp only [e4, d4t, Option.some_bind]
  · simp only [store_length, h4, h3, h2, h1, List.length_append, List.length_singleton]
  · intro q
    simp only
    rw [d5]
    by_cases hq : q = tail
    · subst hq
      simp only [if_true, t4]
      by_cases e : q = t.prev
      · have : pn = t := by
          rw [← e, ht] at hpn
          exact (Option.some.inj hpn).symm
        subst this
        simp [e]
      · simp [e]
    · simp only [if_neg hq]
      rw [d4]
      by_cases hqp : q = t.prev
      · simp [hqp]
      · simp only [if_neg hqp]
        rw [d3]
        by_cases hqa : q = heap.length + 1
        · simp [hqa, new2]
        · simp only [if_neg hqa]
          rw [d2, if_neg hqa, d1, if_neg hqa]

theorem take_drop_last (ys : List Nat) (tl : Nat) :
    (ys ++ [tl]).take ((ys ++ [tl]).length - 1) = ys ∧
      (ys ++ [tl]).drop ((ys ++ [tl]).length - 1) = [tl] := by
  simp

/-- The tail of a linked body and the node in front of it are live, and the
tail's `prev` pointer is the last but one body element. -/
theorem tail_and_prev_live (h : Heap) (body : List Nat) (tail : Nat)
    (hn : 2 ≤ body.length) (hv : ValidBody h body) (hl : PrevLinked h body)
    (htl : body.getLast? = some tail) :
    ∃ t pn, h.deref tail = some t ∧ h.deref t.prev = some pn ∧
      t.prev = body.getD (body.length - 2) 0 := by
  have hlast : body.getD (body.length - 1) 0 = tail := by
    have h1 := getElem?_getD_of_lt body (body.length - 1) (by omega)
    rw [List.getLast?_eq_getElem?, h1] at htl
    exact Option.some.inj htl
  have hlk := hl (body.length - 2) (by omega)
  have e : body.length - 2 + 1 = body.length - 1 := by omega
  rw [e, hlast] at hlk
  obtain ⟨t, ht⟩ := Option.isSome_iff_exists.mp
    (hv tail (hlast ▸ getD_mem_of_lt body (body.length - 1) (by omega)))
  have hprev : t.prev = body.getD (body.length - 2) 0 := by
    rw [ht] at hlk; simpa using hlk
  obtain ⟨pn, hpn⟩ := Option.isSome_iff_exists.mp
    (hv _ (getD_mem_of_lt body (body.length - 2) (by omega)))
  exact ⟨t, pn, ht, by rw [hprev]; exact hpn, hprev⟩

/-- C6. Structural effect of `growSnake`: on a snake with `n ≥ 2` live segments
whose `prev` links agree with the body order, whose head is the first and
whose tail is the last body element, `growSnake` returns; the body then has
`n + 1` elements; the element at index `n - 1` is the newly allocated node (an
address that was not live and not in the body before); `snake.tail` is
unchanged and still the last element, `snake.head` is unchanged and still the
first; deleting index `n - 1` gives back the old body, so the old segments keep
their order; and every old segment keeps its column, row and direction. -/
theorem C6_growSnake_structure (w : World) (d0 : Direction)
    (hn : 2 ≤ w.snake.body.length) (hv : ValidBody w.heap w.snake.body)
    (hl : PrevLinked w.heap w.snake.body)
    (hh : w.snake.body.head? = some w.snake.head)
    (htl : w.snake.body.getLast? = some w.snake.tail) :
    ∃ w', growSnake w d0 = some w' ∧
      w'.snake.body.length = w.snake.body.length + 1 ∧
      w'.snake.body.getD (w.snake.body.length - 1) 0 = w.heap.length + 1 ∧
      w.heap.deref (w.heap.length + 1) = none ∧ (w.heap.length + 1) ∉ w.snake.body ∧
      (w'.heap.deref (w.heap.length + 1)).isSome = true ∧
      w'.snake.tail = w.snake.tail ∧ w'.snake.body.getLast? = some w'.snake.tail ∧
      w'.snake.head = w.snake.head ∧ w'.snake.body.head? = some w'.snake.head ∧
      w'.snake.body.eraseIdx (w.snake.body.length - 1) = w.snake.body ∧
      ∀ p ∈ w.snake.body, ∃ old new, w.heap.deref p = some old ∧ w'.heap.deref p = some new ∧
        new.xPos = old.xPos ∧ new.yPos = old.yPos ∧ new.dir = old.dir := by
  obtain ⟨t, pn, ht, hpn, _⟩ :=
    tail_and_prev_live w.heap w.snake.body w.snake.tail hn hv hl htl
  have hne : w.snake.body ≠ [] := by
    intro e; rw [e] at hn; simp at hn
  obtain ⟨w', hg, hs, _, hd⟩ := growSnake_spec w d0 t pn ht hpn hne
  have hfresh : w.heap.deref (w.heap.length + 1) = none := by
    cases hc : w.heap.deref (w.heap.length + 1) with
    | none => rfl
    | some x => have := deref_some_le _ _ _ hc; omega
  have hnotin : (w.heap.length + 1) ∉ w.snake.body := by
    intro hin
    have := hv _ hin
    rw [hfresh] at this
    exact Bool.noConfusion this
  obtain ⟨ys, hys⟩ := List.getLast?_eq_some_iff.mp htl
  have hys2 : ys ≠ [] := by
    intro e; rw [hys, e] at hn; simp at hn
  have hbody : w'.snake.body = ys ++ (w.heap.length + 1) :: [w.snake.tail] := by
    rw [hs]
    simp only
    rw [hys, (take_drop_last ys w.snake.tail).1, (take_drop_last ys w.snake.tail).2]
  have hlen : w.snake.body.length - 1 = ys.length := by rw [hys]; simp
  have htail_ne := (deref_some_le _ _ _ ht)
  have hprev_ne := (deref_some_le _ _ _ hpn)
  refine ⟨w', hg, ?_, ?_, hfresh, hnotin, ?_, by rw [hs], ?_, by rw [hs], ?_, ?_, ?_⟩
  · rw [hbody, hys]; simp
  · rw [hbody, hlen, List.getD_eq_getElem?_getD, List.getElem?_append_right (le_refl _)]
    simp
  · rw [hd, if_neg (by omega), if_neg (by omega), if_pos rfl]; rfl
  · rw [hbody, hs]; simp
  · rw [hbody, hs]
    simp only
    rw [← hh, hys]
    cases ys with
    | nil => exact absurd rfl hys2
    | cons y rest => simp
  · rw [hs]
    exact take_cons_drop_eraseIdx _ _ _ (by omega)
  · intro p hp
    obtain ⟨old, hold⟩ := Option.isSome_iff_exists.mp (hv p hp)
    have hpl := deref_some_le _ _ _ hold
    by_cases e1 : p = w.snake.tail
    · have hot : old = t := by
        rw [e1, ht] at hold
        exact (Option.some.inj hold).symm
      subst hot
      have hnew := hd p
      rw [if_pos e1] at hnew
      exact ⟨old, _, hold, hnew, rfl, rfl, rfl⟩
    · by_cases e2 : p = t.prev
      · have hop : old = pn := by
          rw [e2, hpn] at hold
          exact (Option.some.inj hold).symm
        subst hop
        have hnew := hd p
        rw [if_neg e1, if_pos e2] at hnew
        exact ⟨old, _, hold, hnew, rfl, rfl, rfl⟩
      · exact ⟨old, old, hold, by rw [hd, if_neg e1, if_neg e2, if_neg (by omega)]; exact hold,
          rfl, rfl, rfl⟩

/-- C6, witness: the theorem applied to the straight 3-segment snake, and
`growSnake` evaluated on it: the body `[1, 2, 3]` becomes `[1, 2, 4, 3]`. -/
theorem C6_growSnake_structure_witness :
    (∃ w', growSnake rowSnake Direction.UP = some w' ∧
      w'.snake.body.length = rowSnake.snake.body.length + 1 ∧
      w'.snake.body.getD (rowSnake.snake.body.length - 1) 0 = rowSnake.heap.length + 1 ∧
      w'.snake.body.eraseIdx (rowSnake.snake.body.length - 1) = rowSnake.snake.body) ∧
    (growSnake rowSnake Direction.UP).map (fun w' => w'.snake)
      = some { head := 1, tail := 3, digFood := 0, body := [1, 2, 4, 3] } := by
  refine ⟨?_, by decide⟩
  obtain ⟨w', h1, h2, h3, _, _, _, _, _, _, _, h4, _⟩ :=
    C6_growSnake_structure rowSnake Direction.UP (by decide) (by decide) (by decide)
      (by decide) (by decide)
  exact ⟨w', h1, h2, h3, h4⟩

/-- C7 as stated fails. Tail at `(6, 5)` heading `RIGHT`: the claim puts the new
segment one head step to the left, at `(4, 5)`; `growSnake` creates it at
`(7, 5)`. Tail at `(10, 7)` heading `UP`: the claim puts it one row below, at
`(10, 8)`; `growSnake` creates it at `(10, 6)`. -/
theorem C7_growSnake_placement_counterexample :
    ((rowSnake.heap.deref rowSnake.snake.tail).map (fun t => (t.xPos, t.yPos, t.dir))
        = some (6, 5, Direction.RIGHT) ∧
      (growSnake rowSnake Direction.UP).bind
          (fun w' => (w'.heap.deref (w'.snake.body.getD 2 0)).map (fun n => (n.xPos, n.yPos)))
        = some (7, 5) ∧ ((7, 5) : Int × Int) ≠ (6 - 2, 5)) ∧
    ((columnSnake.heap.deref columnSnake.snake.tail).map (fun t => (t.xPos, t.yPos, t.dir))
        = some (10, 7, Direction.UP) ∧
      (growSnake columnSnake Direction.UP).bind
          (fun w' => (w'.heap.deref (w'.snake.body.getD 2 0)).map (fun n => (n.xPos, n.yPos)))
        = some (10, 6) ∧ ((10, 6) : Int × Int) ≠ (10, 7 + 1)) := by
  decide

/-- C7, amended. Placement of the grown segment: for every tail position
`(x, y)` and tail direction `d` (tail and the node in front of it live, body not
empty), `growSnake` returns and the segment it creates, the body element in
front of the tail, is one cell from the tail in direction `d`: at `(x + 1, y)`
for `RIGHT`, `(x - 1, y)` for `LEFT`, `(x, y - 1)` for `UP`, `(x, y + 1)` for
`DOWN`. -/
theorem C7_growSnake_placement (w : World) (d0 : Direction) (t pn : Node)
    (ht : w.heap.deref w.snake.tail = some t) (hpn : w.heap.deref t.prev = some pn)
    (hne : w.snake.body ≠ []) :
    ∃ w' created, growSnake w d0 = some w' ∧
      w'.heap.deref (w'.snake.body.getD (w'.snake.body.length - 2) 0) = some created ∧
      (t.dir = Direction.RIGHT → created.xPos = t.xPos + 1 ∧ created.yPos = t.yPos) ∧
      (t.dir = Direction.LEFT → created.xPos = t.xPos - 1 ∧ created.yPos = t.yPos) ∧
      (t.dir = Direction.UP → created.xPos = t.xPos ∧ created.yPos = t.yPos - 1) ∧
      (t.dir = Direction.DOWN → created.xPos = t.xPos ∧ created.yPos = t.yPos + 1) := by
  obtain ⟨w', hg, hs, _, hd⟩ := growSnake_spec w d0 t pn ht hpn hne
  have htl := deref_some_le _ _ _ ht
  have hpl := deref_some_le _ _ _ hpn
  have hidx : w'.snake.body.getD (w'.snake.body.length - 2) 0 = w.heap.length + 1 := by
    rw [hs]
    simp only
    rw [insertBeforeLast_length]
    have := insertBeforeLast_getElem? w.snake.body (w.heap.length + 1)
    rw [List.getD_eq_getElem?_getD]
    have e : w.snake.body.length + 1 - 2 = w.snake.body.length - 1 := by
      have : 0 < w.snake.body.length := List.length_pos.mpr hne
      omega
    rw [e, this]
    rfl
  refine ⟨w', ⟨(growPos t).1, (growPos t).2, w.snake.tail, t.prev, d0⟩, hg, ?_, ?_, ?_, ?_, ?_⟩
  · rw [hidx, hd, if_neg (by omega), if_neg (by omega), if_pos rfl]
  all_goals (intro hdir; simp [growPos, hdir])

/-- C7, witness of the amended statement: tail `(6, 5)` heading `RIGHT`, the
created segment is at `(7, 5)`. -/
theorem C7_growSnake_placement_witness :
    ∃ w' created, growSnake rowSnake Direction.UP = some w' ∧
      w'.heap.deref (w'.snake.body.getD (w'.snake.body.length - 2) 0) = some created ∧
      created.xPos = 6 + 1 ∧ created.yPos = 5 := by
  obtain ⟨w', c, h1, h2, h3, _⟩ :=
    C7_growSnake_placement rowSnake Direction.UP ⟨6, 5, 0, 2, Direction.RIGHT⟩
      ⟨8, 5, 3, 1, Direction.RIGHT⟩ (by decide) (by decide) (by decide)
  exact ⟨w', c, h1, h2, (h3 rfl).1, (h3 rfl).2⟩

/-! ## The game loop: digestion and growth -/

theorem mem_getD (body : List Nat) (p : Nat) (hp : p ∈ body) :
    ∃ j, j < body.length ∧ body.getD j 0 = p := by
  obtain ⟨j, hj⟩ := List.mem_iff_getElem?.mp hp
  have hlt : j < body.length := by
    by_contra hc
    rw [List.getElem?_eq_none (by omega)] at hj
    exact Option.noConfusion hj
  have := getElem?_getD_of_lt body j hlt
  rw [hj] at this
  exact ⟨j, hlt, (Option.some.inj this).symm⟩

theorem stepHead_links (n : Node) : (stepHead n).next = n.next ∧ (stepHead n).prev = n.prev := by
  unfold stepHead
  cases n.dir <;> exact ⟨rfl, rfl⟩

/-- The function `moveSnake` writes no link: every node keeps `next` and `prev`. -/
theorem moveSnake_links (w : World) (hnd : w.snake.body.Nodup)
    (hv : ValidBody w.heap w.snake.body) (hl : PrevLinked w.heap w.snake.body)
    (hh : w.snake.body.head? = some w.snake.head) :
    ∃ w', moveSnake w = some w' ∧ w'.snake = w.snake ∧
      ∀ p, (w'.heap.deref p).map Node.next = (w.heap.deref p).map Node.next ∧
        (w'.heap.deref p).map Node.prev = (w.heap.deref p).map Node.prev := by
  obtain ⟨w', hm, hs, _, hout, ⟨hd, hhd, hhd'⟩, hin⟩ := moveSnake_spec w hnd hv hl hh
  refine ⟨w', hm, hs, ?_⟩
  intro p
  by_cases hp : p ∈ w.snake.body
  · obtain ⟨j, hj, rfl⟩ := mem_getD _ _ hp
    cases j with
    | zero =>
      have h0 : w.snake.body.getD 0 0 = w.snake.head := by
        have := getElem?_getD_of_lt w.snake.body 0 hj
        rw [List.head?_eq_getElem?] at hh
        rw [hh] at this
        exact (Option.some.inj this).symm
      rw [h0, hhd, hhd']
      simp [stepHead_links hd]
    | succ j =>
      obtain ⟨n, q, h1, _, h3⟩ := hin (j + 1) (by omega) hj
      rw [h1, h3]
      simp [copyFrom]
  · rw [hout p hp]
    exact ⟨rfl, rfl⟩

/-- The shape `WellLinked` only depends on the links and on which nodes are live. -/
theorem wellLinked_of_links (h h' : Heap) (sn : Snake) (hwl : WellLinked ⟨h, sn⟩)
    (hlinks : ∀ p, (h'.deref p).map Node.next = (h.deref p).map Node.next ∧
      (h'.deref p).map Node.prev = (h.deref p).map Node.prev) :
    WellLinked ⟨h', sn⟩ := by
  obtain ⟨h1, h2, h3, h4, h5, h6⟩ := hwl
  refine ⟨h1, ?_, ?_, ?_, h5, h6⟩
  · intro p hp
    have := h2 p hp
    have e := (hlinks p).1
    simp only at this ⊢
    cases hd : h.deref p with
    | none => rw [hd] at this; exact Bool.noConfusion this
    | some x =>
      rw [hd] at e
      cases hd' : h'.deref p with
      | none => rw [hd'] at e; simp at e
      | some y => rfl
  · intro i hi
    simp only at hi ⊢
    rw [(hlinks _).2]
    exact h3 i hi
  · intro i hi
    simp only at hi ⊢
    rw [(hlinks _).1]
    exact h4 i hi

theorem overlapLoop_some (h : Heap) (head : Nat) (hd : Node) (hhd : h.deref head = some hd) :
    ∀ body : List Nat, ValidBody h body → ∃ b, overlapLoop h head body = some b := by
  intro body
  induction body with
  | nil => intro _; exact ⟨true, rfl⟩
  | cons c rest ih =>
    intro hv
    obtain ⟨nc, hnc⟩ := Option.isSome_iff_exists.mp (hv c (by simp))
    obtain ⟨r, hr⟩ := ih (fun p hp => hv p (by simp [hp]))
    by_cases hit : hd.xPos = nc.xPos ∧ hd.yPos = nc.yPos
    · exact ⟨false, by simp [overlapLoop, hhd, hnc, hit]⟩
    · exact ⟨r, by simp [overlapLoop, hhd, hnc, hit, hr]⟩

theorem checkForCollision_some (minX minY : Int) (w : World)
    (hhd : (w.heap.deref w.snake.head).isSome = true) (hv : ValidBody w.heap w.snake.body) :
    ∃ b, checkForCollision minX minY w = some b := by
  obtain ⟨hd, hhd⟩ := Option.isSome_iff_exists.mp hhd
  obtain ⟨r, hr⟩ := overlapLoop_some w.heap w.snake.head hd hhd (w.snake.body.drop 1)
    (fun p hp => hv p (List.mem_of_mem_drop hp))
  unfold checkForCollision
  simp only [hhd, Option.bind_eq_bind, Option.some_bind, hr]
  split
  · exact ⟨false, rfl⟩
  · exact ⟨r, rfl⟩

theorem head_mem_of_wellLinked (w : World) (hwl : WellLinked w) : w.snake.head ∈ w.snake.body :=
  List.mem_of_mem_head? hwl.2.2.2.2.1

theorem tail_eq_getD_of_wellLinked (w : World) (hwl : WellLinked w) :
    0 < w.snake.body.length ∧ w.snake.body.getD (w.snake.body.length - 1) 0 = w.snake.tail := by
  have htl := hwl.2.2.2.2.2
  have hpos : 0 < w.snake.body.length := by
    cases hb : w.snake.body with
    | nil => rw [hb] at htl; simp at htl
    | cons a r => simp
  have h1 := getElem?_getD_of_lt w.snake.body (w.snake.body.length - 1) (by omega)
  rw [List.getLast?_eq_getElem?, h1] at htl
  exact ⟨hpos, Option.some.inj htl⟩

/-- The update tick on a well-linked snake whose marker is `body[j]`, not the
tail: it returns, the snake stays well linked, the marker becomes
`body[j + 1]`, and nothing else of the session changes but node positions and
`gameActive`. -/
theorem updateTick_spec (s : Session) (j : Nat) (hwl : WellLinked s.world)
    (hfood : (s.world.heap.deref s.food).isSome = true)
    (hj : j < s.world.snake.body.length - 1)
    (hmark : s.world.snake.digFood = s.world.snake.body.getD j 0) :
    ∃ t, updateTick s = some t ∧ WellLinked t.world ∧
      (t.world.heap.deref t.food).isSome = true ∧
      t.world.snake = { s.world.snake with digFood := s.world.snake.body.getD (j + 1) 0 } ∧
      t.food = s.food ∧ t.grown = s.grown ∧ t.eaten = s.eaten ∧ t.score = s.score := by
  obtain ⟨hnd, hv, hpl, hnl, hh, htl⟩ := hwl
  obtain ⟨w', hm, hs, hlinks⟩ := moveSnake_links s.world hnd hv hpl hh
  have hwl' : WellLinked w' := by
    have := wellLinked_of_links s.world.heap w'.heap s.world.snake ⟨hnd, hv, hpl, hnl, hh, htl⟩
      hlinks
    rw [← hs] at this
    exact this
  have hlive : ∀ p, (s.world.heap.deref p).isSome = true → (w'.heap.deref p).isSome = true := by
    intro p hp
    have e := (hlinks p).1
    obtain ⟨x, hx⟩ := Option.isSome_iff_exists.mp hp
    rw [hx] at e
    cases hd' : w'.heap.deref p with
    | none => rw [hd'] at e; simp at e
    | some y => rfl
  obtain ⟨alive, hc⟩ := checkForCollision_some s.startX s.startY w'
    (hwl'.2.1 _ (head_mem_of_wellLinked w' hwl')) hwl'.2.1
  have hmark' : w'.snake.digFood = s.world.snake.body.getD j 0 := by rw [hs]; exact hmark
  have hjmem : s.world.snake.body.getD j 0 ∈ s.world.snake.body :=
    getD_mem_of_lt _ _ (by omega)
  have hnz : w'.snake.digFood ≠ 0 := by
    rw [hmark']
    intro e
    have := hv _ hjmem
    rw [e] at this
    simp [Heap.deref] at this
  have hnext : (w'.heap.deref w'.snake.digFood).map (fun n => n.next)
      = some (s.world.snake.body.getD (j + 1) 0) := by
    rw [hmark']
    have := (hlinks (s.world.snake.body.getD j 0)).1
    rw [hnl j hj] at this
    exact this
  let sn' : Snake := { w'.snake with digFood := s.world.snake.body.getD (j + 1) 0 }
  let ga : Bool := if !alive then false else s.gameActive
  refine ⟨{ s with world := ⟨w'.heap, sn'⟩, gameActive := ga }, ?_, ?_, ?_, ?_, rfl, rfl, rfl, rfl⟩
  · simp only [updateTick, hm, hc, Option.bind_eq_bind, Option.some_bind, if_pos hnz, hnext]
  · exact hwl'
  · exact hlive _ hfood
  · simp only [sn', hs]

theorem renderTick_quiet (d0 : Direction) (t : Session) (hq : headOnFood t = some false)
    (hne : t.world.snake.digFood ≠ t.world.snake.tail)
    (hv : ValidBody t.world.heap t.world.snake.body) : renderTick d0 t = some t := by
  simp [renderTick, eatFood, hq, growIfDue, hne, derefAll_of_valid _ _ hv]

theorem renderTick_grow (d0 : Direction) (t : Session) (hq : headOnFood t = some false)
    (he : t.world.snake.digFood = t.world.snake.tail) (hwl : WellLinked t.world)
    (hn : 2 ≤ t.world.snake.body.length) :
    ∃ u, renderTick d0 t = some u ∧ u.grown = t.grown + 1 ∧ u.eaten = t.eaten ∧
      u.world.snake.body.length = t.world.snake.body.length + 1 ∧
      u.world.snake.digFood = 0 := by
  obtain ⟨_, hv, hpl, _, _, htl⟩ := hwl
  obtain ⟨tn, pn, ht, hpn, _⟩ :=
    tail_and_prev_live t.world.heap t.world.snake.body t.world.snake.tail hn hv hpl htl
  have hne : t.world.snake.body ≠ [] := by
    intro e; rw [e] at hn; simp at hn
  let w0 : World := ⟨t.world.heap, { t.world.snake with digFood := 0 }⟩
  obtain ⟨w', hg, hs, _, hd⟩ := growSnake_spec w0 d0 tn pn ht hpn hne
  have hv' : ValidBody w'.heap w'.snake.body := by
    intro p hp
    rw [hs] at hp
    simp only [w0, List.mem_append, List.mem_cons] at hp
    rw [hd]
    by_cases h1 : p = w0.snake.tail
    · rw [if_pos h1]; rfl
    · rw [if_neg h1]
      by_cases h2 : p = tn.prev
      · rw [if_pos h2]; rfl
      · rw [if_neg h2]
        by_cases h3 : p = w0.heap.length + 1
        · rw [if_pos h3]; rfl
        · rw [if_neg h3]
          rcases hp with hp | hp | hp
          · exact hv p (List.mem_of_mem_take hp)
          · exact absurd hp h3
          · exact hv p (List.mem_of_mem_drop hp)
  refine ⟨{ t with world := w', grown := t.grown + 1 }, ?_, rfl, rfl, ?_, ?_⟩
  · have hg' : growSnake { t.world with snake := { t.world.snake with digFood := 0 } } d0
        = some w' := hg
    simp [renderTick, eatFood, hq, growIfDue, he, hg', derefAll_of_valid _ _ hv']
  · simp only [hs, w0]
    exact insertBeforeLast_length _ _
  · simp only [hs, w0]

theorem cycles_succ_right (d0 : Direction) :
    ∀ (m : Nat) (s : Session), cycles d0 (m + 1) s = (cycles d0 m s).bind (cycle d0) := by
  intro m
  induction m with
  | zero =>
    intro s
    simp [cycles]
  | succ m ih =>
    intro s
    rw [cycles]
    cases hc : cycle d0 s with
    | none => simp [cycles, hc]
    | some s1 =>
      simp only [Option.some_bind, Option.bind_eq_bind]
      rw [ih s1]
      simp [cycles, hc]

theorem snake_eq_with_digFood (sn : Snake) (x : Nat) (h : sn.digFood = x) :
    sn = { sn with digFood := x } := by
  cases sn
  simp only at h
  subst h
  rfl

/-- Cycles in which the marker walks along the body without reaching the tail
and the head never lands on the food: they return, and only the marker (and
node positions, and `gameActive`) change. -/
theorem cycles_quiet (d0 : Direction) :
    ∀ (m : Nat) (s : Session) (j : Nat), WellLinked s.world →
      (s.world.heap.deref s.food).isSome = true →
      s.world.snake.digFood = s.world.snake.body.getD j 0 →
      j + m < s.world.snake.body.length - 1 →
      (∀ k, k < m → ∀ t, (cycles d0 k s).bind updateTick = some t →
        headOnFood t = some false) →
      ∃ s', cycles d0 m s = some s' ∧ WellLinked s'.world ∧
        (s'.world.heap.deref s'.food).isSome = true ∧
        s'.world.snake = { s.world.snake with digFood := s.world.snake.body.getD (j + m) 0 } ∧
        s'.food = s.food ∧ s'.grown = s.grown ∧ s'.eaten = s.eaten ∧ s'.score = s.score := by
  intro m
  induction m with
  | zero =>
    intro s j hwl hfood hmark _ _
    exact ⟨s, rfl, hwl, hfood, snake_eq_with_digFood _ _ hmark, rfl, rfl, rfl, rfl⟩
  | succ m ih =>
    intro s j hwl hfood hmark hj hquiet
    obtain ⟨t, hu, hwlt, hfoodt, hsnt, hft, hgt, het, hsct⟩ :=
      updateTick_spec s j hwl hfood (by omega) hmark
    have hq : headOnFood t = some false := hquiet 0 (by omega) t (by simpa [cycles] using hu)
    have hbody : t.world.snake.body = s.world.snake.body := by rw [hsnt]
    have hdig : t.world.snake.digFood = t.world.snake.body.getD (j + 1) 0 := by rw [hsnt]
    obtain ⟨hpos, htail⟩ := tail_eq_getD_of_wellLinked t.world hwlt
    have hne : t.world.snake.digFood ≠ t.world.snake.tail := by
      rw [hdig, ← htail]
      intro e
      have := getD_inj_of_nodup _ hwlt.1 _ _ (by rw [hbody]; omega) (by omega) e
      rw [hbody] at this
      omega
    have hr : renderTick d0 t = some t := renderTick_quiet d0 t hq hne hwlt.2.1
    have hcy : cycle d0 s = some t := by simp [cycle, hu, hr]
    obtain ⟨s', h1, h2, h3, h4, h5, h6, h7, h8⟩ :=
      ih t (j + 1) hwlt hfoodt hdig (by rw [hbody]; omega)
        (fun k hk t' ht' => hquiet (k + 1) (by omega) t' (by simpa [cycles, hcy] using ht'))
    refine ⟨s', by simp [cycles, hcy, h1], h2, h3, ?_, by rw [h5, hft], by rw [h6, hgt],
      by rw [h7, het], by rw [h8, hsct]⟩
    rw [h4, hsnt]
    have : j + 1 + m = j + (m + 1) := by omega
    simp only [this]

/-- C8 as stated fails. In the session `main` starts with the first food one
head step ahead, the first cycle eats the food and sets the marker to
`head->next` with body length `N = 3`; `growSnake` then runs in the very next
cycle, after 1 further update tick, not after `N - 1 = 2`. -/
theorem C8_digestion_delay_counterexample :
    mainInit 80 40 sampleStart [(30, 12), (42, 20), (50, 15), (22, 11)]
      = some (some startSession) ∧
    cycle Direction.UP startSession = some fedSession ∧
    fedSession.eaten = startSession.eaten + 1 ∧
    (fedSession.world.heap.deref fedSession.world.snake.head).map Node.next
      = some fedSession.world.snake.digFood ∧
    fedSession.world.snake.body.length = 3 ∧
    (cycles Direction.UP 1 fedSession).map
        (fun s => (s.grown, s.world.snake.body.length, s.eaten))
      = some (fedSession.grown + 1, 4, fedSession.eaten) ∧
    1 < fedSession.world.snake.body.length - 1 := by
  decide

/-- C8, amended. Digestion-to-growth delay: for a well-linked snake of length
`N ≥ 3` whose marker has just been set to `head->next`, when every update tick
is directly followed by a render tick and the head is on the food at none of
these render ticks, `growSnake` runs in the render tick after exactly `N - 2`
further update ticks and not earlier: after `k < N - 2` cycles `growSnake` has
not run, the body is unchanged and the marker is `body[k + 1]`; after `N - 2`
cycles it has run once, the body has `N + 1` elements and the marker is null. -/
theorem C8_digestion_delay (s : Session) (d0 : Direction)
    (hN : 3 ≤ s.world.snake.body.length) (hwl : WellLinked s.world)
    (hfood : (s.world.heap.deref s.food).isSome = true)
    (hmark : (s.world.heap.deref s.world.snake.head).map Node.next
      = some s.world.snake.digFood)
    (hquiet : ∀ k, k < s.world.snake.body.length - 2 → ∀ t,
      (cycles d0 k s).bind updateTick = some t → headOnFood t = some false) :
    (∀ k, k < s.world.snake.body.length - 2 → ∃ s', cycles d0 k s = some s' ∧
      s'.grown = s.grown ∧ s'.world.snake.body = s.world.snake.body ∧
      s'.world.snake.digFood = s.world.snake.body.getD (k + 1) 0) ∧
    ∃ s', cycles d0 (s.world.snake.body.length - 2) s = some s' ∧
      s'.grown = s.grown + 1 ∧ s'.eaten = s.eaten ∧
      s'.world.snake.body.length = s.world.snake.body.length + 1 ∧
      s'.world.snake.digFood = 0 := by
  have hhead0 : s.world.snake.body.getD 0 0 = s.world.snake.head := by
    have := getElem?_getD_of_lt s.world.snake.body 0 (by omega)
    have hh := hwl.2.2.2.2.1
    rw [List.head?_eq_getElem?] at hh
    rw [hh] at this
    exact (Option.some.inj this).symm
  have hmark1 : s.world.snake.digFood = s.world.snake.body.getD 1 0 := by
    have := hwl.2.2.2.1 0 (by omega)
    rw [hhead0, hmark] at this
    exact Option.some.inj this
  have hwalk : ∀ k, k < s.world.snake.body.length - 2 → ∃ s', cycles d0 k s = some s' ∧
      WellLinked s'.world ∧ (s'.world.heap.deref s'.food).isSome = true ∧
      s'.world.snake = { s.world.snake with digFood := s.world.snake.body.getD (1 + k) 0 } ∧
      s'.food = s.food ∧ s'.grown = s.grown ∧ s'.eaten = s.eaten ∧ s'.score = s.score :=
    fun k hk => cycles_quiet d0 k s 1 hwl hfood hmark1 (by omega)
      (fun k' hk' t ht => hquiet k' (by omega) t ht)
  refine ⟨?_, ?_⟩
  · intro k hk
    obtain ⟨s', h1, _, _, h4, _, h6, _, _⟩ := hwalk k hk
    refine ⟨s', h1, h6, by rw [h4], ?_⟩
    rw [h4]
    have : 1 + k = k + 1 := by omega
    simp only [this]
  · obtain ⟨s1, h1, hwl1, hfood1, hsn1, _, hg1, he1, _⟩ :=
      hwalk (s.world.snake.body.length - 3) (by omega)
    have hbody1 : s1.world.snake.body = s.world.snake.body := by rw [hsn1]
    have hdig1 : s1.world.snake.digFood
        = s1.world.snake.body.getD (s.world.snake.body.length - 2) 0 := by
      rw [hsn1]
      have : 1 + (s.world.snake.body.length - 3) = s.world.snake.body.length - 2 := by omega
      simp only [this]
    obtain ⟨t, hu, hwlt, _, hsnt, _, hgt, het, _⟩ :=
      updateTick_spec s1 (s.world.snake.body.length - 2) hwl1 hfood1
        (by rw [hbody1]; omega) hdig1
    have hq : headOnFood t = some false :=
      hquiet (s.world.snake.body.length - 3) (by omega) t (by rw [h1]; exact hu)
    have hbodyt : t.world.snake.body = s.world.snake.body := by rw [hsnt, hbody1]
    obtain ⟨_, htail⟩ := tail_eq_getD_of_wellLinked t.world hwlt
    have hdue : t.world.snake.digFood = t.world.snake.tail := by
      rw [← htail, hbodyt, hsnt, hbody1]
      have : s.world.snake.body.length - 2 + 1 = s.world.snake.body.length - 1 := by omega
      simp only [this]
    obtain ⟨u, hr, hgu, heu, hlen, hdig⟩ :=
      renderTick_grow d0 t hq hdue hwlt (by rw [hbodyt]; omega)
    refine ⟨u, ?_, by rw [hgu, hgt, hg1], by rw [heu, het, he1], by rw [hlen, hbodyt], hdig⟩
    have e : s.world.snake.body.length - 2 = (s.world.snake.body.length - 3) + 1 := by omega
    rw [e, cycles_succ_right, h1]
    simp [cycle, hu, hr]

/-- C8, witness of the amended statement on the session in which the first food
has just been eaten (`N = 3`): after `N - 2 = 1` cycle `growSnake` has run once
and the body has 4 elements. -/
theorem C8_digestion_delay_witness :
    ∃ s', cycles Direction.UP 1 fedSession = some s' ∧
      s'.grown = fedSession.grown + 1 ∧ s'.world.snake.body.length = 3 + 1 ∧
      s'.world.snake.digFood = 0 := by
  obtain ⟨_, s', h1, h2, _, h4, h5⟩ :=
    C8_digestion_delay fedSession Direction.UP (by decide) (by decide) (by decide) (by decide)
      (by decide)
  exact ⟨s', h1, h2, h4, h5⟩

/-! ## Score and growth accounting over the session -/

/-- C9, the code at the failing input: `int score;` has no initialiser, so the
session starts with whatever value the variable holds (7 here) while no food
has been eaten, and after the first food the score is that value plus 10
(17), not `10 * 1`. -/
theorem C9_score_uninitialised :
    (mainInit 80 40 sampleStart [(30, 12), (42, 20), (50, 15), (22, 11)]).map
        (fun o => o.map (fun s => (s.score, s.eaten)))
      = some (some (7, 0)) ∧
    (cycle Direction.UP startSession).map (fun s => (s.score, s.eaten)) = some (17, 1) ∧
    (17 : Int) ≠ 10 * 1 := by
  decide

/-- C10, the code at the failing input: in an 80 x 40 terminal with the first
food at `(42, 20)` and the second at `(44, 20)`, each one head step in front of
the head, three passes of the loop with both timers due eat two foods; the
second one resets the marker to `head->next` while the first is still being
digested, so `growSnake` runs once: the marker is null again, 2 foods were
eaten, and the body has 4 segments, not `3 + 2`. -/
theorem C10_two_foods_one_segment :
    ((mainInit 80 40 sampleStart [(30, 12), (42, 20), (44, 20), (22, 11)]).bind
        (fun o => o.bind (runLoop [bothDue, bothDue, bothDue]))).map
        (fun s => (s.world.snake.digFood, s.eaten, s.grown, s.world.snake.body.length,
          s.gameActive))
      = some (0, 2, 1, 4, true) := by
  decide

/-! ## The shape of the snake is kept by every operation -/

theorem insertBeforeLast_getD (v : List Nat) (a i : Nat) (hne : v ≠ []) :
    (v.take (v.length - 1) ++ a :: v.drop (v.length - 1)).getD i 0 =
      if i < v.length - 1 then v.getD i 0
      else if i = v.length - 1 then a else v.getD (i - 1) 0 := by
  have hpos : 0 < v.length := List.length_pos.mpr hne
  have hlt : (v.take (v.length - 1)).length = v.length - 1 := by
    rw [List.length_take]; omega
  simp only [List.getD_eq_getElem?_getD]
  by_cases h1 : i < v.length - 1
  · rw [if_pos h1, List.getElem?_append_left (by rw [hlt]; exact h1),
      List.getElem?_take_of_lt h1]
  · rw [if_neg h1, List.getElem?_append_right (by rw [hlt]; omega), hlt]
    by_cases h2 : i = v.length - 1
    · rw [if_pos h2, h2]
      simp
    · rw [if_neg h2]
      have e : i - (v.length - 1) = (i - v.length) + 1 := by omega
      rw [e, List.getElem?_cons_succ, List.getElem?_drop]
      have e2 : v.length - 1 + (i - v.length) = i - 1 := by omega
      rw [e2]

/-- Relinking around a node `a` put in front of the last body element keeps
the links in agreement with the (new) body order. -/
theorem linked_after_insert (h h' : Heap) (body body' : List Nat) (tail a : Nat)
    (t pn new t' pn' : Node)
    (hnd : body.Nodup) (hpl : PrevLinked h body)
    (hnl : NextLinked h body) (hen : EndsNull h body) (hn : 2 ≤ body.length)
    (htail : body.getD (body.length - 1) 0 = tail) (ht : h.deref tail = some t)
    (hprev : t.prev = body.getD (body.length - 2) 0) (hpn : h.deref t.prev = some pn)
    (ha : a ∉ body)
    (hlen : body'.length = body.length + 1)
    (hG : ∀ i, body'.getD i 0 = if i < body.length - 1 then body.getD i 0
      else if i = body.length - 1 then a else body.getD (i - 1) 0)
    (hDt : h'.deref tail = some t') (ht'p : t'.prev = a) (ht'n : t'.next = t.next)
    (hDp : h'.deref t.prev = some pn') (hp'p : pn'.prev = pn.prev) (hp'n : pn'.next = a)
    (hDa : h'.deref a = some new) (hnp : new.prev = t.prev) (hnn : new.next = tail)
    (hDo : ∀ q, q ≠ tail → q ≠ t.prev → q ≠ a → h'.deref q = h.deref q) :
    PrevLinked h' body' ∧ NextLinked h' body' ∧ EndsNull h' body' := by
  have hidx : ∀ i j, i < body.length → j < body.length → body.getD i 0 = body.getD j 0 → i = j :=
    fun i j hi hj e => getD_inj_of_nodup body hnd i j hi hj e
  have hmem : ∀ i, i < body.length → body.getD i 0 ∈ body := fun i hi => getD_mem_of_lt body i hi
  have hne_a : ∀ i, i < body.length → body.getD i 0 ≠ a := fun i hi e => ha (e ▸ hmem i hi)
  have hne_tail : ∀ i, i < body.length - 1 → body.getD i 0 ≠ tail := by
    intro i hi e
    rw [← htail] at e
    have := hidx i (body.length - 1) (by omega) (by omega) e
    omega
  have hne_prev : ∀ i, i < body.length - 2 → body.getD i 0 ≠ t.prev := by
    intro i hi e
    rw [hprev] at e
    have := hidx i (body.length - 2) (by omega) (by omega) e
    omega
  -- the `prev` field of every old node but the tail is kept
  have hprev_same : ∀ i, i < body.length - 1 →
      (h'.deref (body.getD i 0)).map Node.prev = (h.deref (body.getD i 0)).map Node.prev := by
    intro i hi
    by_cases e : body.getD i 0 = t.prev
    · rw [e, hDp, hpn]
      simp [hp'p]
    · rw [hDo _ (hne_tail i hi) e (hne_a i (by omega))]
  refine ⟨?_, ?_, ?_, ?_⟩
  · intro i hi
    rw [hlen] at hi
    rw [hG (i + 1), hG i]
    by_cases h1 : i + 1 < body.length - 1
    · rw [if_pos h1, if_pos (by omega), hprev_same (i + 1) h1]
      exact hpl i (by omega)
    · rw [if_neg h1]
      by_cases h2 : i + 1 = body.length - 1
      · rw [if_pos h2, if_pos (by omega), hDa]
        have : i = body.length - 2 := by omega
        rw [this, ← hprev]
        simp [hnp]
      · rw [if_neg h2, if_neg (by omega), if_pos (by omega)]
        have : i + 1 - 1 = body.length - 1 := by omega
        rw [this, htail, hDt]
        simp [ht'p]
  · intro i hi
    rw [hlen] at hi
    rw [hG (i + 1), hG i]
    by_cases h1 : i < body.length - 2
    · rw [if_pos (by omega), if_pos (by omega),
        hDo _ (hne_tail i (by omega)) (hne_prev i h1) (hne_a i (by omega))]
      exact hnl i (by omega)
    · by_cases h2 : i = body.length - 2
      · rw [if_pos (by omega), if_neg (by omega), if_pos (by omega), h2, ← hprev, hDp]
        simp [hp'n]
      · rw [if_neg (by omega), if_pos (by omega), if_neg (by omega), if_neg (by omega), hDa]
        have : i + 1 - 1 = body.length - 1 := by omega
        rw [this, htail]
        simp [hnn]
  · rw [hG 0, if_pos (by omega), hprev_same 0 (by omega)]
    exact hen.1
  · rw [hlen, hG, if_neg (by omega), if_neg (by omega)]
    have : body.length + 1 - 1 - 1 = body.length - 1 := by omega
    rw [this, htail, hDt]
    have := hen.2
    rw [htail, ht] at this
    simp only [Option.map_some', Option.some.injEq] at this ⊢
    rw [ht'n]
    exact this

/-- The function `growSnake` on a well-linked snake with null ends and at least
two segments: it returns a well-linked snake with null ends and one more
segment; head, tail and marker are untouched; the new body is the old one plus
the fresh address; old nodes keep position and direction, and nodes outside
the body are not written. -/
theorem growSnake_wellLinked (w : World) (d0 : Direction) (hwl : WellLinked w)
    (hen : EndsNull w.heap w.snake.body) (hn : 2 ≤ w.snake.body.length) :
    ∃ w', growSnake w d0 = some w' ∧ WellLinked w' ∧ EndsNull w'.heap w'.snake.body ∧
      w'.snake.body.length = w.snake.body.length + 1 ∧
      w'.snake.head = w.snake.head ∧ w'.snake.tail = w.snake.tail ∧
      w'.snake.digFood = w.snake.digFood ∧
      (∀ p, p ∈ w'.snake.body ↔ p = w.heap.length + 1 ∨ p ∈ w.snake.body) ∧
      (∀ i, i < w.snake.body.length - 1 → w'.snake.body.getD i 0 = w.snake.body.getD i 0) ∧
      (∀ p nd, w.heap.deref p = some nd → ∃ nd', w'.heap.deref p = some nd' ∧
        nd'.xPos = nd.xPos ∧ nd'.yPos = nd.yPos ∧ nd'.dir = nd.dir) ∧
      (∀ p, p ∉ w.snake.body → p ≠ w.heap.length + 1 → w'.heap.deref p = w.heap.deref p) := by
  obtain ⟨hnd, hv, hpl, hnl, hh, htl⟩ := hwl
  obtain ⟨t, pn, ht, hpn, hprev⟩ :=
    tail_and_prev_live w.heap w.snake.body w.snake.tail hn hv hpl htl
  have hne : w.snake.body ≠ [] := by
    intro e; rw [e] at hn; simp at hn
  obtain ⟨hpos, htail⟩ := tail_eq_getD_of_wellLinked w ⟨hnd, hv, hpl, hnl, hh, htl⟩
  obtain ⟨w', hg, hs, _, hd⟩ := growSnake_spec w d0 t pn ht hpn hne
  have htlive := deref_some_le _ _ _ ht
  have hplive := deref_some_le _ _ _ hpn
  have hfresh : (w.heap.length + 1) ∉ w.snake.body := by
    intro hin
    obtain ⟨x, hx⟩ := Option.isSome_iff_exists.mp (hv _ hin)
    have := deref_some_le _ _ _ hx
    omega
  have htp : w.snake.tail ≠ t.prev := by
    intro e
    rw [← htail, hprev] at e
    have := getD_inj_of_nodup _ hnd _ _ (by omega) (by omega) e
    omega
  have hbody : w'.snake.body = w.snake.body.take (w.snake.body.length - 1) ++
      (w.heap.length + 1) :: w.snake.body.drop (w.snake.body.length - 1) := by rw [hs]
  have hlen : w'.snake.body.length = w.snake.body.length + 1 := by
    rw [hbody]; exact insertBeforeLast_length _ _
  have hG : ∀ i, w'.snake.body.getD i 0 = if i < w.snake.body.length - 1 then
      w.snake.body.getD i 0 else if i = w.snake.body.length - 1 then w.heap.length + 1
      else w.snake.body.getD (i - 1) 0 := by
    intro i; rw [hbody]; exact insertBeforeLast_getD _ _ _ hne
  have hmem : ∀ p, p ∈ w'.snake.body ↔ p = w.heap.length + 1 ∨ p ∈ w.snake.body := by
    intro p
    rw [hbody, List.mem_append, List.mem_cons]
    constructor
    · rintro (hp | hp | hp)
      · exact Or.inr (List.mem_of_mem_take hp)
      · exact Or.inl hp
      · exact Or.inr (List.mem_of_mem_drop hp)
    · rintro (hp | hp)
      · exact Or.inr (Or.inl hp)
      · rw [← List.take_append_drop (w.snake.body.length - 1) w.snake.body,
          List.mem_append] at hp
        rcases hp with hp | hp
        · exact Or.inl hp
        · exact Or.inr (Or.inr hp)
  have hDt := hd w.snake.tail
  rw [if_pos rfl, if_neg htp] at hDt
  have hDp := hd t.prev
  rw [if_neg (fun e => htp e.symm), if_pos rfl] at hDp
  have hDa := hd (w.heap.length + 1)
  rw [if_neg (by omega), if_neg (by omega), if_pos rfl] at hDa
  have hDo : ∀ q, q ≠ w.snake.tail → q ≠ t.prev → q ≠ w.heap.length + 1 →
      w'.heap.deref q = w.heap.deref q := by
    intro q h1 h2 h3
    rw [hd, if_neg h1, if_neg h2, if_neg h3]
  have hkeep : ∀ p nd, w.heap.deref p = some nd → ∃ nd', w'.heap.deref p = some nd' ∧
      nd'.xPos = nd.xPos ∧ nd'.yPos = nd.yPos ∧ nd'.dir = nd.dir := by
    intro p nd hp
    have hple := deref_some_le _ _ _ hp
    by_cases e1 : p = w.snake.tail
    · rw [e1, ht] at hp
      cases hp
      rw [e1]
      exact ⟨_, hDt, rfl, rfl, rfl⟩
    · by_cases e2 : p = t.prev
      · rw [e2, hpn] at hp
        cases hp
        rw [e2]
        exact ⟨_, hDp, rfl, rfl, rfl⟩
      · exact ⟨nd, by rw [hDo p e1 e2 (by omega)]; exact hp, rfl, rfl, rfl⟩
  have hv' : ValidBody w'.heap w'.snake.body := by
    intro p hp
    rcases (hmem p).mp hp with e | hin
    · rw [e, hDa]; rfl
    · obtain ⟨nd, hnd'⟩ := Option.isSome_iff_exists.mp (hv p hin)
      obtain ⟨nd', h1, _⟩ := hkeep p nd hnd'
      rw [h1]; rfl
  have hnd' : w'.snake.body.Nodup := by
    rw [hbody, List.nodup_middle, List.take_append_drop, List.nodup_cons]
    exact ⟨hfresh, hnd⟩
  obtain ⟨hpl', hnl', hen'⟩ := linked_after_insert w.heap w'.heap w.snake.body w'.snake.body
    w.snake.tail (w.heap.length + 1) t pn _ _ _ hnd hpl hnl hen hn htail ht hprev hpn hfresh
    hlen hG hDt rfl rfl hDp rfl rfl hDa rfl rfl hDo
  have hh' : w'.snake.body.head? = some w'.snake.head := by
    rw [List.head?_eq_getElem?, getElem?_getD_of_lt _ 0 (by omega), hG 0, if_pos (by omega), hs]
    simp only
    rw [← hh, List.head?_eq_getElem?, getElem?_getD_of_lt _ 0 (by omega)]
  have htl' : w'.snake.body.getLast? = some w'.snake.tail := by
    rw [List.getLast?_eq_getElem?, getElem?_getD_of_lt _ _ (by omega), hG, hlen,
      if_neg (by omega), if_neg (by omega), hs]
    simp only
    have : w.snake.body.length + 1 - 1 - 1 = w.snake.body.length - 1 := by omega
    rw [this, htail]
  refine ⟨w', hg, ⟨hnd', hv', hpl', hnl', hh', htl'⟩, hen', hlen, by rw [hs], by rw [hs],
    by rw [hs], hmem, ?_, hkeep, ?_⟩
  · intro i hi
    rw [hG i, if_pos hi]
  · intro p hp hpa
    have h1 : p ≠ w.snake.tail := fun e => hp (e ▸ htail ▸ getD_mem_of_lt _ _ (by omega))
    have h2 : p ≠ t.prev := fun e => hp (e ▸ hprev ▸ getD_mem_of_lt _ _ (by omega))
    exact hDo p h1 h2 hpa

/-! ## The state `main` starts the loop in -/

theorem half_width : BOARD_WIDTH.tdiv 2 = 20 := by decide

theorem half_height : BOARD_HEIGHT.tdiv 2 = 10 := by decide

/-- The session `mainInit` returns, written out: the size check passed, the
three segments sit on the middle row at columns `startX + 20`, `+ 19`, `+ 18`
heading `RIGHT`, and the food node holds a sample `drawFood` accepted. -/
theorem mainInit_spec (windowW windowH : Nat) (u : Indeterminate) (rng : List (Int × Int))
    (s0 : Session) (hinit : mainInit windowW windowH u rng = some (some s0)) :
    checkWindowSize windowW windowH = true ∧
    ∃ x y, (x, y) ∈ rng ∧
      s0.world = ⟨[⟨mainStartX windowW + 20, mainStartY windowH + 10, 2, 0, Direction.RIGHT⟩,
          ⟨mainStartX windowW + 20 - 1, mainStartY windowH + 10, 3, 1, Direction.RIGHT⟩,
          ⟨mainStartX windowW + 20 - 2, mainStartY windowH + 10, 0, 2, Direction.RIGHT⟩,
          ⟨evenColumn x, y, 0, 0, u.dir⟩], ⟨1, 3, 0, [1, 2, 3]⟩⟩ ∧
      s0.food = 4 ∧ s0.score = u.score ∧ s0.startX = mainStartX windowW ∧
      s0.startY = mainStartY windowH ∧ s0.gameActive = true ∧ s0.ch = u.ch ∧
      s0.eaten = 0 ∧ s0.grown = 0 := by
  unfold mainInit at hinit
  cases hc : checkWindowSize windowW windowH with
  | false => simp [hc] at hinit
  | true =>
    refine ⟨rfl, ?_⟩
    simp only [hc, Bool.not_true, Bool.false_eq_true, if_false, half_width, half_height,
      createNode, setNext, setPrev, setAllRight, Heap.deref, Heap.store] at hinit
    simp at hinit
    cases rng with
    | nil => simp at hinit
    | cons smp rest =>
      obtain ⟨fx0, fy0⟩ := smp
      simp only at hinit
      cases hdf : drawFood
          ⟨[⟨mainStartX windowW + 20, mainStartY windowH + 10, 2, 0, Direction.RIGHT⟩,
            ⟨mainStartX windowW + 20 - 1, mainStartY windowH + 10, 3, 1, Direction.RIGHT⟩,
            ⟨mainStartX windowW + 20 - 2, mainStartY windowH + 10, 0, 2, Direction.RIGHT⟩,
            ⟨fx0, fy0, 0, 0, u.dir⟩], ⟨1, 3, 0, [1, 2, 3]⟩⟩ 4 rest with
      | none => simp [hdf] at hinit
      | some r =>
        obtain ⟨w, rng2⟩ := r
        obtain ⟨f, x, y, hf, hmem, _, hw, _⟩ := drawFood_spec _ _ _ _ _ hdf
        have hf' : f = ⟨fx0, fy0, 0, 0, u.dir⟩ := by
          simp [Heap.deref] at hf
          exact hf.symm
        subst hf'
        subst hw
        simp [hdf, derefAll, Heap.deref, Heap.store] at hinit
        subst hinit
        exact ⟨x, y, List.mem_cons_of_mem _ hmem, rfl, rfl, rfl, rfl, rfl, rfl, rfl, rfl, rfl⟩

/-- Three nodes linked `1 <-> 2 <-> 3` with null ends, followed by a fourth
cell, form a well-linked snake, whatever the positions and directions are. -/
theorem three_linked (x0 y0 x1 y1 x2 y2 : Int) (d0 d1 d2 : Direction) (fd : Node)
    (dig : Nat) :
    WellLinked ⟨[⟨x0, y0, 2, 0, d0⟩, ⟨x1, y1, 3, 1, d1⟩, ⟨x2, y2, 0, 2, d2⟩, fd],
        ⟨1, 3, dig, [1, 2, 3]⟩⟩ ∧
      EndsNull [⟨x0, y0, 2, 0, d0⟩, ⟨x1, y1, 3, 1, d1⟩, ⟨x2, y2, 0, 2, d2⟩, fd] [1, 2, 3] := by
  have hnd : ([1, 2, 3] : List Nat).Nodup := by decide
  refine ⟨⟨hnd, ?_, ?_, ?_, rfl, rfl⟩, ?_, ?_⟩
  · intro p hp
    simp only [List.mem_cons, List.mem_singleton, List.not_mem_nil, or_false] at hp
    rcases hp with rfl | rfl | rfl <;> rfl
  · intro i hi
    simp only [List.length_cons, List.length_nil] at hi
    have : i = 0 ∨ i = 1 := by omega
    rcases this with rfl | rfl <;> rfl
  · intro i hi
    simp only [List.length_cons, List.length_nil] at hi
    have : i = 0 ∨ i = 1 := by omega
    rcases this with rfl | rfl <;> rfl
  · rfl
  · rfl

theorem mainInit_wellLinked (windowW windowH : Nat) (u : Indeterminate)
    (rng : List (Int × Int)) (s0 : Session)
    (hinit : mainInit windowW windowH u rng = some (some s0)) :
    WellLinked s0.world ∧ EndsNull s0.world.heap s0.world.snake.body ∧
      s0.world.snake.body.length = 3 := by
  obtain ⟨_, x, y, _, hw, _⟩ := mainInit_spec windowW windowH u rng s0 hinit
  rw [hw]
  exact ⟨(three_linked _ _ _ _ _ _ _ _ _ _ _).1, (three_linked _ _ _ _ _ _ _ _ _ _ 0).2, rfl⟩

theorem endsNull_of_links (h h' : Heap) (body : List Nat) (hen : EndsNull h body)
    (hlinks : ∀ p, (h'.deref p).map Node.next = (h.deref p).map Node.next ∧
      (h'.deref p).map Node.prev = (h.deref p).map Node.prev) :
    EndsNull h' body := by
  refine ⟨?_, ?_⟩
  · rw [(hlinks _).2]; exact hen.1
  · rw [(hlinks _).1]; exact hen.2

/-- The assignment `snake.head->dir = d` on a live head: it returns, and only
the head's `dir` changes. -/
theorem turnHead_spec (d : Direction) (w : World) (hd : Node)
    (hhd : w.heap.deref w.snake.head = some hd) :
    ∃ w', turnHead d w = some w' ∧ w'.snake = w.snake ∧
      w'.heap.deref w.snake.head = some { hd with dir := d } ∧
      (∀ p, p ≠ w.snake.head → w'.heap.deref p = w.heap.deref p) ∧
      (∀ p, (w'.heap.deref p).map Node.next = (w.heap.deref p).map Node.next ∧
        (w'.heap.deref p).map Node.prev = (w.heap.deref p).map Node.prev) ∧
      (∀ p, (w'.heap.deref p).map Node.xPos = (w.heap.deref p).map Node.xPos ∧
        (w'.heap.deref p).map Node.yPos = (w.heap.deref p).map Node.yPos) := by
  have hst := deref_store w.heap w.snake.head
  refine ⟨⟨w.heap.store w.snake.head { hd with dir := d }, w.snake⟩, ?_, rfl, ?_, ?_, ?_, ?_⟩
  · simp [turnHead, hhd]
  · simp only
    rw [hst _ hd _ hhd, if_pos rfl]
  · intro p hp
    simp only
    rw [hst _ hd _ hhd, if_neg hp]
  · intro p
    simp only
    rw [hst _ hd _ hhd]
    by_cases e : p = w.snake.head
    · rw [if_pos e, e, hhd]; exact ⟨rfl, rfl⟩
    · rw [if_neg e]; exact ⟨rfl, rfl⟩
  · intro p
    simp only
    rw [hst _ hd _ hhd]
    by_cases e : p = w.snake.head
    · rw [if_pos e, e, hhd]; exact ⟨rfl, rfl⟩
    · rw [if_neg e]; exact ⟨rfl, rfl⟩

/-- If `turnHead` returns, the head was live. -/
theorem turnHead_live (d : Direction) (w w' : World) (hr : turnHead d w = some w') :
    ∃ hd, w.heap.deref w.snake.head = some hd := by
  cases hhd : w.heap.deref w.snake.head with
  | none => simp [turnHead, hhd] at hr
  | some hd => exact ⟨hd, rfl⟩

/-- The shape kept along `ShapeReachable`: well linked, null ends, at least 3
segments. -/
theorem shapeReachable_wellLinked (w : World) (hr : ShapeReachable w) :
    WellLinked w ∧ EndsNull w.heap w.snake.body ∧ 3 ≤ w.snake.body.length := by
  induction hr with
  | init windowW windowH u rng s0 hinit =>
    obtain ⟨h1, h2, h3⟩ := mainInit_wellLinked windowW windowH u rng s0 hinit
    exact ⟨h1, h2, by omega⟩
  | move w w' _ hm ih =>
    obtain ⟨hwl, hen, hn⟩ := ih
    obtain ⟨w1, hm1, hs, hlinks⟩ := moveSnake_links w hwl.1 hwl.2.1 hwl.2.2.1 hwl.2.2.2.2.1
    rw [hm] at hm1
    cases hm1
    have := wellLinked_of_links w.heap w'.heap w.snake hwl hlinks
    rw [← hs] at this
    refine ⟨this, ?_, by rw [hs]; exact hn⟩
    rw [hs]
    exact endsNull_of_links _ _ _ hen hlinks
  | grow w w' d0 _ hg ih =>
    obtain ⟨hwl, hen, hn⟩ := ih
    obtain ⟨w1, hg1, h1, h2, h3, _⟩ := growSnake_wellLinked w d0 hwl hen (by omega)
    rw [hg] at hg1
    cases hg1
    exact ⟨h1, h2, by omega⟩
  | key w w' d _ hk ih =>
    obtain ⟨hwl, hen, hn⟩ := ih
    obtain ⟨hd, hhd⟩ := turnHead_live d w w' hk
    obtain ⟨w1, hk1, hs, _, _, hlinks, _⟩ := turnHead_spec d w hd hhd
    rw [hk] at hk1
    cases hk1
    have := wellLinked_of_links w.heap w'.heap w.snake hwl hlinks
    rw [← hs] at this
    refine ⟨this, ?_, by rw [hs]; exact hn⟩
    rw [hs]
    exact endsNull_of_links _ _ _ hen hlinks

/-- C12. Body shape invariant: the state `main` starts the loop in, and every
state reached from it by `moveSnake`, `growSnake` and the key handler, has at
least 3 body segments, `snake.head` is `body[0]`, `snake.tail` is the last
element of `body`, and no other element of `body` is the head or the tail. -/
theorem C12_body_shape (w : World) (hr : ShapeReachable w) :
    3 ≤ w.snake.body.length ∧
      w.snake.body.head? = some w.snake.head ∧
      w.snake.body.getLast? = some w.snake.tail ∧
      (∀ i, i < w.snake.body.length → w.snake.body.getD i 0 = w.snake.head → i = 0) ∧
      (∀ i, i < w.snake.body.length → w.snake.body.getD i 0 = w.snake.tail →
        i = w.snake.body.length - 1) := by
  obtain ⟨hwl, _, hn⟩ := shapeReachable_wellLinked w hr
  obtain ⟨hnd, _, _, _, hh, htl⟩ := hwl
  obtain ⟨_, htail⟩ := tail_eq_getD_of_wellLinked w ⟨hnd, ‹_›, ‹_›, ‹_›, hh, htl⟩
  have hhead : w.snake.body.getD 0 0 = w.snake.head := by
    have := getElem?_getD_of_lt w.snake.body 0 (by omega)
    rw [List.head?_eq_getElem?] at hh
    rw [hh] at this
    exact (Option.some.inj this).symm
  refine ⟨hn, hh, htl, ?_, ?_⟩
  · intro i hi e
    rw [← hhead] at e
    exact getD_inj_of_nodup _ hnd _ _ hi (by omega) e
  · intro i hi e
    rw [← htail] at e
    exact getD_inj_of_nodup _ hnd _ _ hi (by omega) e

/-- C12, witness: the world reached from the start of an 80 x 40 session by the
key `w`, one `moveSnake` and one `growSnake` has the body `[1, 2, 5, 3]` with
head `1` and tail `3`. -/
theorem C12_body_shape_witness :
    sampleGrown.snake = { head := 1, tail := 3, digFood := 0, body := [1, 2, 5, 3] } ∧
    3 ≤ sampleGrown.snake.body.length ∧
      sampleGrown.snake.body.head? = some sampleGrown.snake.head ∧
      sampleGrown.snake.body.getLast? = some sampleGrown.snake.tail ∧
      (∀ i, i < sampleGrown.snake.body.length →
        sampleGrown.snake.body.getD i 0 = sampleGrown.snake.head → i = 0) ∧
      (∀ i, i < sampleGrown.snake.body.length →
        sampleGrown.snake.body.getD i 0 = sampleGrown.snake.tail →
        i = sampleGrown.snake.body.length - 1) :=
  ⟨by decide,
    C12_body_shape sampleGrown
      (ShapeReachable.grow sampleMoved sampleGrown Direction.UP
        (ShapeReachable.move sampleTurned sampleMoved
          (ShapeReachable.key startSession.world sampleTurned Direction.UP
            (ShapeReachable.init 80 40 sampleStart [(30, 12), (42, 20), (50, 15), (22, 11)]
              startSession (by decide))
            (by decide))
          (by decide))
        (by decide))⟩

/-! ## Links and body order -/

/-- Links that agree with the body order leave no room for a pointer to occur
twice in `body`. -/
theorem nodup_of_linksAgree (h : Heap) (body : List Nat) (hla : LinksAgree h body) :
    body.Nodup := by
  obtain ⟨hv, hpl, _, hen, _⟩ := hla
  have key : ∀ i j, i < j → j < body.length → body.getD i 0 ≠ body.getD j 0 := by
    intro i
    induction i with
    | zero =>
      intro j hij hj e
      have h1 := hpl (j - 1) (by omega)
      have hj1 : j - 1 + 1 = j := by omega
      rw [hj1, ← e, hen] at h1
      have hz : body.getD (j - 1) 0 = 0 := (Option.some.inj h1).symm
      have := hv _ (getD_mem_of_lt body (j - 1) (by omega))
      rw [hz] at this
      simp [Heap.deref] at this
    | succ i ih =>
      intro j hij hj e
      have h1 := hpl i (by omega)
      have h2 := hpl (j - 1) (by omega)
      have hj1 : j - 1 + 1 = j := by omega
      rw [hj1, ← e, h1] at h2
      exact ih (j - 1) (by omega) (by omega) (Option.some.inj h2)
  rw [List.nodup_iff_getElem?_ne_getElem?]
  intro i j hij hj e
  rw [getElem?_getD_of_lt body i (by omega), getElem?_getD_of_lt body j hj] at e
  exact key i j hij hj (Option.some.inj e)

theorem walkNext_null (h : Heap) (fuel : Nat) : walkNext h fuel 0 = [] := by
  cases fuel with
  | zero => rfl
  | succ k => simp [walkNext, Heap.deref]

/-- Walking `next` from `body[i]` visits `body[i]`, `body[i + 1]`, ... to the end. -/
theorem walkNext_drop (h : Heap) (body : List Nat) (hla : LinksAgree h body) :
    ∀ (fuel i : Nat), i < body.length → body.length - i ≤ fuel →
      walkNext h fuel (body.getD i 0) = body.drop i := by
  obtain ⟨hv, _, hnl, _, hlast⟩ := hla
  intro fuel
  induction fuel with
  | zero => intro i hi hf; omega
  | succ k ih =>
    intro i hi hf
    obtain ⟨nd, hnd⟩ := Option.isSome_iff_exists.mp (hv _ (getD_mem_of_lt body i hi))
    have hget : body[i] = body.getD i 0 := by
      have h1 := getElem?_getD_of_lt body i hi
      rw [List.getElem?_eq_getElem hi] at h1
      exact Option.some.inj h1
    rw [List.drop_eq_getElem_cons hi, hget]
    simp only [walkNext, hnd]
    by_cases hl : i = body.length - 1
    · have hnext : nd.next = 0 := by
        rw [← hl, hnd] at hlast
        simpa using hlast
      rw [hnext, walkNext_null, List.drop_of_length_le (by omega)]
    · have hnext : nd.next = body.getD (i + 1) 0 := by
        have := hnl i (by omega)
        rw [hnd] at this
        simpa using this
      rw [hnext, ih (i + 1) (by omega) (by omega)]

/-- C17. Links agree with body order: the snake `main` builds satisfies, and
`moveSnake` and `growSnake` (on a snake of at least 2 segments) return and
preserve, that every `body[i]` is a live node with `prev = body[i - 1]`
(`nullptr` for the head) and `next = body[i + 1]` (`nullptr` for the tail),
`snake.head` and `snake.tail` being the first and the last body element; and
under that condition walking `next` from the head visits exactly the body
vector in order. -/
theorem C17_links_agree :
    (∀ windowW windowH u rng s0, mainInit windowW windowH u rng = some (some s0) →
      LinksAgree s0.world.heap s0.world.snake.body ∧
        s0.world.snake.body.head? = some s0.world.snake.head ∧
        s0.world.snake.body.getLast? = some s0.world.snake.tail) ∧
    (∀ w : World, LinksAgree w.heap w.snake.body →
      w.snake.body.head? = some w.snake.head →
      w.snake.body.getLast? = some w.snake.tail →
      ∃ w', moveSnake w = some w' ∧ LinksAgree w'.heap w'.snake.body ∧
        w'.snake.body.head? = some w'.snake.head ∧
        w'.snake.body.getLast? = some w'.snake.tail) ∧
    (∀ (w : World) (d0 : Direction), LinksAgree w.heap w.snake.body →
      w.snake.body.head? = some w.snake.head →
      w.snake.body.getLast? = some w.snake.tail → 2 ≤ w.snake.body.length →
      ∃ w', growSnake w d0 = some w' ∧ LinksAgree w'.heap w'.snake.body ∧
        w'.snake.body.head? = some w'.snake.head ∧
        w'.snake.body.getLast? = some w'.snake.tail) ∧
    (∀ (w : World) (fuel : Nat), LinksAgree w.heap w.snake.body →
      w.snake.body.head? = some w.snake.head → w.snake.body.length ≤ fuel →
      walkNext w.heap fuel w.snake.head = w.snake.body) := by
  refine ⟨?_, ?_, ?_, ?_⟩
  · intro windowW windowH u rng s0 hinit
    obtain ⟨hwl, hen, _⟩ := mainInit_wellLinked windowW windowH u rng s0 hinit
    exact ⟨⟨hwl.2.1, hwl.2.2.1, hwl.2.2.2.1, hen⟩, hwl.2.2.2.2.1, hwl.2.2.2.2.2⟩
  · intro w hla hh htl
    have hnd := nodup_of_linksAgree _ _ hla
    obtain ⟨hv, hpl, hnl, hen⟩ := hla
    obtain ⟨w', hm, hs, hlinks⟩ := moveSnake_links w hnd hv hpl hh
    have hwl' := wellLinked_of_links w.heap w'.heap w.snake ⟨hnd, hv, hpl, hnl, hh, htl⟩ hlinks
    have hen' := endsNull_of_links _ w'.heap _ hen hlinks
    rw [← hs] at hwl' hen'
    exact ⟨w', hm, ⟨hwl'.2.1, hwl'.2.2.1, hwl'.2.2.2.1, hen'⟩, hwl'.2.2.2.2.1,
      hwl'.2.2.2.2.2⟩
  · intro w d0 hla hh htl hn
    have hnd := nodup_of_linksAgree _ _ hla
    obtain ⟨hv, hpl, hnl, hen⟩ := hla
    obtain ⟨w', hg, hwl', hen', _⟩ :=
      growSnake_wellLinked w d0 ⟨hnd, hv, hpl, hnl, hh, htl⟩ hen hn
    exact ⟨w', hg, ⟨hwl'.2.1, hwl'.2.2.1, hwl'.2.2.2.1, hen'⟩, hwl'.2.2.2.2.1,
      hwl'.2.2.2.2.2⟩
  · intro w fuel hla hh hf
    cases hb : w.snake.body with
    | nil => rw [hb] at hh; simp at hh
    | cons b rest =>
      have hpos : 0 < w.snake.body.length := by rw [hb]; simp
      have hhead : w.snake.body.getD 0 0 = w.snake.head := by
        have := getElem?_getD_of_lt w.snake.body 0 hpos
        rw [List.head?_eq_getElem?] at hh
        rw [hh] at this
        exact (Option.some.inj this).symm
      have := walkNext_drop w.heap w.snake.body hla fuel 0 hpos (by omega)
      rw [hhead, List.drop_zero, hb] at this
      exact this

/-- C17, witness: the grown sample snake `[1, 2, 5, 3]` has agreeing links,
`moveSnake` keeps them, and walking `next` from its head gives `[1, 2, 5, 3]`. -/
theorem C17_links_agree_witness :
    LinksAgree sampleGrown.heap sampleGrown.snake.body ∧
    (∃ w', moveSnake sampleGrown = some w' ∧ LinksAgree w'.heap w'.snake.body ∧
      w'.snake.body.head? = some w'.snake.head ∧
      w'.snake.body.getLast? = some w'.snake.tail) ∧
    walkNext sampleGrown.heap 4 sampleGrown.snake.head = [1, 2, 5, 3] :=
  ⟨by decide, C17_links_agree.2.1 sampleGrown (by decide) (by decide) (by decide),
    C17_links_agree.2.2.2 sampleGrown 4 (by decide) (by decide) (by decide)⟩

/-! ## The session invariant -/

theorem evenColumn_even (x : Int) : evenColumn x % 2 = 0 := by
  unfold evenColumn
  by_cases h : x.tmod 2 = 0
  · have hdvd : (2 : Int) ∣ x := Int.dvd_iff_tmod_eq_zero.mpr h
    simp only [h, ne_eq, not_true_eq_false, if_false]
    omega
  · have hdvd : ¬ (2 : Int) ∣ x := fun e => h (Int.dvd_iff_tmod_eq_zero.mp e)
    simp only [ne_eq, h, not_false_eq_true, if_true]
    omega

theorem mainStartX_even (windowW : Nat) : mainStartX windowW % 2 = 0 :=
  evenColumn_even ((windowW : Int).tdiv 2 - BOARD_WIDTH.tdiv 2)

theorem stepHead_parity (n : Node) : (stepHead n).xPos % 2 = n.xPos % 2 := by
  unfold stepHead
  cases n.dir <;> simp only <;> omega

theorem isSome_of_map_eq {α : Type} (f : Node → α) (o o' : Option Node)
    (e : o'.map f = o.map f) (ho : o.isSome = true) : o'.isSome = true := by
  cases o with
  | none => exact Bool.noConfusion ho
  | some x =>
    cases o' with
    | none => simp at e
    | some y => rfl

theorem parity_of_xPos_eq (o o' : Option Node) (e : o'.map Node.xPos = o.map Node.xPos) :
    o'.map (fun n => n.xPos % 2) = o.map (fun n => n.xPos % 2) := by
  cases o with
  | none =>
    cases o' with
    | none => rfl
    | some y => simp at e
  | some x =>
    cases o' with
    | none => simp at e
    | some y =>
      simp only [Option.map_some', Option.some.injEq] at e ⊢
      rw [e]

/-- The invariant survives every change of the heap that keeps the links, the
body, head and tail, the food pointer, and the parity of the head's and the
food's column, the marker going to null or to a body segment. -/
theorem sessionInv_transfer (s s' : Session) (m : Nat) (hinv : SessionInv s)
    (hsn : s'.world.snake = { s.world.snake with digFood := m })
    (hm : m = 0 ∨ m ∈ s.world.snake.body) (hfood : s'.food = s.food)
    (hlinks : ∀ p, (s'.world.heap.deref p).map Node.next = (s.world.heap.deref p).map Node.next ∧
      (s'.world.heap.deref p).map Node.prev = (s.world.heap.deref p).map Node.prev)
    (hhead : (s'.world.heap.deref s.world.snake.head).map (fun n => n.xPos % 2) = some 0)
    (hfd : (s'.world.heap.deref s.food).map (fun n => n.xPos % 2) = some 0) :
    SessionInv s' := by
  obtain ⟨hwl, hen, hn, _, hfl, hfn, _, _⟩ := hinv
  have hwl' : WellLinked ⟨s'.world.heap, { s.world.snake with digFood := m }⟩ :=
    wellLinked_of_links s.world.heap s'.world.heap s.world.snake hwl hlinks
  have hen' := endsNull_of_links _ s'.world.heap _ hen hlinks
  unfold SessionInv
  rw [hfood]
  have hb : s'.world.snake.body = s.world.snake.body := by rw [hsn]
  have hhd : s'.world.snake.head = s.world.snake.head := by rw [hsn]
  have hdg : s'.world.snake.digFood = m := by rw [hsn]
  rw [hb, hhd, hdg]
  refine ⟨?_, hen', hn, hm, isSome_of_map_eq _ _ _ (hlinks _).1 hfl, hfn, hhead, hfd⟩
  have : s'.world = ⟨s'.world.heap, { s.world.snake with digFood := m }⟩ := by
    rw [← hsn]
  rw [this]
  exact hwl'

/-- The start of the loop satisfies the invariant. -/
theorem mainInit_inv (windowW windowH : Nat) (u : Indeterminate) (rng : List (Int × Int))
    (s0 : Session) (hinit : mainInit windowW windowH u rng = some (some s0)) :
    SessionInv s0 := by
  obtain ⟨hwl, hen, hlen⟩ := mainInit_wellLinked windowW windowH u rng s0 hinit
  obtain ⟨_, x, y, _, hw, hf, _⟩ := mainInit_spec windowW windowH u rng s0 hinit
  refine ⟨hwl, hen, by omega, ?_, ?_, ?_, ?_, ?_⟩
  · left; rw [hw]
  · rw [hw, hf]; rfl
  · rw [hw, hf]
    have : (4 : Nat) ∉ ([1, 2, 3] : List Nat) := by decide
    exact this
  · rw [hw]
    simp only [Heap.deref]
    have := mainStartX_even windowW
    simp only [Nat.succ_ne_zero, if_false, Nat.add_one_sub_one, List.getElem?_cons_zero,
      Option.map_some', Option.some.injEq]
    omega
  · rw [hw, hf]
    simp only [Heap.deref]
    have := evenColumn_even x
    simpa using this

/-- The `next` pointer of a body segment is null or a body segment. -/
theorem next_mem_or_null (h : Heap) (body : List Nat) (hnl : NextLinked h body)
    (hen : EndsNull h body) (p : Nat) (hp : p ∈ body) :
    ∃ q, (h.deref p).map Node.next = some q ∧ (q = 0 ∨ q ∈ body) := by
  obtain ⟨j, hj, rfl⟩ := mem_getD body p hp
  by_cases hl : j = body.length - 1
  · exact ⟨0, by rw [hl]; exact hen.2, Or.inl rfl⟩
  · exact ⟨body.getD (j + 1) 0, hnl j (by omega), Or.inr (getD_mem_of_lt _ _ (by omega))⟩

/-- The key handler keeps the invariant and the body. -/
theorem keyPress_inv (c : Char) (s s' : Session) (hinv : SessionInv s)
    (hk : keyPress c s = some s') :
    SessionInv s' ∧ s'.world.snake = s.world.snake ∧ s'.grown = s.grown ∧
      s'.eaten = s.eaten := by
  have hturn : ∀ d, (turnHead d s.world).map (fun w => { s with ch := c, world := w }) = some s' →
      SessionInv s' ∧ s'.world.snake = s.world.snake ∧ s'.grown = s.grown ∧
        s'.eaten = s.eaten := by
    intro d hd
    obtain ⟨hdn, hhd⟩ := Option.isSome_iff_exists.mp
      (hinv.1.2.1 _ (head_mem_of_wellLinked _ hinv.1))
    obtain ⟨w', ht, hs, _, _, hlinks, hpos⟩ := turnHead_spec d s.world hdn hhd
    rw [ht] at hd
    simp only [Option.map_some', Option.some.injEq] at hd
    subst hd
    refine ⟨?_, hs, rfl, rfl⟩
    apply sessionInv_transfer s _ s.world.snake.digFood hinv
    · simp only [hs]
    · exact hinv.2.2.2.1
    · rfl
    · exact hlinks
    · simp only
      rw [parity_of_xPos_eq _ _ (hpos _).1]
      exact hinv.2.2.2.2.2.2.1
    · simp only
      rw [parity_of_xPos_eq _ _ (hpos _).1]
      exact hinv.2.2.2.2.2.2.2
  unfold keyPress at hk
  split at hk
  · exact hturn _ hk
  · split at hk
    · exact hturn _ hk
    · split at hk
      · exact hturn _ hk
      · split at hk
        · exact hturn _ hk
        · cases hk
          exact ⟨hinv, rfl, rfl, rfl⟩

/-- The update tick under the invariant: it returns, keeps the invariant, the
body, the food pointer and the counters. -/
theorem updateTick_inv (s : Session) (hinv : SessionInv s) :
    ∃ t, updateTick s = some t ∧ SessionInv t ∧
      t.world.snake.body = s.world.snake.body ∧ t.grown = s.grown ∧ t.eaten = s.eaten ∧
      t.food = s.food ∧ t.score = s.score ∧ t.ch = s.ch ∧
      (s.world.snake.digFood = 0 → t.world.snake.digFood = 0) ∧
      (s.world.snake.digFood ≠ 0 →
        (s.world.heap.deref s.world.snake.digFood).map Node.next
          = some t.world.snake.digFood) := by
  obtain ⟨hwl, hen, hn, hmark, hfl, hfn, hhp, hfp⟩ := hinv
  obtain ⟨hnd, hv, hpl, hnl, hh, htl⟩ := hwl
  obtain ⟨w', hm, hs, _, hout, ⟨hd, hhd, hhd'⟩, _⟩ := moveSnake_spec s.world hnd hv hpl hh
  obtain ⟨w'', hm', _, hlinks⟩ := moveSnake_links s.world hnd hv hpl hh
  rw [hm] at hm'
  cases hm'
  have hwl' : WellLinked w' := by
    have := wellLinked_of_links s.world.heap w'.heap s.world.snake ⟨hnd, hv, hpl, hnl, hh, htl⟩
      hlinks
    rw [← hs] at this
    exact this
  obtain ⟨alive, hc⟩ := checkForCollision_some s.startX s.startY w'
    (hwl'.2.1 _ (head_mem_of_wellLinked w' hwl')) hwl'.2.1
  -- the marker after the advance
  have hadv : ∃ m, (if w'.snake.digFood ≠ 0 then
        (w'.heap.deref w'.snake.digFood).map (fun n => n.next)
      else some w'.snake.digFood) = some m ∧ (m = 0 ∨ m ∈ s.world.snake.body) ∧
      (s.world.snake.digFood = 0 → m = 0) ∧
      (s.world.snake.digFood ≠ 0 →
        (s.world.heap.deref s.world.snake.digFood).map Node.next = some m) := by
    rw [hs]
    by_cases hz : s.world.snake.digFood = 0
    · exact ⟨0, by simp [hz], Or.inl rfl, fun _ => rfl, fun h => absurd hz h⟩
    · have hin : s.world.snake.digFood ∈ s.world.snake.body := by
        rcases hmark with e | e
        · exact absurd e hz
        · exact e
      obtain ⟨q, hq, hq'⟩ := next_mem_or_null _ _ hnl hen _ hin
      refine ⟨q, ?_, hq', fun h => absurd h hz, fun _ => hq⟩
      rw [if_pos hz]
      have := (hlinks s.world.snake.digFood).1
      rw [hq] at this
      exact this
  obtain ⟨m, hm1, hm2, hm3, hm4⟩ := hadv
  let sn' : Snake := { w'.snake with digFood := m }
  let ga : Bool := if !alive then false else s.gameActive
  refine ⟨{ s with world := ⟨w'.heap, sn'⟩, gameActive := ga }, ?_, ?_, ?_, rfl, rfl, rfl, rfl,
    rfl, hm3, hm4⟩
  · simp only [updateTick, hm, hc, Option.bind_eq_bind, Option.some_bind]
    by_cases hz : w'.snake.digFood ≠ 0
    · rw [if_pos hz] at hm1 ⊢
      rw [hm1]
      rfl
    · rw [if_neg hz] at hm1 ⊢
      cases hm1
      rfl
  · apply sessionInv_transfer s _ m ⟨⟨hnd, hv, hpl, hnl, hh, htl⟩, hen, hn, hmark, hfl, hfn, hhp,
      hfp⟩
    · simp only [sn', hs]
    · exact hm2
    · rfl
    · exact hlinks
    · simp only
      rw [hhd']
      rw [hhd] at hhp
      simp only [Option.map_some', Option.some.injEq] at hhp ⊢
      rw [stepHead_parity]
      exact hhp
    · simp only
      rw [hout _ hfn]
      exact hfp
  · simp only [sn', hs]

/-- The food branch of the render tick under the invariant: when it returns,
the invariant holds, the body is the same, `growSnake` was not called, and the
marker is what it was or `body[1]`. -/
theorem eatFood_inv (s s1 : Session) (hinv : SessionInv s) (he : eatFood s = some s1) :
    SessionInv s1 ∧ s1.world.snake.body = s.world.snake.body ∧ s1.grown = s.grown ∧
      s.eaten ≤ s1.eaten ∧
      (s1.world.snake.digFood = s.world.snake.digFood ∨
        s1.world.snake.digFood = s.world.snake.body.getD 1 0) := by
  obtain ⟨hwl, hen, hn, hmark, hfl, hfn, hhp, hfp⟩ := hinv
  have hinv : SessionInv s := ⟨hwl, hen, hn, hmark, hfl, hfn, hhp, hfp⟩
  obtain ⟨hnd, hv, hpl, hnl, hh, htl⟩ := hwl
  unfold eatFood at he
  cases hq : headOnFood s with
  | none => simp [hq] at he
  | some onFood =>
    cases onFood with
    | false =>
      simp [hq] at he
      subst he
      exact ⟨hinv, rfl, rfl, le_refl _, Or.inl rfl⟩
    | true =>
      simp only [hq, Option.bind_eq_bind, Option.some_bind, if_true] at he
      cases hdf : drawFood s.world s.food s.rng with
      | none => simp [hdf] at he
      | some r =>
        obtain ⟨w, rng'⟩ := r
        obtain ⟨f, x, y, hf, _, _, hw, _⟩ := drawFood_spec _ _ _ _ _ hdf
        have hhm : s.world.snake.head ∈ s.world.snake.body :=
          head_mem_of_wellLinked _ ⟨hnd, hv, hpl, hnl, hh, htl⟩
        have hhf : s.world.snake.head ≠ s.food := fun e => hfn (e ▸ hhm)
        obtain ⟨hd, hhd⟩ := Option.isSome_iff_exists.mp (hv _ hhm)
        have hst := deref_store s.world.heap s.food
        have hwh : w.heap = s.world.heap.store s.food { f with xPos := evenColumn x, yPos := y } := by
          rw [hw]
        have hws : w.snake = s.world.snake := by rw [hw]
        have hhd' : w.heap.deref w.snake.head = some hd := by
          rw [hwh, hws, hst _ f _ hf, if_neg hhf]
          exact hhd
        simp only [hdf, Option.some_bind, hhd'] at he
        cases he
        have hhead0 : s.world.snake.body.getD 0 0 = s.world.snake.head := by
          have := getElem?_getD_of_lt s.world.snake.body 0 (by omega)
          rw [List.head?_eq_getElem?] at hh
          rw [hh] at this
          exact (Option.some.inj this).symm
        have hnext : hd.next = s.world.snake.body.getD 1 0 := by
          have := hnl 0 (by omega)
          rw [hhead0, hhd] at this
          simpa using this
        have hlinks : ∀ p, (w.heap.deref p).map Node.next = (s.world.heap.deref p).map Node.next ∧
            (w.heap.deref p).map Node.prev = (s.world.heap.deref p).map Node.prev := by
          intro p
          rw [hwh, hst _ f _ hf]
          by_cases e : p = s.food
          · rw [if_pos e, e, hf]; exact ⟨rfl, rfl⟩
          · rw [if_neg e]; exact ⟨rfl, rfl⟩
        refine ⟨?_, by simp only [hws], rfl, Nat.le_succ _, Or.inr (by simp only [hnext])⟩
        apply sessionInv_transfer s _ hd.next hinv
        · simp only [hws]
        · right
          rw [hnext]
          exact getD_mem_of_lt _ _ (by omega)
        · rfl
        · exact hlinks
        · simp only
          rw [hwh, hst _ f _ hf, if_neg hhf]
          exact hhp
        · simp only
          rw [hwh, hst _ f _ hf, if_pos rfl]
          simp only [Option.map_some', Option.some.injEq]
          exact evenColumn_even x

/-- The growth branch of the render tick under the invariant: it returns and
keeps the invariant; when the marker is the tail, the marker becomes null and
`growSnake` adds one segment; otherwise nothing changes. -/
theorem growIfDue_inv (d0 : Direction) (s : Session) (hinv : SessionInv s) :
    ∃ s2, growIfDue d0 s = some s2 ∧ SessionInv s2 ∧
      (s.world.snake.digFood = s.world.snake.tail →
        s2.world.snake.digFood = 0 ∧ s2.grown = s.grown + 1 ∧ s2.eaten = s.eaten ∧
        s2.world.snake.body.length = s.world.snake.body.length + 1) ∧
      (s.world.snake.digFood ≠ s.world.snake.tail → s2 = s) := by
  by_cases hdue : s.world.snake.digFood = s.world.snake.tail
  · obtain ⟨hwl, hen, hn, _, hfl, hfn, hhp, hfp⟩ := hinv
    let w0 : World := ⟨s.world.heap, { s.world.snake with digFood := 0 }⟩
    have hwl0 : WellLinked w0 := hwl
    have hn0 : 2 ≤ w0.snake.body.length := by
      have : w0.snake.body = s.world.snake.body := rfl
      rw [this]; omega
    obtain ⟨w', hg, hwl', hen', hlen, hhead, _, hdig, hmem, _, hkeep, _⟩ :=
      growSnake_wellLinked w0 d0 hwl0 hen hn0
    have hg' : growSnake { s.world with snake := { s.world.snake with digFood := 0 } } d0
        = some w' := hg
    obtain ⟨fd, hfd⟩ := Option.isSome_iff_exists.mp hfl
    obtain ⟨fd', hfd', hfx, _⟩ := hkeep s.food fd hfd
    have hhm : s.world.snake.head ∈ s.world.snake.body := head_mem_of_wellLinked _ hwl
    obtain ⟨hd, hhd⟩ := Option.isSome_iff_exists.mp (hwl.2.1 _ hhm)
    obtain ⟨hd', hhd', hhx, _⟩ := hkeep s.world.snake.head hd hhd
    refine ⟨{ s with world := w', grown := s.grown + 1 }, ?_, ?_, ?_, fun h => absurd hdue h⟩
    · simp [growIfDue, hdue, hg']
    · refine ⟨hwl', hen', ?_, ?_, ?_, ?_, ?_, ?_⟩
      · simp only; rw [hlen]; simp only [w0]; omega
      · left; simp only; rw [hdig]
      · simp only; rw [hfd']; rfl
      · simp only
        intro hin
        rcases (hmem s.food).mp hin with e | e
        · have := deref_some_le _ _ _ hfd
          simp only [w0] at e
          omega
        · exact hfn e
      · simp only
        rw [hhead]
        simp only [w0]
        rw [hhd']
        rw [hhd] at hhp
        simp only [Option.map_some', Option.some.injEq] at hhp ⊢
        rw [hhx]; exact hhp
      · simp only
        rw [hfd']
        rw [hfd] at hfp
        simp only [Option.map_some', Option.some.injEq] at hfp ⊢
        rw [hfx]; exact hfp
    · intro _
      refine ⟨?_, rfl, rfl, ?_⟩
      · simp only; rw [hdig]
      · simp only; rw [hlen]
  · exact ⟨s, by simp [growIfDue, hdue], hinv, fun h => absurd h hdue, fun _ => rfl⟩

/-- A marker that is null or `body[1]` is not the tail of a snake of 3 or more
segments. -/
theorem calm_not_tail (s : Session) (hinv : SessionInv s)
    (hcalm : s.world.snake.digFood = 0 ∨
      s.world.snake.digFood = s.world.snake.body.getD 1 0) :
    s.world.snake.digFood ≠ s.world.snake.tail := by
  obtain ⟨hwl, _, hn, _⟩ := hinv
  obtain ⟨_, htail⟩ := tail_eq_getD_of_wellLinked _ hwl
  have htlive := hwl.2.1 _ (htail ▸ getD_mem_of_lt s.world.snake.body
    (s.world.snake.body.length - 1) (by omega))
  intro e
  rcases hcalm with h0 | h1
  · rw [← e, h0] at htlive
    simp [Heap.deref] at htlive
  · rw [h1, ← htail] at e
    have := getD_inj_of_nodup _ hwl.1 _ _ (by omega) (by omega) e
    omega

/-- The render tick under the invariant: when it returns, the invariant holds
and the body is the same or one longer; it is longer only with the marker left
null; and from a marker that is null or `body[1]` the body stays the same and
the marker stays null or `body[1]`. -/
theorem renderTick_inv (d0 : Direction) (s s' : Session) (hinv : SessionInv s)
    (hr : renderTick d0 s = some s') :
    SessionInv s' ∧
      (s'.world.snake.body = s.world.snake.body ∨
        (s'.world.snake.body.length = s.world.snake.body.length + 1 ∧
          s'.world.snake.digFood = 0)) ∧
      ((s.world.snake.digFood = 0 ∨ s.world.snake.digFood = s.world.snake.body.getD 1 0) →
        s'.world.snake.body = s.world.snake.body ∧
        (s'.world.snake.digFood = 0 ∨
          s'.world.snake.digFood = s'.world.snake.body.getD 1 0)) := by
  unfold renderTick at hr
  cases he : eatFood s with
  | none => simp [he] at hr
  | some s1 =>
    obtain ⟨hinv1, hb1, _, _, hd1⟩ := eatFood_inv s s1 hinv he
    obtain ⟨s2, hg, hinv2, hdue, hnot⟩ := growIfDue_inv d0 s1 hinv1
    simp only [he, hg, Option.bind_eq_bind, Option.some_bind,
      derefAll_of_valid _ _ hinv2.1.2.1, Option.some.injEq] at hr
    subst hr
    refine ⟨hinv2, ?_, ?_⟩
    · by_cases h : s1.world.snake.digFood = s1.world.snake.tail
      · right
        obtain ⟨h1, _, _, h4⟩ := hdue h
        exact ⟨by rw [h4, hb1], h1⟩
      · left
        rw [hnot h, hb1]
    · intro hcalm
      have hcalm1 : s1.world.snake.digFood = 0 ∨
          s1.world.snake.digFood = s1.world.snake.body.getD 1 0 := by
        rw [hb1]
        rcases hd1 with e | e
        · rw [e]; exact hcalm
        · exact Or.inr e
      have := hnot (calm_not_tail s1 hinv1 hcalm1)
      rw [this]
      exact ⟨hb1, hcalm1⟩

/-! ## Runs of the loop -/

theorem inLoop_inv (s : Session) (hs : InLoop s) : SessionInv s := by
  induction hs with
  | start windowW windowH u rng s0 hinit => exact mainInit_inv windowW windowH u rng s0 hinit
  | key c s s' _ hk ih => exact (keyPress_inv c s s' ih hk).1
  | update s s' _ hu ih =>
    obtain ⟨t, ht, hinv, _⟩ := updateTick_inv s ih
    rw [hu] at ht
    cases ht
    exact hinv
  | eat s s' _ he ih => exact (eatFood_inv s s' ih he).1
  | grow d0 s s' _ hg ih =>
    obtain ⟨t, ht, hinv, _⟩ := growIfDue_inv d0 s ih
    rw [hg] at ht
    cases ht
    exact hinv

theorem renderTick_split (d0 : Direction) (s s' : Session) (hr : renderTick d0 s = some s') :
    ∃ s1, eatFood s = some s1 ∧ growIfDue d0 s1 = some s' := by
  unfold renderTick at hr
  cases he : eatFood s with
  | none => simp [he] at hr
  | some s1 =>
    cases hg : growIfDue d0 s1 with
    | none => simp [he, hg] at hr
    | some s2 =>
      cases hda : derefAll s2.world.heap s2.world.snake.body with
      | none => simp [he, hg, hda] at hr
      | some u =>
        simp [he, hg, hda] at hr
        subst hr
        exact ⟨s1, rfl, hg⟩

theorem loopBody_eq (e : Pass) (s : Session) :
    loopBody e s = ((match e.key with
        | some c => keyPress c s
        | none => some s).bind fun s1 =>
      (if e.updateDue then updateTick s1 else some s1).bind fun s2 =>
        if e.renderDue then renderTick e.dir s2 else some s2) := by
  obtain ⟨key, ud, rd, dir⟩ := e
  cases key <;> cases ud <;> cases rd <;> simp [loopBody]

/-- One pass through the loop body, split into its three stages. -/
theorem loopBody_split (e : Pass) (s s' : Session) (hl : loopBody e s = some s') :
    ∃ s1 s2, (match e.key with
        | some c => keyPress c s
        | none => some s) = some s1 ∧
      (if e.updateDue then updateTick s1 else some s1) = some s2 ∧
      (if e.renderDue then renderTick e.dir s2 else some s2) = some s' := by
  rw [loopBody_eq] at hl
  obtain ⟨s1, h1, hl⟩ := Option.bind_eq_some.mp hl
  obtain ⟨s2, h2, h3⟩ := Option.bind_eq_some.mp hl
  exact ⟨s1, s2, h1, h2, h3⟩

/-- One pass through the loop body under the invariant: the invariant holds
afterwards and the body is the same or one segment longer. -/
theorem loopBody_inv (e : Pass) (s s' : Session) (hinv : SessionInv s)
    (hl : loopBody e s = some s') :
    SessionInv s' ∧ s.world.snake.body.length ≤ s'.world.snake.body.length ∧
      s'.world.snake.body.length ≤ s.world.snake.body.length + 1 := by
  obtain ⟨s1, s2, h1, h2, h3⟩ := loopBody_split e s s' hl
  have k1 : SessionInv s1 ∧ s1.world.snake.body = s.world.snake.body := by
    cases hk : e.key with
    | none =>
      rw [hk] at h1
      cases h1
      exact ⟨hinv, rfl⟩
    | some c =>
      rw [hk] at h1
      obtain ⟨a, b, _⟩ := keyPress_inv c s s1 hinv h1
      exact ⟨a, by rw [b]⟩
  have k2 : SessionInv s2 ∧ s2.world.snake.body = s1.world.snake.body := by
    cases hu : e.updateDue with
    | false =>
      rw [hu] at h2
      cases h2
      exact ⟨k1.1, rfl⟩
    | true =>
      rw [hu] at h2
      obtain ⟨t, ht, a, b, _⟩ := updateTick_inv s1 k1.1
      simp only [if_true] at h2
      rw [h2] at ht
      cases ht
      exact ⟨a, b⟩
  cases hrd : e.renderDue with
  | false =>
    rw [hrd] at h3
    cases h3
    rw [k2.2, k1.2]
    exact ⟨k2.1, le_refl _, Nat.le_succ _⟩
  | true =>
    rw [hrd] at h3
    simp only [if_true] at h3
    obtain ⟨a, b, _⟩ := renderTick_inv e.dir s2 s' k2.1 h3
    refine ⟨a, ?_, ?_⟩ <;> rcases b with b | ⟨b, _⟩ <;> rw [b, k2.2, k1.2] <;> omega

theorem loopBody_inLoop (e : Pass) (s s' : Session) (hs : InLoop s)
    (hl : loopBody e s = some s') : InLoop s' := by
  obtain ⟨s1, s2, h1, h2, h3⟩ := loopBody_split e s s' hl
  have k1 : InLoop s1 := by
    cases hk : e.key with
    | none => rw [hk] at h1; cases h1; exact hs
    | some c => rw [hk] at h1; exact InLoop.key c s s1 hs h1
  have k2 : InLoop s2 := by
    cases hu : e.updateDue with
    | false => rw [hu] at h2; cases h2; exact k1
    | true =>
      rw [hu] at h2
      simp only [if_true] at h2
      exact InLoop.update s1 s2 k1 h2
  cases hrd : e.renderDue with
  | false => rw [hrd] at h3; cases h3; exact k2
  | true =>
    rw [hrd] at h3
    simp only [if_true] at h3
    obtain ⟨t, ht1, ht2⟩ := renderTick_split e.dir s2 s' h3
    exact InLoop.grow e.dir t s' (InLoop.eat s2 t k2 ht1) ht2

theorem runLoop_inLoop : ∀ (passes : List Pass) (s s' : Session), InLoop s →
    runLoop passes s = some s' → InLoop s' := by
  intro passes
  induction passes with
  | nil => intro s s' hs hr; cases hr; exact hs
  | cons e es ih =>
    intro s s' hs hr
    unfold runLoop at hr
    split at hr
    · cases hl : loopBody e s with
      | none => simp [hl] at hr
      | some s1 =>
        simp only [hl, Option.some_bind] at hr
        exact ih s1 s' (loopBody_inLoop e s s1 hs hl) hr
    · cases hr; exact hs

theorem reachable_inLoop (s : Session) (hr : Reachable s) : InLoop s := by
  obtain ⟨windowW, windowH, u, rng, s0, passes, hinit, hrun⟩ := hr
  exact runLoop_inLoop passes s0 s (InLoop.start windowW windowH u rng s0 hinit) hrun

/-- Along the loop the invariant is kept and the body never gets shorter. -/
theorem runLoop_inv : ∀ (passes : List Pass) (s s' : Session), SessionInv s →
    runLoop passes s = some s' →
    SessionInv s' ∧ s.world.snake.body.length ≤ s'.world.snake.body.length := by
  intro passes
  induction passes with
  | nil => intro s s' hs hr; cases hr; exact ⟨hs, le_refl _⟩
  | cons e es ih =>
    intro s s' hs hr
    unfold runLoop at hr
    split at hr
    · cases hl : loopBody e s with
      | none => simp [hl] at hr
      | some s1 =>
        simp only [hl, Option.some_bind] at hr
        obtain ⟨a, b, _⟩ := loopBody_inv e s s1 hs hl
        obtain ⟨c, d⟩ := ih s1 s' a hr
        exact ⟨c, le_trans b d⟩
    · cases hr; exact ⟨hs, le_refl _⟩

theorem moveSnake_snake (w w' : World) (hm : moveSnake w = some w') : w'.snake = w.snake := by
  unfold moveSnake at hm
  cases h1 : derefAll w.heap w.snake.body with
  | none => simp [h1] at hm
  | some u =>
    cases h2 : propagate w.snake.body (w.snake.body.length - 1) w.heap with
    | none => simp [h1, h2] at hm
    | some hp =>
      cases h3 : hp.deref w.snake.head with
      | none => simp [h1, h2, h3] at hm
      | some hd =>
        simp [h1, h2, h3] at hm
        subst hm
        rfl

/-- One pass without an update tick: the body grows by at most one segment, with
the marker left null if it grows, and not at all from a marker that is null or
`body[1]`. -/
theorem loopBody_noUpdate (e : Pass) (s s' : Session) (hinv : SessionInv s)
    (hu : e.updateDue = false) (hl : loopBody e s = some s') :
    SessionInv s' ∧
      (s'.world.snake.body = s.world.snake.body ∨
        (s'.world.snake.body.length = s.world.snake.body.length + 1 ∧
          s'.world.snake.digFood = 0)) ∧
      ((s.world.snake.digFood = 0 ∨ s.world.snake.digFood = s.world.snake.body.getD 1 0) →
        s'.world.snake.body = s.world.snake.body ∧
        (s'.world.snake.digFood = 0 ∨
          s'.world.snake.digFood = s'.world.snake.body.getD 1 0)) := by
  obtain ⟨s1, s2, h1, h2, h3⟩ := loopBody_split e s s' hl
  have k1 : SessionInv s1 ∧ s1.world.snake = s.world.snake := by
    cases hk : e.key with
    | none =>
      rw [hk] at h1
      cases h1
      exact ⟨hinv, rfl⟩
    | some c =>
      rw [hk] at h1
      obtain ⟨a, b, _⟩ := keyPress_inv c s s1 hinv h1
      exact ⟨a, b⟩
  rw [hu] at h2
  cases h2
  cases hrd : e.renderDue with
  | false =>
    rw [hrd] at h3
    cases h3
    rw [k1.2]
    exact ⟨k1.1, Or.inl rfl, fun h => ⟨rfl, h⟩⟩
  | true =>
    rw [hrd] at h3
    simp only [if_true] at h3
    have := renderTick_inv e.dir s1 s' k1.1 h3
    rw [k1.2] at this
    exact this

/-- Passes without an update tick, started with the marker null or on `body[1]`,
leave the body as it is. -/
theorem runLoop_calm : ∀ (passes : List Pass) (s s' : Session), SessionInv s →
    (s.world.snake.digFood = 0 ∨ s.world.snake.digFood = s.world.snake.body.getD 1 0) →
    (∀ e ∈ passes, e.updateDue = false) → runLoop passes s = some s' →
    s'.world.snake.body = s.world.snake.body := by
  intro passes
  induction passes with
  | nil => intro s s' _ _ _ hr; cases hr; rfl
  | cons e es ih =>
    intro s s' hs hcalm hno hr
    unfold runLoop at hr
    split at hr
    · cases hl : loopBody e s with
      | none => simp [hl] at hr
      | some s1 =>
        simp only [hl, Option.some_bind] at hr
        obtain ⟨a, _, c⟩ := loopBody_noUpdate e s s1 hs (hno e (by simp)) hl
        obtain ⟨c1, c2⟩ := c hcalm
        rw [ih s1 s' a c2 (fun e' he' => hno e' (by simp [he'])) hr, c1]
    · cases hr; rfl

/-- Passes without an update tick add at most one segment, however many render
ticks they hold. -/
theorem runLoop_noUpdate : ∀ (passes : List Pass) (s s' : Session), SessionInv s →
    (∀ e ∈ passes, e.updateDue = false) → runLoop passes s = some s' →
    s.world.snake.body.length ≤ s'.world.snake.body.length ∧
      s'.world.snake.body.length ≤ s.world.snake.body.length + 1 := by
  intro passes
  induction passes with
  | nil => intro s s' _ _ hr; cases hr; exact ⟨le_refl _, Nat.le_succ _⟩
  | cons e es ih =>
    intro s s' hs hno hr
    unfold runLoop at hr
    split at hr
    · cases hl : loopBody e s with
      | none => simp [hl] at hr
      | some s1 =>
        simp only [hl, Option.some_bind] at hr
        obtain ⟨a, b, _⟩ := loopBody_noUpdate e s s1 hs (hno e (by simp)) hl
        have hno' : ∀ e' ∈ es, e'.updateDue = false := fun e' he' => hno e' (by simp [he'])
        rcases b with b | ⟨b1, b2⟩
        · have := ih s1 s' a hno' hr
          rw [b] at this
          exact this
        · have := runLoop_calm es s1 s' a (Or.inl b2) hno' hr
          rw [this, b1]
          exact ⟨Nat.le_succ _, le_refl _⟩
    · cases hr; exact ⟨le_refl _, Nat.le_succ _⟩

/-- C11. Segment count is monotone: from every state the loop passes through,
whatever passes follow (any interleaving of key presses, update ticks and
render ticks), the number of body segments does not decrease; `moveSnake`
leaves the body unchanged; and over passes that hold no update tick, however
many render ticks they hold, it increases by at most 1. -/
theorem C11_segment_count_monotone :
    (∀ (s : Session) (passes : List Pass) (s' : Session), InLoop s →
      runLoop passes s = some s' →
      s.world.snake.body.length ≤ s'.world.snake.body.length) ∧
    (∀ w w' : World, moveSnake w = some w' → w'.snake.body = w.snake.body) ∧
    (∀ (s : Session) (passes : List Pass) (s' : Session), InLoop s →
      (∀ e ∈ passes, e.updateDue = false) → runLoop passes s = some s' →
      s.world.snake.body.length ≤ s'.world.snake.body.length ∧
        s'.world.snake.body.length ≤ s.world.snake.body.length + 1) :=
  ⟨fun s passes s' hs hr => (runLoop_inv passes s s' (inLoop_inv s hs) hr).2,
    fun w w' hm => by rw [moveSnake_snake w w' hm],
    fun s passes s' hs hno hr => runLoop_noUpdate passes s s' (inLoop_inv s hs) hno hr⟩

/-- C11, witness: from the start of the sample session two passes with both
timers due lead from 3 to 4 segments, and five render-only passes after that
add nothing. -/
theorem C11_segment_count_monotone_witness :
    startSession.world.snake.body.length ≤ sampleRun.world.snake.body.length ∧
    sampleRun.world.snake.body.length = 4 ∧
    (runLoop [renderOnly, renderOnly, renderOnly, renderOnly, renderOnly] sampleRun).map
      (fun s => s.world.snake.body.length) = some 4 :=
  ⟨C11_segment_count_monotone.1 startSession [bothDue, bothDue] sampleRun
      (InLoop.start 80 40 sampleStart [(30, 12), (42, 20), (50, 15), (22, 11)] startSession
        (by decide))
      (by decide),
    by decide, by decide⟩

/-! ## Claims about the session as a whole -/

/-- C14. Terminal size gate: `checkWindowSize` answers `true` exactly for
`columns ≥ 2 * BOARD_WIDTH = 80` and `rows ≥ 2 * BOARD_HEIGHT = 40`; when it
answers `false`, `main` returns 1 without building a session; when it answers
`true` and the loop is left, by the key `q` or by a collision, `main` returns 0. -/
theorem C14_terminal_size_gate :
    (2 * BOARD_WIDTH = 80 ∧ 2 * BOARD_HEIGHT = 40) ∧
    (∀ cols rows : Nat, checkWindowSize cols rows = true ↔ 80 ≤ cols ∧ 40 ≤ rows) ∧
    (∀ (cols rows : Nat) (u : Indeterminate) (rng : List (Int × Int)) (passes : List Pass),
      checkWindowSize cols rows = false →
      mainInit cols rows u rng = some none ∧ mainStatus cols rows u rng passes = some 1) ∧
    (∀ (cols rows : Nat) (u : Indeterminate) (rng : List (Int × Int)) (passes : List Pass)
      (s0 s : Session), mainInit cols rows u rng = some (some s0) →
      runLoop passes s0 = some s → (s.ch = 'q' ∨ s.gameActive = false) →
      checkWindowSize cols rows = true ∧ mainStatus cols rows u rng passes = some 0) := by
  refine ⟨⟨by decide, by decide⟩, ?_, ?_, ?_⟩
  · intro cols rows
    unfold checkWindowSize BOARD_WIDTH BOARD_HEIGHT
    rw [decide_eq_true_iff]
    omega
  · intro cols rows u rng passes hc
    have hi : mainInit cols rows u rng = some none := by
      simp [mainInit, hc]
    exact ⟨hi, by simp [mainStatus, hi]⟩
  · intro cols rows u rng passes s0 s hinit hrun hend
    obtain ⟨hcheck, _⟩ := mainInit_spec cols rows u rng s0 hinit
    refine ⟨hcheck, ?_⟩
    obtain ⟨hinv, _⟩ := runLoop_inv passes s0 s (mainInit_inv cols rows u rng s0 hinit) hrun
    have hexit : loopExited s = true := by
      unfold loopExited
      rcases hend with h | h
      · simp [h]
      · simp [h]
    obtain ⟨fd, hfd⟩ := Option.isSome_iff_exists.mp hinv.2.2.2.2.1
    simp [mainStatus, hinit, hrun, hexit, derefAll_of_valid _ _ hinv.1.2.1, hfd]

/-- C14, witness: a 79 x 40 terminal is refused with status 1; in an 80 x 40
terminal a session ended by the key `q` returns 0. -/
theorem C14_terminal_size_gate_witness :
    checkWindowSize 79 40 = false ∧
    mainStatus 79 40 sampleStart [(30, 12), (42, 20)] [] = some 1 ∧
    checkWindowSize 80 40 = true ∧
    mainStatus 80 40 sampleStart [(30, 12), (42, 20), (50, 15), (22, 11)]
      [{ key := some 'q', updateDue := false, renderDue := false, dir := Direction.UP }]
      = some 0 :=
  ⟨by decide,
    (C14_terminal_size_gate.2.2.1 79 40 sampleStart [(30, 12), (42, 20)] [] (by decide)).2,
    by decide,
    (C14_terminal_size_gate.2.2.2 80 40 sampleStart [(30, 12), (42, 20), (50, 15), (22, 11)]
      [{ key := some 'q', updateDue := false, renderDue := false, dir := Direction.UP }]
      startSession { startSession with ch := 'q' } (by decide) (by decide)
      (Or.inl rfl)).2⟩

/-- How the marker moves. In every state the loop passes through it is null or
one of the pointers in `snake.body`; the statement
`if (snake.digFood == snake.tail)` returns, nulls a marker that equals the tail
and grows the snake, and changes nothing otherwise; the advance
`digFood = digFood->next` of the update tick makes a non-null marker null only
from the tail, and from the tail it does, without growth. -/
theorem marker_steps :
    (∀ s : Session, InLoop s →
      s.world.snake.digFood = 0 ∨ s.world.snake.digFood ∈ s.world.snake.body) ∧
    (∀ (s : Session) (d0 : Direction), InLoop s → ∃ s2, growIfDue d0 s = some s2 ∧
      (s.world.snake.digFood = s.world.snake.tail →
        s2.world.snake.digFood = 0 ∧ s2.grown = s.grown + 1 ∧
        s2.world.snake.body.length = s.world.snake.body.length + 1) ∧
      (s.world.snake.digFood ≠ s.world.snake.tail → s2 = s)) ∧
    (∀ s t : Session, InLoop s → updateTick s = some t → t.world.snake.digFood = 0 →
      s.world.snake.digFood = 0 ∨ s.world.snake.digFood = s.world.snake.tail) ∧
    (∀ s : Session, InLoop s → s.world.snake.digFood = s.world.snake.tail →
      ∃ t, updateTick s = some t ∧ t.world.snake.digFood = 0 ∧ t.grown = s.grown ∧
        t.world.snake.body = s.world.snake.body) := by
  refine ⟨fun s hs => (inLoop_inv s hs).2.2.2.1, ?_, ?_, ?_⟩
  · intro s d0 hs
    obtain ⟨s2, h1, _, h3, h4⟩ := growIfDue_inv d0 s (inLoop_inv s hs)
    exact ⟨s2, h1, fun h => ⟨(h3 h).1, (h3 h).2.1, (h3 h).2.2.2⟩, h4⟩
  · intro s t hs hu ht
    have hinv := inLoop_inv s hs
    obtain ⟨t', ht', _, _, _, _, _, _, _, _, hadv⟩ := updateTick_inv s hinv
    rw [hu] at ht'
    cases ht'
    by_cases hz : s.world.snake.digFood = 0
    · exact Or.inl hz
    · right
      have hnext := hadv hz
      rw [ht] at hnext
      obtain ⟨hwl, _, hn, hmark, _⟩ := hinv
      have hin : s.world.snake.digFood ∈ s.world.snake.body := by
        rcases hmark with e | e
        · exact absurd e hz
        · exact e
      obtain ⟨j, hj, hje⟩ := mem_getD _ _ hin
      obtain ⟨_, htail⟩ := tail_eq_getD_of_wellLinked _ hwl
      by_cases hl : j = s.world.snake.body.length - 1
      · rw [← hje, hl, htail]
      · exfalso
        have h1 := hwl.2.2.2.1 j (by omega)
        rw [hje, hnext] at h1
        have hz' : s.world.snake.body.getD (j + 1) 0 = 0 := (Option.some.inj h1).symm
        have := hwl.2.1 _ (getD_mem_of_lt s.world.snake.body (j + 1) (by omega))
        rw [hz'] at this
        simp [Heap.deref] at this
  · intro s hs htl
    have hinv := inLoop_inv s hs
    obtain ⟨t, ht, _, hb, hg, _, _, _, _, _, hadv⟩ := updateTick_inv s hinv
    obtain ⟨hwl, hen, hn, _⟩ := hinv
    obtain ⟨_, htail⟩ := tail_eq_getD_of_wellLinked _ hwl
    have hlive := hwl.2.1 _ (htail ▸ getD_mem_of_lt s.world.snake.body
      (s.world.snake.body.length - 1) (by omega))
    have hnz : s.world.snake.digFood ≠ 0 := by
      intro e
      rw [← htl, e] at hlive
      simp [Heap.deref] at hlive
    have hnext := hadv hnz
    rw [htl, ← htail, hen.2] at hnext
    exact ⟨t, ht, (Option.some.inj hnext).symm, hg, hb⟩

/-- C15, the code at the failing input. In the 80 x 40 session with foods at
`(42, 20)` and `(44, 20)` and both timers due in every pass, after the first
pass and the update tick of the second the marker equals the tail (`3`) and the
head is on the second food; the render tick of that pass overwrites the marker
with `head->next` (`2`) before the test `digFood == tail`, so the marker is not
set to null and `growSnake` is not called: 2 foods eaten, 0 growths, 3
segments. A second way to the same loss needs the loop to stall: a pass with
only the render timer due, then one with only the update timer due, which puts
the marker on the tail, then no pass until the update timer is due again; that
pass starts with its update tick, whose advance sets the marker to
`tail->next`, null, and no growth follows. -/
theorem C15_marker_on_tail_not_nulled :
    mainInit 80 40 sampleStart [(30, 12), (42, 20), (44, 20), (22, 11)]
      = some (some twoFoodStart) ∧
    ((runLoop [bothDue] twoFoodStart).bind updateTick).map
        (fun s => (s.world.snake.digFood, s.world.snake.tail, s.grown, headOnFood s))
      = some (3, 3, 0, some true) ∧
    (((runLoop [bothDue] twoFoodStart).bind updateTick).bind (renderTick Direction.UP)).map
        (fun s => (s.world.snake.digFood, s.grown, s.world.snake.body.length, s.eaten))
      = some (2, 0, 3, 2) ∧
    runLoop [bothDue, bothDue] twoFoodStart
      = ((runLoop [bothDue] twoFoodStart).bind updateTick).bind (renderTick Direction.UP) ∧
    (runLoop [bothDue, renderOnly, updateOnly] startSession).map
        (fun s => (s.world.snake.digFood, s.world.snake.tail, s.grown))
      = some (3, 3, 0) ∧
    (runLoop [bothDue, renderOnly, updateOnly, bothDue] startSession).map
        (fun s => (s.world.snake.digFood, s.grown, s.world.snake.body.length, s.eaten))
      = some (0, 0, 3, 1) := by
  decide

/-! ## The straight run from the start of the session -/

/-- One update tick of a straight 3-segment snake heading `RIGHT` whose new head
cell is inside the bounds `checkForCollision` tests: every segment takes its
predecessor's place, the head moves 2 columns, nothing else changes. -/
theorem updateTick_straight_alive (s : Session) (x x1 x2 y : Int) (fd : Node)
    (hw : s.world = ⟨[⟨x, y, 2, 0, Direction.RIGHT⟩, ⟨x1, y, 3, 1, Direction.RIGHT⟩,
      ⟨x2, y, 0, 2, Direction.RIGHT⟩, fd], ⟨1, 3, 0, [1, 2, 3]⟩⟩)
    (hx1 : x1 ≤ x)
    (hin : s.startX < x + 2 ∧ x + 2 < s.startX + BOARD_WIDTH ∧ s.startY < y ∧
      y < s.startY + BOARD_HEIGHT - 1) :
    updateTick s = some { s with
      world := ⟨[⟨x + 2, y, 2, 0, Direction.RIGHT⟩, ⟨x, y, 3, 1, Direction.RIGHT⟩,
        ⟨x1, y, 0, 2, Direction.RIGHT⟩, fd], ⟨1, 3, 0, [1, 2, 3]⟩⟩ } := by
  have hne1 : ¬ (x + 2 = x) := by omega
  have hne2 : ¬ (x + 2 = x1) := by omega
  have hb1 : ¬ (x + 2 ≤ s.startX) := by omega
  have hb2 : ¬ (s.startX + BOARD_WIDTH ≤ x + 2) := by omega
  have hb3 : ¬ (y ≤ s.startY) := by omega
  have hb4 : ¬ (s.startY + BOARD_HEIGHT ≤ y + 1) := by omega
  simp only [updateTick, hw, moveSnake, derefAll, propagate, Heap.deref, Heap.store, stepHead,
    checkForCollision]
  simp [hne1, hne2, hb1, hb2, hb3, hb4, overlapLoop, Heap.deref]

/-- One update tick of a straight 3-segment snake heading `RIGHT` whose new head
column reaches `startX + BOARD_WIDTH`: the collision is reported. -/
theorem updateTick_straight_wall (s : Session) (x x1 x2 y : Int) (fd : Node)
    (hw : s.world = ⟨[⟨x, y, 2, 0, Direction.RIGHT⟩, ⟨x1, y, 3, 1, Direction.RIGHT⟩,
      ⟨x2, y, 0, 2, Direction.RIGHT⟩, fd], ⟨1, 3, 0, [1, 2, 3]⟩⟩)
    (hout : s.startX + BOARD_WIDTH ≤ x + 2) :
    updateTick s = some { s with
      world := ⟨[⟨x + 2, y, 2, 0, Direction.RIGHT⟩, ⟨x, y, 3, 1, Direction.RIGHT⟩,
        ⟨x1, y, 0, 2, Direction.RIGHT⟩, fd], ⟨1, 3, 0, [1, 2, 3]⟩⟩,
      gameActive := false } := by
  simp only [updateTick, hw, moveSnake, derefAll, propagate, Heap.deref, Heap.store, stepHead,
    checkForCollision]
  simp [hout]

/-- Cycles of a straight 3-segment snake heading `RIGHT` with no marker set, as
long as the head stays inside the tested bounds and off the food: each cycle
moves the head 2 columns and changes nothing else. -/
theorem cycles_straight (d0 : Direction) :
    ∀ (k : Nat) (s : Session) (x x1 x2 y : Int) (fd : Node),
      s.world = ⟨[⟨x, y, 2, 0, Direction.RIGHT⟩, ⟨x1, y, 3, 1, Direction.RIGHT⟩,
        ⟨x2, y, 0, 2, Direction.RIGHT⟩, fd], ⟨1, 3, 0, [1, 2, 3]⟩⟩ →
      s.food = 4 → x1 ≤ x →
      (∀ i : Nat, 1 ≤ i → i ≤ k →
        (s.startX < x + 2 * i ∧ x + 2 * i < s.startX + BOARD_WIDTH ∧ s.startY < y ∧
          y < s.startY + BOARD_HEIGHT - 1) ∧ ¬ (fd.xPos = x + 2 * i ∧ fd.yPos = y)) →
      ∃ s' x1' x2', cycles d0 k s = some s' ∧
        s'.world = ⟨[⟨x + 2 * k, y, 2, 0, Direction.RIGHT⟩, ⟨x1', y, 3, 1, Direction.RIGHT⟩,
          ⟨x2', y, 0, 2, Direction.RIGHT⟩, fd], ⟨1, 3, 0, [1, 2, 3]⟩⟩ ∧
        x1' ≤ x + 2 * k ∧ s'.gameActive = s.gameActive ∧ s'.food = 4 ∧
        s'.startX = s.startX ∧ s'.startY = s.startY ∧ s'.grown = s.grown ∧
        s'.eaten = s.eaten := by
  intro k
  induction k with
  | zero =>
    intro s x x1 x2 y fd hw hf hx1 _
    refine ⟨s, x1, x2, rfl, ?_, ?_, rfl, hf, rfl, rfl, rfl, rfl⟩
    · rw [hw]; simp
    · simpa using hx1
  | succ k ih =>
    intro s x x1 x2 y fd hw hf hx1 hpath
    obtain ⟨hin, hoff⟩ := hpath 1 (le_refl _) (by omega)
    simp only [Nat.cast_one, mul_one] at hin hoff
    have hu := updateTick_straight_alive s x x1 x2 y fd hw hx1 hin
    have hq : headOnFood { s with
        world := ⟨[⟨x + 2, y, 2, 0, Direction.RIGHT⟩, ⟨x, y, 3, 1, Direction.RIGHT⟩,
          ⟨x1, y, 0, 2, Direction.RIGHT⟩, fd], ⟨1, 3, 0, [1, 2, 3]⟩⟩ } = some false := by
      have : ¬ (x + 2 = fd.xPos ∧ y = fd.yPos) := fun e => hoff ⟨e.1.symm, e.2.symm⟩
      simp [headOnFood, Heap.deref, hf]
      exact fun a b => this ⟨a, b⟩
    have hr := renderTick_quiet d0 _ hq (by show (0 : Nat) ≠ 3; decide)
      (three_linked (x + 2) y x y x1 y Direction.RIGHT Direction.RIGHT Direction.RIGHT fd 0).1.2.1
    have hcy : cycle d0 s = some { s with
        world := ⟨[⟨x + 2, y, 2, 0, Direction.RIGHT⟩, ⟨x, y, 3, 1, Direction.RIGHT⟩,
          ⟨x1, y, 0, 2, Direction.RIGHT⟩, fd], ⟨1, 3, 0, [1, 2, 3]⟩⟩ } := by
      simp only [cycle, hu, Option.some_bind]
      exact hr
    obtain ⟨s', x1', x2', h1, h2, h3, h4, h5, h6, h7, h8, h9⟩ :=
      ih ({ s with
          world := ⟨[⟨x + 2, y, 2, 0, Direction.RIGHT⟩, ⟨x, y, 3, 1, Direction.RIGHT⟩,
            ⟨x1, y, 0, 2, Direction.RIGHT⟩, fd], ⟨1, 3, 0, [1, 2, 3]⟩⟩ } : Session)
        (x + 2) x x1 y fd rfl hf (by omega) (by
        intro i hi1 hik
        have := hpath (i + 1) (by omega) (by omega)
        simp only [Nat.cast_add, Nat.cast_one] at this
        have e : x + 2 * ((i : Int) + 1) = x + 2 + 2 * (i : Int) := by ring
        rw [e] at this
        exact this)
    have e : x + 2 + 2 * (k : Int) = x + 2 * ((k + 1 : Nat) : Int) := by
      push_cast; ring
    rw [e] at h2 h3
    exact ⟨s', x1', x2', by simp only [cycles, hcy, Option.some_bind]; exact h1, h2, h3, h4,
      h5, h6, h7, h8, h9⟩

/-- C13 as stated fails. In an 80 x 40 terminal with the food at `(22, 11)`,
off the head's row, and no key pressed, the head (column 40) reaches column 60
`= startX + BOARD_WIDTH` at the 10th update tick, which reports a collision and
ends the loop: 50 passes leave the head at column 60, not 140, with
`gameActive` false. -/
theorem C13_straight_run_counterexample :
    mainInit 80 40 sampleStart [(30, 12), (22, 11)] = some (some openFieldStart) ∧
    (cycles Direction.UP 9 openFieldStart).map
        (fun s => (s.gameActive, (s.world.heap.deref s.world.snake.head).map Node.xPos))
      = some (true, some 58) ∧
    ((cycles Direction.UP 9 openFieldStart).bind updateTick).map
        (fun s => (s.gameActive, (s.world.heap.deref s.world.snake.head).map Node.xPos))
      = some (false, some 60) ∧
    (runLoop (List.replicate 50 bothDue) openFieldStart).map
        (fun s => (s.gameActive, (s.world.heap.deref s.world.snake.head).map Node.xPos,
          s.world.snake.body.length))
      = some (false, some 60, 3) ∧
    (60 : Int) ≠ 40 + 100 := by
  decide

/-- C13, amended. End-to-end straight run: from the state `main` starts the loop
in (3-segment snake heading `RIGHT`, head at column `startX + BOARD_WIDTH / 2`
of the 40 x 20 arena), with no key input and the food on none of the cells in
the head's path, each of the first 9 update ticks reports no collision, after
`k ≤ 9` of them the head has advanced `k` head steps (`2 * k` columns) to the
right on the same row and the body length is still 3; the 10th update tick
puts the head on column `startX + BOARD_WIDTH` and reports a collision. -/
theorem C13_straight_run (windowW windowH : Nat) (u : Indeterminate)
    (rng : List (Int × Int)) (s0 : Session) (f0 : Node) (d0 : Direction)
    (hinit : mainInit windowW windowH u rng = some (some s0))
    (hf0 : s0.world.heap.deref s0.food = some f0)
    (hclear : ∀ i : Nat, 1 ≤ i → i ≤ 9 →
      ¬ (f0.xPos = mainStartX windowW + BOARD_WIDTH.tdiv 2 + 2 * i ∧
        f0.yPos = mainStartY windowH + BOARD_HEIGHT.tdiv 2)) :
    (∀ k : Nat, k ≤ 9 → ∃ s hd, cycles d0 k s0 = some s ∧ s.gameActive = true ∧
      s.world.snake.body.length = 3 ∧ s.world.heap.deref s.world.snake.head = some hd ∧
      hd.xPos = mainStartX windowW + BOARD_WIDTH.tdiv 2 + 2 * k ∧
      hd.yPos = mainStartY windowH + BOARD_HEIGHT.tdiv 2) ∧
    ∃ s hd, (cycles d0 9 s0).bind updateTick = some s ∧ s.gameActive = false ∧
      s.world.heap.deref s.world.snake.head = some hd ∧
      hd.xPos = mainStartX windowW + BOARD_WIDTH := by
  obtain ⟨_, x, y, _, hw, hfood, _, hsx, hsy, hga, _⟩ :=
    mainInit_spec windowW windowH u rng s0 hinit
  have hf : f0 = ⟨evenColumn x, y, 0, 0, u.dir⟩ := by
    rw [hw, hfood] at hf0
    simp [Heap.deref] at hf0
    exact hf0.symm
  rw [half_width, half_height] at hclear ⊢
  have hrun : ∀ k : Nat, k ≤ 9 → ∃ s x1' x2', cycles d0 k s0 = some s ∧
      s.world = ⟨[⟨mainStartX windowW + 20 + 2 * k, mainStartY windowH + 10, 2, 0,
          Direction.RIGHT⟩,
        ⟨x1', mainStartY windowH + 10, 3, 1, Direction.RIGHT⟩,
        ⟨x2', mainStartY windowH + 10, 0, 2, Direction.RIGHT⟩, f0], ⟨1, 3, 0, [1, 2, 3]⟩⟩ ∧
      x1' ≤ mainStartX windowW + 20 + 2 * k ∧ s.gameActive = true ∧
      s.startX = mainStartX windowW := by
    intro k hk
    obtain ⟨s, x1', x2', h1, h2, h3, h4, _, h6, _⟩ :=
      cycles_straight d0 k s0 (mainStartX windowW + 20) (mainStartX windowW + 20 - 1)
        (mainStartX windowW + 20 - 2) (mainStartY windowH + 10) f0 (by rw [hw, hf]) hfood
        (by omega) (by
          intro i hi1 hik
          refine ⟨?_, hclear i hi1 (by omega)⟩
          rw [hsx, hsy]
          unfold BOARD_WIDTH BOARD_HEIGHT
          have : (i : Int) ≤ 9 := by exact_mod_cast (by omega : i ≤ 9)
          have : (1 : Int) ≤ i := by exact_mod_cast hi1
          omega)
    exact ⟨s, x1', x2', h1, h2, h3, by rw [h4, hga], by rw [h6, hsx]⟩
  refine ⟨?_, ?_⟩
  · intro k hk
    obtain ⟨s, x1', x2', h1, h2, _, h4, _⟩ := hrun k hk
    refine ⟨s, ⟨mainStartX windowW + 20 + 2 * k, mainStartY windowH + 10, 2, 0,
      Direction.RIGHT⟩, h1, h4, ?_, ?_, rfl, rfl⟩
    · rw [h2]; rfl
    · rw [h2]; rfl
  · obtain ⟨s, x1', x2', h1, h2, _, _, h5⟩ := hrun 9 (le_refl _)
    have hu := updateTick_straight_wall s _ _ _ _ _ h2 (by
      rw [h5]; unfold BOARD_WIDTH; push_cast; omega)
    rw [h1]
    simp only [Option.some_bind, hu]
    refine ⟨_, ⟨mainStartX windowW + 20 + 2 * ((9 : Nat) : Int) + 2, mainStartY windowH + 10,
      2, 0, Direction.RIGHT⟩, rfl, rfl, rfl, ?_⟩
    show mainStartX windowW + 20 + 2 * ((9 : Nat) : Int) + 2 = mainStartX windowW + BOARD_WIDTH
    unfold BOARD_WIDTH
    push_cast
    omega

/-- C13, witness of the amended statement in an 80 x 40 terminal with the food
at `(22, 11)`: after 9 cycles the head is at column `40 + 18`, the game is
active and the body has 3 segments; the 10th update tick ends the game. -/
theorem C13_straight_run_witness :
    (∃ s hd, cycles Direction.UP 9 openFieldStart = some s ∧ s.gameActive = true ∧
      s.world.snake.body.length = 3 ∧ s.world.heap.deref s.world.snake.head = some hd ∧
      hd.xPos = mainStartX 80 + BOARD_WIDTH.tdiv 2 + 2 * ((9 : Nat) : Int) ∧
      hd.yPos = mainStartY 40 + BOARD_HEIGHT.tdiv 2) ∧
    ∃ s hd, (cycles Direction.UP 9 openFieldStart).bind updateTick = some s ∧
      s.gameActive = false ∧ s.world.heap.deref s.world.snake.head = some hd ∧
      hd.xPos = mainStartX 80 + BOARD_WIDTH := by
  have h := C13_straight_run 80 40 sampleStart [(30, 12), (22, 11)] openFieldStart
    ⟨22, 11, 0, 0, Direction.UP⟩ Direction.UP (by decide) (by decide)
    (fun i _ _ e => absurd e.2 (by decide))
  exact ⟨h.1 9 (le_refl _), h.2⟩

/-! ## Food cells and the column lattice -/

theorem evenColumn_range (startX x : Int) (hsx : startX % 2 = 0)
    (hx : startX + 2 ≤ x ∧ x ≤ startX + BOARD_WIDTH - 2) :
    startX + 2 ≤ evenColumn x ∧ evenColumn x ≤ startX + BOARD_WIDTH - 2 := by
  unfold evenColumn BOARD_WIDTH at *
  by_cases h : x.tmod 2 = 0
  · simp only [h, ne_eq, not_true_eq_false, if_false]
    exact hx
  · have hdvd : ¬ (2 : Int) ∣ x := fun e => h (Int.dvd_iff_tmod_eq_zero.mp e)
    simp only [ne_eq, h, not_false_eq_true, if_true]
    omega

/-- C16. Food cells are even-column interior cells: for every even arena offset
`startX` and samples `(x, y)` with `startX + 2 ≤ x ≤ startX + BOARD_WIDTH - 2`
and `startY + 1 ≤ y ≤ startY + BOARD_HEIGHT - 2`, the position `drawFood`
stores when it returns has an even column and lies strictly inside the border,
so for a head on that cell the wall test of `checkForCollision` is negative:
the answer is that of the overlap loop alone. -/
theorem C16_food_cells_interior (startX startY : Int) (w : World) (food : Nat)
    (samples : List (Int × Int)) (w' : World) (rest : List (Int × Int))
    (hsx : startX % 2 = 0)
    (hrange : ∀ smp ∈ samples, (startX + 2 ≤ smp.1 ∧ smp.1 ≤ startX + BOARD_WIDTH - 2) ∧
      (startY + 1 ≤ smp.2 ∧ smp.2 ≤ startY + BOARD_HEIGHT - 2))
    (hr : drawFood w food samples = some (w', rest)) :
    ∃ f, w'.heap.deref food = some f ∧ f.xPos % 2 = 0 ∧
      (startX < f.xPos ∧ f.xPos < startX + BOARD_WIDTH - 1) ∧
      (startY < f.yPos ∧ f.yPos < startY + BOARD_HEIGHT - 1) ∧
      ∀ (w2 : World) (hd : Node), w2.heap.deref w2.snake.head = some hd →
        hd.xPos = f.xPos → hd.yPos = f.yPos →
        checkForCollision startX startY w2
          = overlapLoop w2.heap w2.snake.head (w2.snake.body.drop 1) := by
  obtain ⟨f, x, y, hf, hmem, _, hw', _⟩ := drawFood_spec w food samples w' rest hr
  obtain ⟨hx, hy⟩ := hrange (x, y) hmem
  have hcol := evenColumn_range startX x hsx hx
  have heven := evenColumn_even x
  simp only at hy
  have hstored : w'.heap.deref food = some { f with xPos := evenColumn x, yPos := y } := by
    rw [hw']
    simp only
    rw [deref_store w.heap food food f _ hf, if_pos rfl]
  refine ⟨_, hstored, heven, ?_, ?_, ?_⟩
  · simp only; unfold BOARD_WIDTH at *; omega
  · simp only; unfold BOARD_HEIGHT at *; omega
  · intro w2 hd hhd hxe hye
    simp only at hxe hye
    have hwall : ¬ (hd.xPos ≤ startX ∨ hd.xPos ≥ startX + BOARD_WIDTH ∨
        hd.yPos ≤ startY ∨ hd.yPos ≥ startY + BOARD_HEIGHT - 1) := by
      rw [hxe, hye]
      unfold BOARD_WIDTH BOARD_HEIGHT at *
      omega
    unfold checkForCollision
    simp only [hhd, Option.bind_eq_bind, Option.some_bind, if_neg hwall]

/-- C16, witness: arena offset `(20, 10)`, samples `(57, 28)` (adjusted to
column 56) in range: the food is stored at `(56, 28)`, an even column strictly
inside the border columns 20 and 59 and rows 10 and 29. -/
theorem C16_food_cells_interior_witness :
    ∃ f, (drawFood startSession.world 4 [(57, 28)]).bind (fun r => r.1.heap.deref 4) = some f ∧
      (f.xPos, f.yPos) = (56, 28) ∧ f.xPos % 2 = 0 ∧
      (20 < f.xPos ∧ f.xPos < 20 + BOARD_WIDTH - 1) ∧
      (10 < f.yPos ∧ f.yPos < 10 + BOARD_HEIGHT - 1) := by
  have hr : drawFood startSession.world 4 [(57, 28)]
      = some ((drawFood startSession.world 4 [(57, 28)]).getD (startSession.world, []) |>.1,
        []) := by decide
  obtain ⟨f, h1, h2, h3, h4, _⟩ :=
    C16_food_cells_interior 20 10 startSession.world 4 [(57, 28)] _ [] (by decide)
      (by decide) hr
  refine ⟨f, ?_, ?_, h2, h3, h4⟩
  · rw [hr]; exact h1
  · have h5 : ((drawFood startSession.world 4 [(57, 28)]).getD
        (startSession.world, []) |>.1).heap.deref 4 = some ⟨56, 28, 0, 0, Direction.UP⟩ := by
      decide
    rw [h5] at h1
    cases h1
    rfl

/-- C19. Head stays on the even-column lattice: for every terminal width the
arena offset `startX` of `main` is even; the head starts on the even column
`startX + BOARD_WIDTH / 2`; a key press leaves the head's column as it is and
`moveSnake` keeps it even; in every state the loop passes through the head's
column and the food's column are both even; and every column `drawFood` stores
is even. -/
theorem C19_head_even_lattice :
    (∀ windowW : Nat, mainStartX windowW % 2 = 0) ∧
    (∀ windowW windowH u rng s0, mainInit windowW windowH u rng = some (some s0) →
      (s0.world.heap.deref s0.world.snake.head).map Node.xPos
        = some (mainStartX windowW + BOARD_WIDTH.tdiv 2) ∧
      (mainStartX windowW + BOARD_WIDTH.tdiv 2) % 2 = 0) ∧
    (∀ (s s' : Session) (c : Char), InLoop s → keyPress c s = some s' →
      (s'.world.heap.deref s'.world.snake.head).map Node.xPos
        = (s.world.heap.deref s.world.snake.head).map Node.xPos) ∧
    (∀ (s : Session) (w' : World), InLoop s → moveSnake s.world = some w' →
      (w'.heap.deref w'.snake.head).map (fun n => n.xPos % 2) = some 0) ∧
    (∀ s : Session, InLoop s →
      (s.world.heap.deref s.world.snake.head).map (fun n => n.xPos % 2) = some 0 ∧
      (s.world.heap.deref s.food).map (fun n => n.xPos % 2) = some 0) ∧
    (∀ (w : World) (food : Nat) (samples : List (Int × Int)) (w' : World)
      (rest : List (Int × Int)), drawFood w food samples = some (w', rest) →
      (w'.heap.deref food).map (fun n => n.xPos % 2) = some 0) := by
  refine ⟨mainStartX_even, ?_, ?_, ?_, ?_, ?_⟩
  · intro windowW windowH u rng s0 hinit
    obtain ⟨_, x, y, _, hw, _⟩ := mainInit_spec windowW windowH u rng s0 hinit
    rw [hw, half_width]
    refine ⟨rfl, ?_⟩
    have := mainStartX_even windowW
    omega
  · intro s s' c hs hk
    have hinv := inLoop_inv s hs
    obtain ⟨hdn, hhd⟩ := Option.isSome_iff_exists.mp
      (hinv.1.2.1 _ (head_mem_of_wellLinked _ hinv.1))
    have hturn : ∀ d, (turnHead d s.world).map (fun w => { s with ch := c, world := w })
        = some s' → (s'.world.heap.deref s'.world.snake.head).map Node.xPos
          = (s.world.heap.deref s.world.snake.head).map Node.xPos := by
      intro d hd
      obtain ⟨w', ht, hsn, _, _, _, hpos⟩ := turnHead_spec d s.world hdn hhd
      rw [ht] at hd
      simp only [Option.map_some', Option.some.injEq] at hd
      subst hd
      simp only [hsn]
      exact (hpos _).1
    unfold keyPress at hk
    split at hk
    · exact hturn _ hk
    · split at hk
      · exact hturn _ hk
      · split at hk
        · exact hturn _ hk
        · split at hk
          · exact hturn _ hk
          · cases hk; rfl
  · intro s w' hs hm
    obtain ⟨hwl, _, _, _, _, _, hhp, _⟩ := inLoop_inv s hs
    obtain ⟨w1, hm1, hsn, _, _, ⟨hd, hhd, hhd'⟩, _⟩ :=
      moveSnake_spec s.world hwl.1 hwl.2.1 hwl.2.2.1 hwl.2.2.2.2.1
    rw [hm] at hm1
    cases hm1
    rw [hsn, hhd']
    rw [hhd] at hhp
    simp only [Option.map_some', Option.some.injEq] at hhp ⊢
    rw [stepHead_parity]
    exact hhp
  · intro s hs
    obtain ⟨_, _, _, _, _, _, hhp, hfp⟩ := inLoop_inv s hs
    exact ⟨hhp, hfp⟩
  · intro w food samples w' rest hr
    obtain ⟨f, x, y, hf, _, _, hw', _⟩ := drawFood_spec w food samples w' rest hr
    rw [hw']
    simp only
    rw [deref_store w.heap food food f _ hf, if_pos rfl]
    simp only [Option.map_some', Option.some.injEq]
    exact evenColumn_even x

/-- C19, witness: in the session in which the first food has just been eaten
the head is on column 42 and the food on column 50, both even. -/
theorem C19_head_even_lattice_witness :
    (fedSession.world.heap.deref fedSession.world.snake.head).map Node.xPos = some 42 ∧
    (fedSession.world.heap.deref fedSession.food).map Node.xPos = some 50 ∧
    (fedSession.world.heap.deref fedSession.world.snake.head).map (fun n => n.xPos % 2)
      = some 0 ∧
    (fedSession.world.heap.deref fedSession.food).map (fun n => n.xPos % 2) = some 0 := by
  have hin : InLoop fedSession :=
    InLoop.grow Direction.UP fedSession fedSession
      (InLoop.eat _ fedSession
        (InLoop.update startSession _
          (InLoop.start 80 40 sampleStart [(30, 12), (42, 20), (50, 15), (22, 11)] startSession
            (by decide))
          (show updateTick startSession = some ((updateTick startSession).getD startSession)
            by decide))
        (by decide))
      (by decide)
  exact ⟨by decide, by decide, C19_head_even_lattice.2.2.2.2.1 fedSession hin⟩

/-! ## Reversing into the body -/

theorem stepHead_opposite (hd b1 : Node) (d : Direction)
    (hb : (stepHead { b1 with dir := d }).xPos = hd.xPos ∧
      (stepHead { b1 with dir := d }).yPos = hd.yPos) :
    (stepHead { hd with dir := opposite d }).xPos = b1.xPos ∧
      (stepHead { hd with dir := opposite d }).yPos = b1.yPos := by
  cases d <;> simp only [stepHead, opposite] at hb ⊢ <;> constructor <;> omega

/-- C18. A 180-degree turn is fatal: on a snake of at least 3 distinct live
segments with `prev` links along the body and head `body[0]`, whose second
segment sits one head step behind the head along direction `d` (one
`moveSnake` step from `body[1]` in direction `d` lands on the head), setting
the head's direction to the opposite of `d` and calling `moveSnake` returns a
state in which the head's position equals that of `body[2]`, and
`checkForCollision` reports a collision for every arena offset. -/
theorem C18_reversal_fatal (minX minY : Int) (w : World) (d : Direction) (hd b1 : Node)
    (hn : 3 ≤ w.snake.body.length) (hnd : w.snake.body.Nodup)
    (hv : ValidBody w.heap w.snake.body) (hpl : PrevLinked w.heap w.snake.body)
    (hh : w.snake.body.head? = some w.snake.head)
    (hhd : w.heap.deref w.snake.head = some hd)
    (hb1 : w.heap.deref (w.snake.body.getD 1 0) = some b1)
    (hbehind : (stepHead { b1 with dir := d }).xPos = hd.xPos ∧
      (stepHead { b1 with dir := d }).yPos = hd.yPos) :
    ∃ w1 w2 hd2 b2, turnHead (opposite d) w = some w1 ∧ moveSnake w1 = some w2 ∧
      w2.heap.deref w2.snake.head = some hd2 ∧
      w2.heap.deref (w2.snake.body.getD 2 0) = some b2 ∧
      hd2.xPos = b2.xPos ∧ hd2.yPos = b2.yPos ∧
      checkForCollision minX minY w2 = some false := by
  obtain ⟨w1, ht, hs1, hhd1, hoth, hlinks1, _⟩ := turnHead_spec (opposite d) w hd hhd
  have hhead0 : w.snake.body.getD 0 0 = w.snake.head := by
    have := getElem?_getD_of_lt w.snake.body 0 (by omega)
    rw [List.head?_eq_getElem?] at hh
    rw [hh] at this
    exact (Option.some.inj this).symm
  have hne1 : w.snake.body.getD 1 0 ≠ w.snake.head := by
    intro e
    rw [← hhead0] at e
    have := getD_inj_of_nodup _ hnd 1 0 (by omega) (by omega) e
    omega
  have hv1 : ValidBody w1.heap w1.snake.body := by
    intro p hp
    rw [hs1] at hp
    exact isSome_of_map_eq _ _ _ (hlinks1 p).1 (hv p hp)
  have hpl1 : PrevLinked w1.heap w1.snake.body := by
    intro i hi
    rw [hs1] at hi ⊢
    rw [(hlinks1 _).2]
    exact hpl i hi
  obtain ⟨w2, hm, hs2, _, _, ⟨hd1, hhd1', hhd2⟩, hprop⟩ :=
    moveSnake_spec w1 (by rw [hs1]; exact hnd) hv1 hpl1 (by rw [hs1]; exact hh)
  obtain ⟨w2', hm', _, hlinks2⟩ :=
    moveSnake_links w1 (by rw [hs1]; exact hnd) hv1 hpl1 (by rw [hs1]; exact hh)
  rw [hm] at hm'
  cases hm'
  rw [hs1] at hhd1' hhd2
  rw [hhd1] at hhd1'
  cases hhd1'
  obtain ⟨n2, q, _, hq, hb2⟩ := hprop 2 (by omega) (by rw [hs1]; omega)
  rw [hs1] at hq hb2
  have hq' : q = b1 := by
    have h1 : w1.heap.deref (w.snake.body.getD 1 0) = some b1 := by
      rw [hoth _ hne1]; exact hb1
    simp only [Nat.add_one_sub_one] at hq
    rw [h1] at hq
    exact (Option.some.inj hq).symm
  subst hq'
  obtain ⟨hx, hy⟩ := stepHead_opposite hd q d hbehind
  have hv2 : ValidBody w2.heap w2.snake.body := by
    intro p hp
    rw [hs2] at hp
    exact isSome_of_map_eq _ _ _ (hlinks2 p).1 (hv1 p hp)
  have hmem : w.snake.body.getD 2 0 ∈ w2.snake.body.drop 1 := by
    rw [hs2, hs1, List.mem_iff_getElem?]
    refine ⟨1, ?_⟩
    rw [List.getElem?_drop]
    exact getElem?_getD_of_lt _ 2 (by omega)
  refine ⟨w1, w2, stepHead { hd with dir := opposite d }, copyFrom n2 q, ht, hm,
    by rw [hs2, hs1]; exact hhd2, by rw [hs2, hs1]; exact hb2, hx, hy, ?_⟩
  apply checkForCollision_reports minX minY w2 (stepHead { hd with dir := opposite d })
    (by rw [hs2, hs1]; exact hhd2) hv2
  right
  exact ⟨_, hmem, copyFrom n2 q, hb2, hx.symm, hy.symm⟩

/-- C18, witness: the straight snake at columns 10, 8, 6 heading `RIGHT`: after
the head is turned `LEFT` and `moveSnake` runs, head and `body[2]` are both on
`(8, 5)` and the collision is reported. -/
theorem C18_reversal_fatal_witness :
    (∃ w1 w2 hd2 b2, turnHead Direction.LEFT rowSnake = some w1 ∧ moveSnake w1 = some w2 ∧
      w2.heap.deref w2.snake.head = some hd2 ∧
      w2.heap.deref (w2.snake.body.getD 2 0) = some b2 ∧
      hd2.xPos = b2.xPos ∧ hd2.yPos = b2.yPos ∧
      checkForCollision 0 0 w2 = some false) ∧
    ((turnHead Direction.LEFT rowSnake).bind moveSnake).map
        (fun w2 => w2.snake.body.map
          (fun p => (w2.heap.deref p).map (fun n => (n.xPos, n.yPos))))
      = some [some (8, 5), some (10, 5), some (8, 5)] :=
  ⟨C18_reversal_fatal 0 0 rowSnake Direction.RIGHT ⟨10, 5, 2, 0, Direction.RIGHT⟩
      ⟨8, 5, 3, 1, Direction.RIGHT⟩ (by decide) (by decide) (by decide) (by decide)
      (by decide) (by decide) (by decide) (by decide),
    by decide⟩

/-! ## The wall test on the calls `main` makes -/

end TerminalSnake
